import Mathlib

/-!
# Packet pipeline of the behavioral-model switch targets

A shallow embedding of the two switch targets of the repository:

* `targets/simple_switch/simple_switch.cpp` (the *split* topology: ingress thread,
  egress thread, transmit thread), embedded in namespace `simple_switch`;
* `targets/l2_switch/l2_switch.cpp` (the *fused* topology: one pipeline thread and a
  transmit thread), embedded in namespace `l2_switch`.

Each loop body is a function from the popped packet to an `Exec` value: the sequence of
observable events the body performs (field look-ups, reads and writes, stage invocations,
notifier and replication-engine calls, queue pushes) together with either a fault or a
normal completion.

Conventions:

* C++ `int` values are integers; the function-static `int pkt_id` of `receive`, the only
  value the code does arithmetic on without bound, wraps at 32 bits (`int_wrap`).
* `bm_sim` (packet, field-set, queue, stages, replication engine) is not among the
  sources.  `Packet`, `PHV` and the queue are modelled from the specification; parser,
  match-action stages, deparser and replication engine are parameters.
* A field holds a value of fixed bit-width.  The loops read back exactly one value they
  wrote themselves: the ingress port of the fused loop (l2_switch.cpp lines 106-107),
  which then decides the pruning.  The width of that field is a parameter of the fused
  environment and the write there stores the port reduced to that width
  (`Field.stored`).  Every other write stores the integer written.
* `phv->get_field(name)` on an absent field is a fault (`Fault.field_absent`);
  `assert(c)` with `c` false is a fault (`Fault.assertion_failed`).
* Logging (`SIMPLELOG`, `ELOGGER`, `std::cout`) has no effect on the pipeline and is left
  out.
-/

namespace bm

/-! ## Field-set (PHV) -/

/-- One named field of a field-set: `header.name`, its current value, and whether it is
tagged as per-packet metadata. -/
structure Field where
  header : String
  name : String
  value : Int
  metadata : Bool
deriving DecidableEq, Repr

/-- Modelled from the spec: the field-set class `PHV` (`bm_sim/phv.h` is not among the
sources).  A field-set maps qualified names `"header.field"` to values; field widths are
fixed by the loaded program and are not part of the field-set: `PHV.write` stores the
integer it is given, and a write whose value is read back by the loop reduces it to the
field's width first (`Field.set_bits`). -/
structure PHV where
  fields : List Field
deriving DecidableEq, Repr

/-- The test `f` is the field `header.name`. -/
def Field.is (f : Field) (h n : String) : Bool := f.header == h && f.name == n

/-- Modelled from the spec: `PHV::has_header(h)`. -/
def PHV.has_header (phv : PHV) (h : String) : Bool :=
  phv.fields.any (fun f => f.header == h)

/-- Modelled from the spec: `PHV::has_field("h.n")`. -/
def PHV.has_field (phv : PHV) (h n : String) : Bool :=
  phv.fields.any (fun f => f.is h n)

/-- Value stored in field `h.n`, when the field exists. -/
def PHV.read (phv : PHV) (h n : String) : Option Int :=
  (phv.fields.find? (fun f => f.is h n)).map (fun f => f.value)

/-- Store `v` in field `h.n`. -/
def PHV.write (phv : PHV) (h n : String) (v : Int) : PHV :=
  ⟨phv.fields.map (fun f => if f.is h n then { f with value := v } else f)⟩

/-- Modelled from the spec: `PHV::reset_metadata()` clears all fields tagged as per-packet
metadata to their default value. -/
def PHV.reset_metadata (phv : PHV) : PHV :=
  ⟨phv.fields.map (fun f => if f.metadata then { f with value := 0 } else f)⟩

/-- The qualified names a field-set holds, in storage order. -/
def PHV.layout (phv : PHV) : List (String × String) :=
  phv.fields.map (fun f => (f.header, f.name))

/-! ## Packet -/

/-- Modelled from the spec: the `Packet` class (`bm_sim/packet.h` is not among the
sources): identity (`packet_id`, `copy_id`), ports, ingress length, bytes and an owned
field-set. -/
structure Packet where
  ingress_port : Int
  packet_id : Int
  copy_id : Nat
  ingress_length : Int
  egress_port : Int
  data : List Nat
  phv : PHV
deriving DecidableEq, Repr

/-- Modelled from the spec: `Packet::clone(copy_id)` produces a new instance with the
given copy id and its own copy of the field values and bytes. -/
def Packet.clone (p : Packet) (copy_id : Nat) : Packet := { p with copy_id := copy_id }

/-- The setter `Packet::set_egress_port`. -/
def Packet.set_egress_port (p : Packet) (port : Int) : Packet := { p with egress_port := port }

/-- Modelled from the spec: the constructor
`Packet(ingress_port, id, copy_id, ingress_length, PacketBuffer(2048, buffer, len))`.  The
field-set of a new packet comes from the switch's field-set factory (`blank`); the egress
port is unset (0) until a pipeline step assigns it. -/
def Packet.new (blank : PHV) (ingress_port id : Int) (copy_id : Nat) (len : Int)
    (buffer : List Nat) : Packet :=
  { ingress_port := ingress_port, packet_id := id, copy_id := copy_id,
    ingress_length := len, egress_port := 0, data := buffer.take len.toNat, phv := blank }

/-! ## Opaque stages -/

/-- Modelled from the spec: parser, match-action stage and deparser are opaque
collaborators invoked synchronously on a packet.  A stage rewrites the bytes and the field
values of the packet; the set of fields of a field-set is fixed when the program is
loaded, so a stage keeps the layout. -/
structure Stage where
  run : List Nat → PHV → List Nat × PHV
  layout_eq : ∀ d phv, (run d phv).2.layout = phv.layout

/-- Run a stage on a packet. -/
def Stage.apply (s : Stage) (p : Packet) : Packet :=
  { p with data := (s.run p.data p.phv).1, phv := (s.run p.data p.phv).2 }

/-- One element of the replication engine's output (`McOut`). -/
structure McOut where
  egress_port : Int
  rid : Int
deriving DecidableEq, Repr

/-! ## Events and executions -/

/-- The queues of the two targets. -/
inductive Buffer where
  | input_buffer
  | egress_buffer
  | output_buffer
deriving DecidableEq, Repr

/-- Observable actions of a loop body. -/
inductive Event where
  | reset_metadata
  | get_field (h n : String)
  | set (h n : String) (v : Int)
  | get (h n : String)
  | parse (p : Packet)
  | apply (pipeline : String) (p : Packet)
  | deparse (p : Packet)
  | learn (learn_id : Int) (p : Packet)
  | replicate (mgid : Nat)
  | push_front (q : Buffer) (p : Packet)
deriving DecidableEq, Repr

/-- Abnormal terminations of a loop body. -/
inductive Fault where
  | field_absent (h n : String)
  | assertion_failed
deriving DecidableEq, Repr

/-- An execution: the events performed so far and how the body ended. -/
structure Exec (α : Type) where
  trace : List Event
  result : Except Fault α

/-- Sequencing: the events of `m`, then those of `f`, unless `m` faulted. -/
def Exec.bind {α β : Type} (m : Exec α) (f : α → Exec β) : Exec β :=
  match m.result with
  | .error e => ⟨m.trace, .error e⟩
  | .ok a => ⟨m.trace ++ (f a).trace, (f a).result⟩

instance : Monad Exec where
  pure a := ⟨[], .ok a⟩
  bind := Exec.bind

/-- Perform one event. -/
def emit (e : Event) : Exec Unit := ⟨[e], .ok ()⟩

/-- Stop with a fault. -/
def fault {α : Type} (f : Fault) : Exec α := ⟨[], .error f⟩

/-- The call `phv->get_field("h.n")`: a fault when the field is absent. -/
def get_field (p : Packet) (h n : String) : Exec Unit :=
  if p.phv.has_field h n then emit (.get_field h n)
  else Exec.bind (emit (.get_field h n)) (fun _ => fault (.field_absent h n))

/-- The call `Field::set(v)` on the field `h.n` of the packet's field-set. -/
def Field.set (p : Packet) (h n : String) (v : Int) : Exec Packet :=
  if p.phv.has_field h n then
    Exec.bind (emit (.set h n v)) (fun _ => pure { p with phv := p.phv.write h n v })
  else fault (.field_absent h n)

/-- Modelled from the spec: a field holds "a typed value with a fixed bit-width" (the field
class of `bm_sim` is not among the sources).  The value a field of `w` bits holds after
`set(v)`: `v` reduced modulo `2 ^ w`. -/
def Field.stored (w : Nat) (v : Int) : Int := v % 2 ^ w

/-- The call `Field::set(v)` on the field `h.n`, a field of `w` bits: the field then holds
`v` reduced to `w` bits. -/
def Field.set_bits (w : Nat) (p : Packet) (h n : String) (v : Int) : Exec Packet :=
  if p.phv.has_field h n then
    Exec.bind (emit (.set h n v))
      (fun _ => pure { p with phv := p.phv.write h n (Field.stored w v) })
  else fault (.field_absent h n)

/-- The call `Field::get_int()` on the field `h.n`. -/
def Field.get_int (p : Packet) (h n : String) : Exec Int :=
  match p.phv.read h n with
  | some v => Exec.bind (emit (.get h n)) (fun _ => pure v)
  | none => fault (.field_absent h n)

/-- The call `Field::get_uint()` on the field `h.n`: the value as an `unsigned int`. -/
def Field.get_uint (p : Packet) (h n : String) : Exec Nat :=
  match p.phv.read h n with
  | some v => Exec.bind (emit (.get h n)) (fun _ => pure (v % 2 ^ 32).toNat)
  | none => fault (.field_absent h n)

/-- The macro `assert(c)`: a fault when the condition fails. -/
def assert (c : Bool) : Exec Unit :=
  if c then pure () else fault .assertion_failed

/-- The packets pushed onto queue `q`, in push order. -/
def pushed (q : Buffer) (tr : List Event) : List Packet :=
  tr.filterMap (fun e => match e with
    | .push_front q' p => if q' = q then some p else none
    | _ => none)

/-- The notifier calls `(learn_id, packet)`, in call order. -/
def learned (tr : List Event) : List (Int × Packet) :=
  tr.filterMap (fun e => match e with
    | .learn v p => some (v, p)
    | _ => none)

/-- The reserved egress value meaning "drop". -/
def DROP_PORT : Int := 511

end bm

namespace simple_switch
open bm

/-- The enumeration `PktInstanceType`, by its C++ values. -/
def PKT_INSTANCE_TYPE_NORMAL : Int := 0
def PKT_INSTANCE_TYPE_INGRESS_CLONE : Int := 1
def PKT_INSTANCE_TYPE_EGRESS_CLONE : Int := 2
def PKT_INSTANCE_TYPE_COALESCED : Int := 3
def PKT_INSTANCE_TYPE_INGRESS_RECIRC : Int := 4
def PKT_INSTANCE_TYPE_REPLICATION : Int := 5
def PKT_INSTANCE_TYPE_RESUBMIT : Int := 6

/-- The fields the constructor `SimpleSwitch()` declares with `add_required_field`
(simple_switch.cpp lines 59-63). -/
def required_fields : List (String × String) :=
  [("standard_metadata", "ingress_port"), ("standard_metadata", "packet_length"),
   ("standard_metadata", "instance_type"), ("standard_metadata", "egress_spec"),
   ("standard_metadata", "clone_spec")]

/-- The collaborators of the split-topology threads: the named stages, the replication
engine `pre->replicate` and the clock reading (microseconds since `start`). -/
structure Env where
  parser : Stage
  ingress_mau : Stage
  egress_mau : Stage
  deparser : Stage
  replicate : Nat → List McOut
  now : Int

/-- Lines 137-140 of `ingress_thread`: the ingress timestamp, written when the field
exists. -/
def ingress_timestamp (env : Env) (packet : Packet) : Exec Packet :=
  if packet.phv.has_field "intrinsic_metadata" "ingress_global_timestamp" then do
    get_field packet "intrinsic_metadata" "ingress_global_timestamp"
    Field.set packet "intrinsic_metadata" "ingress_global_timestamp" env.now
  else pure packet

/-- Lines 133-151 of `ingress_thread`: fill the standard metadata, parse and apply the
ingress match-action stage. -/
def ingress_metadata (env : Env) (packet : Packet) : Exec Packet := do
  let ingress_port := packet.ingress_port
  let packet ← ingress_timestamp env packet
  get_field packet "standard_metadata" "ingress_port"
  let packet ← Field.set packet "standard_metadata" "ingress_port" ingress_port
  let ingress_length := packet.ingress_length
  get_field packet "standard_metadata" "packet_length"
  let packet ← Field.set packet "standard_metadata" "packet_length" ingress_length
  get_field packet "standard_metadata" "instance_type"
  let packet ← Field.set packet "standard_metadata" "instance_type" PKT_INSTANCE_TYPE_NORMAL
  emit (.parse packet)
  let packet := env.parser.apply packet
  emit (.apply "ingress" packet)
  let packet := env.ingress_mau.apply packet
  pure packet

/-- Lines 129-151 of `ingress_thread`: reset the metadata, then `ingress_metadata`.  The
result is the packet as the ingress match-action stage leaves it. -/
def ingress_prologue (env : Env) (packet : Packet) : Exec Packet := do
  emit .reset_metadata
  ingress_metadata env { packet with phv := packet.phv.reset_metadata }

/-- The decision values read at lines 153-168. -/
structure Decision where
  egress_spec : Int
  clone_spec : Int
  learn_id : Int
  mgid : Nat
deriving DecidableEq, Repr

/-- Lines 153-168 of `ingress_thread`: read egress-spec and clone-spec, and, when the
`intrinsic_metadata` header exists, the learn id and the multicast group. -/
def ingress_decision (packet : Packet) : Exec Decision := do
  get_field packet "standard_metadata" "egress_spec"
  let egress_spec ← Field.get_int packet "standard_metadata" "egress_spec"
  get_field packet "standard_metadata" "clone_spec"
  let clone_spec ← Field.get_int packet "standard_metadata" "clone_spec"
  if packet.phv.has_header "intrinsic_metadata" then do
    get_field packet "intrinsic_metadata" "lf_field_list"
    let learn_id ← Field.get_int packet "intrinsic_metadata" "lf_field_list"
    get_field packet "intrinsic_metadata" "mcast_grp"
    let mgid ← Field.get_uint packet "intrinsic_metadata" "mcast_grp"
    pure ⟨egress_spec, clone_spec, learn_id, mgid⟩
  else
    pure ⟨egress_spec, clone_spec, 0, 0⟩

/-- Lines 170-182 of `ingress_thread` (INGRESS CLONING): returns the original packet and
the next copy id. -/
def ingress_cloning (packet : Packet) (clone_spec : Int) : Exec (Packet × Nat) := do
  let copy_id : Nat := 1
  if clone_spec ≠ 0 then do
    let packet ← Field.set packet "standard_metadata" "instance_type"
      PKT_INSTANCE_TYPE_INGRESS_CLONE
    let packet_copy := (packet.clone copy_id).set_egress_port clone_spec
    emit (.push_front .egress_buffer packet_copy)
    let packet ← Field.set packet "standard_metadata" "instance_type"
      PKT_INSTANCE_TYPE_NORMAL
    pure (packet, copy_id + 1)
  else
    pure (packet, copy_id)

/-- Lines 184-187 of `ingress_thread` (LEARNING). -/
def ingress_learning (packet : Packet) (learn_id : Int) : Exec Unit :=
  if learn_id > 0 then emit (.learn learn_id packet) else pure ()

/-- The loop of lines 195-205: one clone per element of the replication output. -/
def replication_loop (packet : Packet) : List McOut → Nat → Exec (Packet × Nat)
  | [], copy_id => pure (packet, copy_id)
  | out :: rest, copy_id => do
    let egress_port := out.egress_port
    let packet ← Field.set packet "intrinsic_metadata" "egress_rid" out.rid
    let packet ← Field.set packet "standard_metadata" "instance_type"
      PKT_INSTANCE_TYPE_REPLICATION
    let packet_copy := (packet.clone copy_id).set_egress_port egress_port
    emit (.push_front .egress_buffer packet_copy)
    replication_loop packet rest (copy_id + 1)

/-- Lines 189-221 of `ingress_thread`: MULTICAST, then the unicast/drop decision. -/
def ingress_forward (env : Env) (packet : Packet) (d : Decision) (copy_id : Nat) :
    Exec Unit := do
  let instance_type ← Field.get_int packet "standard_metadata" "instance_type"
  if d.mgid ≠ 0 then do
    get_field packet "intrinsic_metadata" "egress_rid"
    emit (.replicate d.mgid)
    let pre_out := env.replicate d.mgid
    let (packet, _) ← replication_loop packet pre_out copy_id
    let _ ← Field.set packet "standard_metadata" "instance_type" instance_type
    -- when doing multicast, we discard the original packet
    pure ()
  else do
    let egress_port := d.egress_spec
    if egress_port = 511 then
      pure ()
    else do
      let packet := packet.set_egress_port egress_port
      emit (.push_front .egress_buffer packet)

/-- Lines 153-221 of `ingress_thread`: read the decision fields, then clone, notify and
forward. -/
def ingress_dispatch (env : Env) (packet : Packet) : Exec Unit := do
  let d ← ingress_decision packet
  let (packet, copy_id) ← ingress_cloning packet d.clone_spec
  ingress_learning packet d.learn_id
  ingress_forward env packet d copy_id

/-- The body of the `while(1)` loop of `SimpleSwitch::ingress_thread`, for the packet
popped from `input_buffer`. -/
def ingress_thread (env : Env) (packet : Packet) : Exec Unit := do
  let packet ← ingress_prologue env packet
  ingress_dispatch env packet

/-- Lines 233-241 of `egress_thread`: write the egress port, zero the egress-spec and
apply the egress match-action stage.  The result is the packet as the egress stage leaves
it. -/
def egress_prologue (env : Env) (packet : Packet) : Exec Packet := do
  let egress_port := packet.egress_port
  get_field packet "standard_metadata" "egress_port"
  let packet ← Field.set packet "standard_metadata" "egress_port" egress_port
  get_field packet "standard_metadata" "egress_spec"
  let packet ← Field.set packet "standard_metadata" "egress_spec" 0
  emit (.apply "egress" packet)
  let packet := env.egress_mau.apply packet
  pure packet

/-- Lines 243-254 of `egress_thread`: drop on egress-spec 511, else deparse and push to
the transmit queue. -/
def egress_forward (env : Env) (packet : Packet) : Exec Unit := do
  let egress_spec ← Field.get_int packet "standard_metadata" "egress_spec"
  if egress_spec = 511 then
    pure ()
  else do
    emit (.deparse packet)
    let packet := env.deparser.apply packet
    emit (.push_front .output_buffer packet)

/-- The body of the `while(1)` loop of `SimpleSwitch::egress_thread`, for the packet
popped from `egress_buffer`. -/
def egress_thread (env : Env) (packet : Packet) : Exec Unit := do
  let packet ← egress_prologue env packet
  egress_forward env packet

end simple_switch

namespace bm

/-- A C++ `int` after an arithmetic step: the two's-complement value in 32 bits. -/
def int_wrap (x : Int) : Int := (x + 2 ^ 31) % 2 ^ 32 - 2 ^ 31

/-- The state `receive` acts on: the function-static counter `pkt_id`, the queue
`input_buffer` (front of the list = most recently pushed) and the field-set handed to a
new packet.  Modelled from the spec: `Queue::push_front` (`bm_sim/queue.h` is not among
the sources) adds at the front of a FIFO whose consumer pops at the back; a push onto a
full queue waits for the consumer and is modelled by its completion. -/
structure Admission where
  pkt_id : Int
  input_buffer : List Packet
  phv_factory : PHV
deriving DecidableEq, Repr

/-- The state at process start: `static int pkt_id = 0` and an empty queue. -/
def Admission.init (blank : PHV) : Admission :=
  { pkt_id := 0, input_buffer := [], phv_factory := blank }

/-- The arguments of one `receive(port_num, buffer, len)` call. -/
structure Call where
  port_num : Int
  buffer : List Nat
  len : Int
deriving DecidableEq, Repr

/-- A sequence of `receive` calls made one after another: the statuses returned, in call
order, and the final state. -/
def receive_all (recv : Admission → Int → List Nat → Int → Int × Admission)
    (st : Admission) : List Call → List Int × Admission
  | [] => ([], st)
  | c :: cs =>
    let r := recv st c.port_num c.buffer c.len
    let rs := receive_all recv r.2 cs
    (r.1 :: rs.1, rs.2)

end bm

namespace simple_switch
open bm

/-- The method `SimpleSwitch::receive(port_num, buffer, len)` of simple_switch.cpp: the
returned status and the new state. -/
def receive (st : Admission) (port_num : Int) (buffer : List Nat) (len : Int) :
    Int × Admission :=
  let packet := Packet.new st.phv_factory port_num st.pkt_id 0 len buffer
  (0, { st with pkt_id := int_wrap (st.pkt_id + 1),
                input_buffer := packet :: st.input_buffer })

end simple_switch

namespace l2_switch
open bm

/-- The collaborators of the fused-topology pipeline thread, and the bit-width the loaded
program gives the field `standard_metadata.ingress_port`. -/
structure Env where
  parser : Stage
  ingress_mau : Stage
  egress_mau : Stage
  deparser : Stage
  replicate : Nat → List McOut
  port_width : Nat

/-- The method `SimpleSwitch::receive(port_num, buffer, len)` of l2_switch.cpp: the
returned status and the new state. -/
def receive (st : Admission) (port_num : Int) (buffer : List Nat) (len : Int) :
    Int × Admission :=
  let packet := Packet.new st.phv_factory port_num st.pkt_id 0 len buffer
  (0, { st with pkt_id := int_wrap (st.pkt_id + 1),
                input_buffer := packet :: st.input_buffer })

/-- Lines 105-111 of `pipeline_thread`: write the ingress port to its field and re-read
it from the field, parse and apply the ingress match-action stage.  Returns the packet
and the re-read port, which is the packet's ingress port as the field holds it. -/
def pipeline_prologue (env : Env) (packet : Packet) : Exec (Packet × Int) := do
  let ingress_port := packet.ingress_port
  get_field packet "standard_metadata" "ingress_port"
  let packet ← Field.set_bits env.port_width packet "standard_metadata" "ingress_port"
    ingress_port
  get_field packet "standard_metadata" "ingress_port"
  let ingress_port ← Field.get_int packet "standard_metadata" "ingress_port"
  emit (.parse packet)
  let packet := env.parser.apply packet
  emit (.apply "ingress" packet)
  let packet := env.ingress_mau.apply packet
  pure (packet, ingress_port)

/-- The decision values read at lines 113-119. -/
structure Decision where
  egress_port : Int
  learn_id : Int
  mgid : Nat
deriving DecidableEq, Repr

/-- Lines 113-119 of `pipeline_thread`. -/
def pipeline_decision (packet : Packet) : Exec Decision := do
  get_field packet "standard_metadata" "egress_port"
  let egress_port ← Field.get_int packet "standard_metadata" "egress_port"
  get_field packet "intrinsic_metadata" "learn_id"
  let learn_id ← Field.get_int packet "intrinsic_metadata" "learn_id"
  get_field packet "intrinsic_metadata" "mgid"
  let mgid ← Field.get_uint packet "intrinsic_metadata" "mgid"
  pure ⟨egress_port, learn_id, mgid⟩

/-- Lines 122-125 of `pipeline_thread`: notify, then zero the learn id. -/
def pipeline_learning (packet : Packet) (learn_id : Int) : Exec Packet :=
  if learn_id > 0 then do
    emit (.learn learn_id packet)
    get_field packet "intrinsic_metadata" "learn_id"
    Field.set packet "intrinsic_metadata" "learn_id" 0
  else pure packet

/-- The loop of lines 137-148: one clone per element of the replication output whose
egress port differs from `ingress_port`, the port re-read at line 107. -/
def replication_loop (env : Env) (packet : Packet) (ingress_port : Int) :
    List McOut → Nat → Exec Nat
  | [], copy_id => pure copy_id
  | out :: rest, copy_id =>
    let egress_port := out.egress_port
    if ingress_port = egress_port then
      replication_loop env packet ingress_port rest copy_id  -- pruning
    else do
      let packet_copy := (packet.clone copy_id).set_egress_port egress_port
      emit (.apply "egress" packet_copy)
      let packet_copy := env.egress_mau.apply packet_copy
      emit (.deparse packet_copy)
      let packet_copy := env.deparser.apply packet_copy
      emit (.push_front .output_buffer packet_copy)
      replication_loop env packet ingress_port rest (copy_id + 1)

/-- Lines 127-155 of `pipeline_thread`: drop, multicast or unicast. -/
def pipeline_forward (env : Env) (packet : Packet) (ingress_port : Int) (d : Decision) :
    Exec Unit := do
  if d.egress_port = 511 ∧ d.mgid = 0 then
    pure ()
  else if d.mgid ≠ 0 then do
    assert (d.mgid = 1)
    get_field packet "intrinsic_metadata" "mgid"
    let packet ← Field.set packet "intrinsic_metadata" "mgid" 0
    let copy_id : Nat := 1
    emit (.replicate d.mgid)
    let pre_out := env.replicate d.mgid
    let _ ← replication_loop env packet ingress_port pre_out copy_id
    pure ()
  else do
    let packet := packet.set_egress_port d.egress_port
    emit (.apply "egress" packet)
    let packet := env.egress_mau.apply packet
    emit (.deparse packet)
    let packet := env.deparser.apply packet
    emit (.push_front .output_buffer packet)

/-- Lines 113-155 of `pipeline_thread`: read the decision fields, then notify and
forward. -/
def pipeline_dispatch (env : Env) (packet : Packet) (ingress_port : Int) : Exec Unit := do
  let d ← pipeline_decision packet
  let packet ← pipeline_learning packet d.learn_id
  pipeline_forward env packet ingress_port d

/-- The body of the `while(1)` loop of `SimpleSwitch::pipeline_thread` (l2_switch.cpp),
for the packet popped from `input_buffer`. -/
def pipeline_thread (env : Env) (packet : Packet) : Exec Unit := do
  let (packet, ingress_port) ← pipeline_prologue env packet
  pipeline_dispatch env packet ingress_port

end l2_switch

namespace bm

/-- Every event of the execution satisfies `P`. -/
structure Exec.Sat {α : Type} (P : Event → Prop) (m : Exec α) : Prop where
  all : ∀ e ∈ m.trace, P e

/-- Every normal completion of the execution returns a value satisfying `Q`. -/
structure Exec.Post {α : Type} (Q : α → Prop) (m : Exec α) : Prop where
  ok : ∀ a, m.result = .ok a → Q a

/-- The event is a `get_field`, `set` or `get` on a field of header `h`. -/
def Event.touches (h : String) : Event → Bool
  | .get_field h' _ => h' == h
  | .set h' _ _ => h' == h
  | .get h' _ => h' == h
  | _ => false

/-- Every push the event makes goes to queue `b` and carries a copy id other than 0. -/
def Event.pushes_copy_to (b : Buffer) : Event → Prop
  | .push_front b' p => b' = b ∧ p.copy_id ≠ 0
  | _ => True

/-- The event is not a notifier call. -/
def Event.not_learn : Event → Prop
  | .learn _ _ => False
  | _ => True

/-- The event is not a call of `reset_metadata`. -/
def Event.not_reset : Event → Prop
  | .reset_metadata => False
  | _ => True

/-- Every push the event makes carries an instance type other than `t`. -/
def Event.push_type_ne (t : Int) : Event → Prop
  | .push_front _ p => p.phv.read "standard_metadata" "instance_type" ≠ some t
  | _ => True

/-- Every push the event makes goes to the output queue and, when it carries a clone
(copy id other than 0), the clone leaves by a port other than `stored` and came in by
`port`. -/
def Event.pruned (stored port : Int) : Event → Prop
  | .push_front b p =>
    b = .output_buffer ∧
      (p.copy_id ≠ 0 → p.egress_port ≠ stored ∧ p.ingress_port = port)
  | _ => True

/-- The event is a field access or a stage invocation: neither `reset_metadata`, nor a
notifier call, nor a replication-engine call, nor a queue push. -/
def Event.internal : Event → Bool
  | .get_field _ _ => true
  | .set _ _ _ => true
  | .get _ _ => true
  | .parse _ => true
  | .apply _ _ => true
  | .deparse _ => true
  | _ => false

end bm

namespace bm

/-- The packets handed to the egress match-action stage, in call order. -/
def egress_inputs (tr : List Event) : List Packet :=
  tr.filterMap (fun e => match e with
    | .apply n p => if n = "egress" then some p else none
    | _ => none)

/-- The event is not an invocation of the egress match-action stage. -/
def Event.not_egress_apply : Event → Prop
  | .apply n _ => n ≠ "egress"
  | _ => True

/-- Every push the event makes carries packet id `id`. -/
def Event.push_has_id (id : Int) : Event → Prop
  | .push_front _ p => p.packet_id = id
  | _ => True

/-- Every push the event makes that carries copy id 0 has an egress port other than 511. -/
def Event.original_not_to_drop_port : Event → Prop
  | .push_front _ p => p.copy_id = 0 → p.egress_port ≠ 511
  | _ => True

end bm

namespace l2_switch
open bm

/-- The clones the loop of lines 137-148 makes from `packet`, before the egress stage is
applied to them: one per replication pair that is not pruned, numbered from `copy_id`. -/
def clones (packet : Packet) (ingress_port : Int) : List McOut → Nat → List Packet
  | [], _ => []
  | out :: rest, copy_id =>
    if ingress_port = out.egress_port then clones packet ingress_port rest copy_id
    else (packet.clone copy_id).set_egress_port out.egress_port ::
      clones packet ingress_port rest (copy_id + 1)

/-- What the fused pipeline does with a packet handed to the egress side: egress
match-action stage, then deparser. -/
def egress_side (env : Env) (p : Packet) : Packet :=
  env.deparser.apply (env.egress_mau.apply p)

end l2_switch

/-! ## Concrete programs and packets used to instantiate the statements -/

namespace sample
open bm

/-- A stage that leaves the packet as it is. -/
def id_stage : Stage := ⟨fun d phv => (d, phv), fun _ _ => rfl⟩

/-- A stage that writes the listed values into the named fields, in order. -/
def write_stage (ws : List (String × String × Int)) : Stage :=
  ⟨fun d phv => (d, ws.foldl (fun acc w => acc.write w.1 w.2.1 w.2.2) phv), by
    intro d phv
    induction ws generalizing phv with
    | nil => rfl
    | cons w ws ih =>
      simp only [List.foldl_cons]
      rw [ih]
      simp only [PHV.write, PHV.layout, List.map_map]
      apply List.map_congr_left
      intro f _
      simp only [Function.comp]
      split <;> rfl⟩

/-- A field-set with the standard metadata used by simple_switch and no
`intrinsic_metadata` header. -/
def phv_standard : PHV :=
  ⟨[⟨"standard_metadata", "ingress_port", 0, true⟩,
    ⟨"standard_metadata", "packet_length", 0, true⟩,
    ⟨"standard_metadata", "instance_type", 0, true⟩,
    ⟨"standard_metadata", "egress_spec", 0, true⟩,
    ⟨"standard_metadata", "clone_spec", 0, true⟩,
    ⟨"standard_metadata", "egress_port", 0, true⟩]⟩

/-- The standard metadata together with the `intrinsic_metadata` header of simple_switch. -/
def phv_intrinsic : PHV :=
  ⟨phv_standard.fields ++
   [⟨"intrinsic_metadata", "ingress_global_timestamp", 0, true⟩,
    ⟨"intrinsic_metadata", "lf_field_list", 0, true⟩,
    ⟨"intrinsic_metadata", "mcast_grp", 0, true⟩,
    ⟨"intrinsic_metadata", "egress_rid", 0, true⟩]⟩

/-- The field-set of the l2_switch program. -/
def phv_l2 : PHV :=
  ⟨[⟨"standard_metadata", "ingress_port", 0, true⟩,
    ⟨"standard_metadata", "egress_port", 0, true⟩,
    ⟨"intrinsic_metadata", "learn_id", 0, true⟩,
    ⟨"intrinsic_metadata", "mgid", 0, true⟩]⟩

/-- A split-topology program whose ingress stage performs the given writes. -/
def split_env (ws : List (String × String × Int)) (replicate : Nat → List McOut) :
    simple_switch.Env :=
  { parser := id_stage, ingress_mau := write_stage ws, egress_mau := id_stage,
    deparser := id_stage, replicate := replicate, now := 1000 }

/-- A fused-topology program whose ingress stage performs the given writes; the ingress
port field has 9 bits. -/
def fused_env (ws : List (String × String × Int)) (replicate : Nat → List McOut) :
    l2_switch.Env :=
  { parser := id_stage, ingress_mau := write_stage ws, egress_mau := id_stage,
    deparser := id_stage, replicate := replicate, port_width := 9 }

/-- A three-byte packet admitted on port 1 with the given field-set. -/
def packet_on_port_1 (phv : PHV) : Packet := Packet.new phv 1 0 0 3 [1, 2, 3]

/-- The value an execution returns, or `dflt` when it faults. -/
def value {α : Type} (m : Exec α) (dflt : α) : α :=
  match m.result with
  | .ok a => a
  | .error _ => dflt

/-- Replication engine with the single group 9 = `[(3,1),(5,2)]`. -/
def group9 (g : Nat) : List McOut := if g = 9 then [⟨3, 1⟩, ⟨5, 2⟩] else []

/-- Split-topology program: the ingress stage asks for a drop (egress-spec 511) and an
ingress clone to port 4. -/
def drop_and_clone_env : simple_switch.Env :=
  split_env [("standard_metadata", "egress_spec", 511), ("standard_metadata", "clone_spec", 4)]
    (fun _ => [])

/-- Fused-topology program: the ingress stage asks for a drop (egress port 511). -/
def drop_env_l2 : l2_switch.Env :=
  fused_env [("standard_metadata", "egress_port", 511)] (fun _ => [])

/-- Split-topology program: the ingress stage sets learn id 42 and asks for a drop. -/
def learn_env : simple_switch.Env :=
  split_env [("intrinsic_metadata", "lf_field_list", 42),
    ("standard_metadata", "egress_spec", 511)] (fun _ => [])

/-- Fused-topology program: the ingress stage sets learn id 42 and egress port 2. -/
def learn_env_l2 : l2_switch.Env :=
  fused_env [("intrinsic_metadata", "learn_id", 42), ("standard_metadata", "egress_port", 2)]
    (fun _ => [])

/-- Split-topology program: the ingress stage sets clone-spec 4 and egress-spec 7. -/
def clone_env : simple_switch.Env :=
  split_env [("standard_metadata", "clone_spec", 4), ("standard_metadata", "egress_spec", 7)]
    (fun _ => [])

/-- Fused-topology program: the ingress stage selects multicast group 1, replicated to
ports 1, 2 and 3. -/
def flood_env_l2 : l2_switch.Env :=
  fused_env [("intrinsic_metadata", "mgid", 1)] (fun _ => [⟨1, 10⟩, ⟨2, 20⟩, ⟨3, 30⟩])

/-- Two `receive` calls: two bytes on port 1, then one byte on port 3. -/
def two_calls : List Call := [⟨1, [1, 2], 2⟩, ⟨3, [5], 1⟩]

end sample

namespace sample
open bm

/-- The field-set of the l2_switch program, extended with a replication-id field and an
instance-type field. -/
def phv_l2_rid : PHV :=
  ⟨phv_l2.fields ++
   [⟨"intrinsic_metadata", "egress_rid", 0, true⟩,
    ⟨"standard_metadata", "instance_type", 0, true⟩]⟩

/-- Fused-topology program: learn id 42 and multicast group 1, replicated to ports 2 and
3 with replication ids 20 and 30. -/
def learn_flood_env_l2 : l2_switch.Env :=
  fused_env [("intrinsic_metadata", "learn_id", 42), ("intrinsic_metadata", "mgid", 1)]
    (fun _ => [⟨2, 20⟩, ⟨3, 30⟩])

/-- Fused-topology program: multicast group 2, for which the replication engine has two
members. -/
def group2_env_l2 : l2_switch.Env :=
  fused_env [("intrinsic_metadata", "mgid", 2)] (fun _ => [⟨2, 20⟩, ⟨3, 30⟩])

/-- Split-topology program: the ingress stage writes instance type 6 and clone-spec 4 and
leaves egress-spec 0. -/
def retag_and_clone_env : simple_switch.Env :=
  split_env [("standard_metadata", "instance_type", 6), ("standard_metadata", "clone_spec", 4)]
    (fun _ => [])

/-- Split-topology program: the ingress stage sets clone-spec 511 and egress-spec 7. -/
def clone_to_511_env : simple_switch.Env :=
  split_env [("standard_metadata", "clone_spec", 511), ("standard_metadata", "egress_spec", 7)]
    (fun _ => [])

/-- Split-topology program: clone-spec 4 and multicast group 9, replicated to
`[(3,1),(5,2)]`. -/
def clone_and_flood_env : simple_switch.Env :=
  split_env [("standard_metadata", "clone_spec", 4), ("intrinsic_metadata", "mcast_grp", 9)]
    group9

/-- Fused-topology program flooding group 1 to ports 515 and 3 (ingress port field of 9
bits). -/
def wide_port_env_l2 : l2_switch.Env :=
  fused_env [("intrinsic_metadata", "mgid", 1)] (fun _ => [⟨515, 10⟩, ⟨3, 20⟩])

/-- A three-byte packet admitted on port 515 with the given field-set. -/
def packet_on_port_515 (phv : PHV) : Packet := Packet.new phv 515 0 0 3 [1, 2, 3]

/-- Fused-topology program whose ingress stage asks for multicast group 7. -/
def group7_env_l2 : l2_switch.Env :=
  fused_env [("intrinsic_metadata", "mgid", 7)] (fun _ => [⟨2, 20⟩, ⟨3, 30⟩])

end sample

/-! ## Basic facts about field-sets and executions -/

namespace bm

theorem PHV.has_field_eq_layout (phv : PHV) (h n : String) :
    phv.has_field h n = decide ((h, n) ∈ phv.layout) := by
  cases phv with
  | mk fs =>
    induction fs with
    | nil => simp [PHV.has_field, PHV.layout]
    | cons f fs ih =>
      simp only [PHV.has_field, PHV.layout, List.any_cons, List.map_cons, List.mem_cons] at ih ⊢
      rw [ih]
      by_cases hf : f.is h n = true
      · have : (h, n) = (f.header, f.name) := by
          simp [Field.is] at hf; simp [hf.1, hf.2]
        simp [hf, this]
      · have : ¬ (h, n) = (f.header, f.name) := by
          intro hc; simp [Field.is] at hf; simp at hc; exact hf hc.1.symm hc.2.symm
        simp [hf, this]

theorem PHV.has_header_eq_layout (phv : PHV) (h : String) :
    phv.has_header h = decide (h ∈ phv.layout.map Prod.fst) := by
  cases phv with
  | mk fs =>
    induction fs with
    | nil => simp [PHV.has_header, PHV.layout]
    | cons f fs ih =>
      simp only [PHV.has_header, PHV.layout, List.any_cons, List.map_cons, List.mem_cons,
        List.map_map] at ih ⊢
      rw [ih]
      by_cases hf : f.header = h
      · simp [hf]
      · have : ¬ h = f.header := fun hc => hf hc.symm
        simp [hf, this]

theorem PHV.layout_write (phv : PHV) (h n : String) (v : Int) :
    (phv.write h n v).layout = phv.layout := by
  simp only [PHV.write, PHV.layout, List.map_map]
  apply List.map_congr_left
  intro f _
  simp only [Function.comp]
  split <;> rfl

theorem PHV.layout_reset_metadata (phv : PHV) : phv.reset_metadata.layout = phv.layout := by
  simp only [PHV.reset_metadata, PHV.layout, List.map_map]
  apply List.map_congr_left
  intro f _
  simp only [Function.comp]
  split <;> rfl

@[simp] theorem PHV.has_field_write (phv : PHV) (h n : String) (v : Int) (h' n' : String) :
    (phv.write h n v).has_field h' n' = phv.has_field h' n' := by
  simp only [PHV.has_field_eq_layout, PHV.layout_write]

@[simp] theorem PHV.has_field_reset_metadata (phv : PHV) (h n : String) :
    phv.reset_metadata.has_field h n = phv.has_field h n := by
  simp only [PHV.has_field_eq_layout, PHV.layout_reset_metadata]

@[simp] theorem PHV.has_header_write (phv : PHV) (h n : String) (v : Int) (h' : String) :
    (phv.write h n v).has_header h' = phv.has_header h' := by
  simp only [PHV.has_header_eq_layout, PHV.layout_write]

@[simp] theorem PHV.has_header_reset_metadata (phv : PHV) (h : String) :
    phv.reset_metadata.has_header h = phv.has_header h := by
  simp only [PHV.has_header_eq_layout, PHV.layout_reset_metadata]

@[simp] theorem Stage.has_field_apply (s : Stage) (p : Packet) (h n : String) :
    (s.apply p).phv.has_field h n = p.phv.has_field h n := by
  simp only [PHV.has_field_eq_layout, Stage.apply, s.layout_eq]

@[simp] theorem Stage.has_header_apply (s : Stage) (p : Packet) (h : String) :
    (s.apply p).phv.has_header h = p.phv.has_header h := by
  simp only [PHV.has_header_eq_layout, Stage.apply, s.layout_eq]

theorem PHV.has_header_of_has_field {phv : PHV} {h n : String}
    (hf : phv.has_field h n = true) : phv.has_header h = true := by
  simp only [PHV.has_field, PHV.has_header, List.any_eq_true] at hf ⊢
  obtain ⟨f, hmem, hf⟩ := hf
  refine ⟨f, hmem, ?_⟩
  simp only [Field.is, Bool.and_eq_true] at hf
  exact hf.1

theorem PHV.read_isSome (phv : PHV) (h n : String) :
    (phv.read h n).isSome = phv.has_field h n := by
  cases phv with
  | mk fs =>
    induction fs with
    | nil => simp [PHV.read, PHV.has_field]
    | cons f fs ih =>
      simp only [PHV.read, PHV.has_field, List.find?_cons, List.any_cons] at ih ⊢
      by_cases hf : f.is h n = true
      · simp [hf]
      · simp only [Bool.not_eq_true] at hf
        simp only [hf, Bool.false_or]
        exact ih

theorem PHV.has_field_of_read {phv : PHV} {h n : String} {v : Int}
    (hr : phv.read h n = some v) : phv.has_field h n = true := by
  rw [← PHV.read_isSome, hr]; rfl

theorem PHV.read_of_has_field {phv : PHV} {h n : String}
    (hf : phv.has_field h n = true) : ∃ v, phv.read h n = some v := by
  rw [← PHV.read_isSome] at hf
  exact Option.isSome_iff_exists.mp hf

theorem PHV.read_write_same (phv : PHV) (h n : String) (v : Int)
    (hf : phv.has_field h n = true) : (phv.write h n v).read h n = some v := by
  cases phv with
  | mk fs =>
    induction fs with
    | nil => simp [PHV.has_field] at hf
    | cons f fs ih =>
      simp only [PHV.read, PHV.write, PHV.has_field, List.find?_cons, List.any_cons,
        List.map_cons] at ih hf ⊢
      by_cases hfi : f.is h n = true
      · have : Field.is { f with value := v } h n = true := hfi
        simp [hfi, this]
      · simp only [Bool.not_eq_true] at hfi
        simp only [hfi, Bool.false_or] at hf
        simp only [hfi, Bool.false_eq_true, if_false]
        exact ih hf

theorem PHV.read_write_other (phv : PHV) (h n : String) (v : Int) (h' n' : String)
    (hne : ¬ (h = h' ∧ n = n')) : (phv.write h n v).read h' n' = phv.read h' n' := by
  cases phv with
  | mk fs =>
    induction fs with
    | nil => simp [PHV.read, PHV.write]
    | cons f fs ih =>
      simp only [PHV.read, PHV.write, List.find?_cons, List.map_cons] at ih ⊢
      by_cases hfi : f.is h n = true
      · have hf' : f.is h' n' = false := by
          simp only [Field.is, Bool.and_eq_true, beq_iff_eq] at hfi
          simp only [Field.is, Bool.and_eq_false_iff, beq_eq_false_iff_ne, ne_eq]
          by_contra hc
          push_neg at hc
          exact hne ⟨hfi.1.symm.trans hc.1, hfi.2.symm.trans hc.2⟩
        have hf'' : Field.is { f with value := v } h' n' = false := hf'
        simp only [hfi, if_true, hf', hf'']
        exact ih
      · simp only [Bool.not_eq_true] at hfi
        simp only [hfi, Bool.false_eq_true, if_false]
        by_cases hf' : f.is h' n' = true
        · simp [hf']
        · simp only [Bool.not_eq_true] at hf'
          simp only [hf']
          exact ih

/-! ### Executions -/

@[simp] theorem Exec.pure_trace {α : Type} (a : α) : (pure a : Exec α).trace = [] := rfl
@[simp] theorem Exec.pure_result {α : Type} (a : α) : (pure a : Exec α).result = .ok a := rfl

theorem Exec.bind_eq {α β : Type} (m : Exec α) (f : α → Exec β) :
    (m >>= f) = Exec.bind m f := rfl

theorem Exec.bind_ok {α β : Type} (tr : List Event) (a : α) (f : α → Exec β) :
    Exec.bind ⟨tr, .ok a⟩ f = ⟨tr ++ (f a).trace, (f a).result⟩ := rfl

theorem Exec.bind_error {α β : Type} (tr : List Event) (e : Fault) (f : α → Exec β) :
    Exec.bind (⟨tr, .error e⟩ : Exec α) f = ⟨tr, .error e⟩ := rfl

theorem Exec.bind_of_ok {α β : Type} {m : Exec α} {a : α} (h : m.result = .ok a)
    (f : α → Exec β) : Exec.bind m f = ⟨m.trace ++ (f a).trace, (f a).result⟩ := by
  cases m with
  | mk tr r => simp only at h; subst h; rfl

theorem Exec.bind_of_error {α β : Type} {m : Exec α} {e : Fault} (h : m.result = .error e)
    (f : α → Exec β) : Exec.bind m f = ⟨m.trace, .error e⟩ := by
  cases m with
  | mk tr r => simp only at h; subst h; rfl

theorem get_field_of_has {p : Packet} {h n : String} (hf : p.phv.has_field h n = true) :
    get_field p h n = ⟨[.get_field h n], .ok ()⟩ := by
  simp [get_field, hf, emit]

theorem get_field_of_not {p : Packet} {h n : String} (hf : p.phv.has_field h n = false) :
    get_field p h n = ⟨[.get_field h n], .error (.field_absent h n)⟩ := by
  simp [get_field, hf, emit, fault, Exec.bind]

theorem Field.set_of_has {p : Packet} {h n : String} (v : Int)
    (hf : p.phv.has_field h n = true) :
    Field.set p h n v = ⟨[.set h n v], .ok { p with phv := p.phv.write h n v }⟩ := by
  simp [Field.set, hf, emit, Exec.bind]

theorem Field.set_of_not {p : Packet} {h n : String} (v : Int)
    (hf : p.phv.has_field h n = false) :
    Field.set p h n v = ⟨[], .error (.field_absent h n)⟩ := by
  simp [Field.set, hf, fault]

theorem Field.get_int_of_read {p : Packet} {h n : String} {v : Int}
    (hr : p.phv.read h n = some v) : Field.get_int p h n = ⟨[.get h n], .ok v⟩ := by
  simp [Field.get_int, hr, emit, Exec.bind]

theorem Field.get_uint_of_read {p : Packet} {h n : String} {v : Int}
    (hr : p.phv.read h n = some v) :
    Field.get_uint p h n = ⟨[.get h n], .ok (v % 2 ^ 32).toNat⟩ := by
  simp [Field.get_uint, hr, emit, Exec.bind]

theorem pushed_append (q : Buffer) (t₁ t₂ : List Event) :
    pushed q (t₁ ++ t₂) = pushed q t₁ ++ pushed q t₂ := by
  simp [pushed, List.filterMap_append]

theorem learned_append (t₁ t₂ : List Event) :
    learned (t₁ ++ t₂) = learned t₁ ++ learned t₂ := by
  simp [learned, List.filterMap_append]

end bm

namespace bm

@[simp] theorem Stage.apply_copy_id (s : Stage) (p : Packet) :
    (s.apply p).copy_id = p.copy_id := rfl
@[simp] theorem Stage.apply_packet_id (s : Stage) (p : Packet) :
    (s.apply p).packet_id = p.packet_id := rfl
@[simp] theorem Stage.apply_ingress_port (s : Stage) (p : Packet) :
    (s.apply p).ingress_port = p.ingress_port := rfl
@[simp] theorem Stage.apply_egress_port (s : Stage) (p : Packet) :
    (s.apply p).egress_port = p.egress_port := rfl
@[simp] theorem Stage.apply_ingress_length (s : Stage) (p : Packet) :
    (s.apply p).ingress_length = p.ingress_length := rfl

theorem Exec.mem_trace_bind {α β : Type} {m : Exec α} {f : α → Exec β} {e : Event}
    (h : e ∈ (m >>= f).trace) :
    e ∈ m.trace ∨ ∃ a, m.result = .ok a ∧ e ∈ (f a).trace := by
  cases m with
  | mk tr r =>
    cases r with
    | error x => left; simpa [Exec.bind_eq, Exec.bind] using h
    | ok a =>
      simp only [Exec.bind_eq, Exec.bind, List.mem_append] at h
      rcases h with h | h
      · exact Or.inl h
      · exact Or.inr ⟨a, rfl, h⟩

theorem Exec.sat_bind {α β : Type} {P : Event → Prop} {m : Exec α} {f : α → Exec β}
    (hm : m.Sat P) (hf : ∀ a, m.result = .ok a → (f a).Sat P) : (m >>= f).Sat P := by
  constructor
  intro e he
  rcases Exec.mem_trace_bind he with h | ⟨a, ha, h⟩
  · exact hm.all e h
  · exact (hf a ha).all e h

theorem Exec.sat_pure {α : Type} {P : Event → Prop} (a : α) : (Pure.pure a : Exec α).Sat P := by
  constructor
  intro e he; simp at he

theorem Exec.sat_fault {α : Type} {P : Event → Prop} (x : Fault) :
    (bm.fault x : Exec α).Sat P := by
  constructor
  intro e he; simp [bm.fault] at he

theorem Exec.sat_emit {P : Event → Prop} {e : Event} (h : P e) : (bm.emit e).Sat P := by
  constructor
  intro e' he; simp only [bm.emit, List.mem_singleton] at he; subst he; exact h

theorem Exec.sat_get_field {P : Event → Prop} {p : Packet} {h n : String}
    (hP : P (.get_field h n)) : (bm.get_field p h n).Sat P := by
  constructor
  intro e he
  unfold bm.get_field at he
  split at he
  · simp only [bm.emit, List.mem_singleton] at he; subst he; exact hP
  · simp only [Exec.bind, bm.emit, bm.fault, List.append_nil, List.mem_singleton] at he
    subst he; exact hP

theorem Exec.sat_set {P : Event → Prop} {p : Packet} {h n : String} {v : Int}
    (hP : P (.set h n v)) : (Field.set p h n v).Sat P := by
  constructor
  intro e he
  unfold Field.set at he
  split at he
  · simp only [Exec.bind, bm.emit, Exec.pure_trace, List.append_nil, List.mem_singleton] at he
    subst he; exact hP
  · simp [bm.fault] at he

theorem Exec.sat_set_bits {P : Event → Prop} {w : Nat} {p : Packet} {h n : String} {v : Int}
    (hP : P (.set h n v)) : (Field.set_bits w p h n v).Sat P := by
  constructor
  intro e he
  unfold Field.set_bits at he
  split at he
  · simp only [Exec.bind, bm.emit, Exec.pure_trace, List.append_nil, List.mem_singleton] at he
    subst he; exact hP
  · simp [bm.fault] at he

theorem Exec.sat_get_int {P : Event → Prop} {p : Packet} {h n : String}
    (hP : P (.get h n)) : (Field.get_int p h n).Sat P := by
  constructor
  intro e he
  unfold Field.get_int at he
  split at he
  · simp only [Exec.bind, bm.emit, Exec.pure_trace, List.append_nil, List.mem_singleton] at he
    subst he; exact hP
  · simp [bm.fault] at he

theorem Exec.sat_get_uint {P : Event → Prop} {p : Packet} {h n : String}
    (hP : P (.get h n)) : (Field.get_uint p h n).Sat P := by
  constructor
  intro e he
  unfold Field.get_uint at he
  split at he
  · simp only [Exec.bind, bm.emit, Exec.pure_trace, List.append_nil, List.mem_singleton] at he
    subst he; exact hP
  · simp [bm.fault] at he

theorem Exec.result_bind {α β : Type} {m : Exec α} {f : α → Exec β} {b : β}
    (h : (m >>= f).result = .ok b) : ∃ a, m.result = .ok a ∧ (f a).result = .ok b := by
  cases m with
  | mk tr r =>
    cases r with
    | error x => simp [Exec.bind_eq, Exec.bind] at h
    | ok a => exact ⟨a, rfl, h⟩

theorem Exec.post_bind {α β : Type} {R : α → Prop} {Q : β → Prop} {m : Exec α}
    {f : α → Exec β} (hm : m.Post R) (hf : ∀ a, R a → (f a).Post Q) : (m >>= f).Post Q := by
  constructor
  intro b hb
  obtain ⟨a, ha, hfa⟩ := Exec.result_bind hb
  exact (hf a (hm.ok a ha)).ok b hfa

theorem Exec.post_pure {α : Type} {Q : α → Prop} {a : α} (h : Q a) :
    (Pure.pure a : Exec α).Post Q := by
  constructor
  intro b hb
  simp only [Exec.pure_result, Except.ok.injEq] at hb
  subst hb; exact h

theorem Exec.post_fault {α : Type} {Q : α → Prop} (x : Fault) : (bm.fault x : Exec α).Post Q := by
  constructor
  intro b hb
  simp [bm.fault] at hb

theorem Exec.post_emit {e : Event} : (bm.emit e).Post (fun _ => True) := ⟨fun _ _ => trivial⟩

theorem Exec.post_get_field (p : Packet) (h n : String) :
    (bm.get_field p h n).Post (fun _ => p.phv.has_field h n = true) := by
  constructor
  intro b hb
  unfold bm.get_field at hb
  split at hb
  · assumption
  · simp [Exec.bind, bm.emit, bm.fault] at hb

theorem Exec.post_set (p : Packet) (h n : String) (v : Int) :
    (Field.set p h n v).Post
      (fun p' => p.phv.has_field h n = true ∧ p' = { p with phv := p.phv.write h n v }) := by
  constructor
  intro b hb
  unfold Field.set at hb
  split at hb
  · simp only [Exec.bind, bm.emit, Exec.pure_result, Except.ok.injEq] at hb
    exact ⟨by assumption, hb.symm⟩
  · simp [bm.fault] at hb

theorem Exec.post_set_bits (w : Nat) (p : Packet) (h n : String) (v : Int) :
    (Field.set_bits w p h n v).Post
      (fun p' => p.phv.has_field h n = true ∧
        p' = { p with phv := p.phv.write h n (Field.stored w v) }) := by
  constructor
  intro b hb
  unfold Field.set_bits at hb
  split at hb
  · simp only [Exec.bind, bm.emit, Exec.pure_result, Except.ok.injEq] at hb
    exact ⟨by assumption, hb.symm⟩
  · simp [bm.fault] at hb

/-- A value within the range of a `w`-bit field is stored unchanged. -/
theorem Field.stored_of_range {w : Nat} {v : Int} (h0 : 0 ≤ v) (h1 : v < 2 ^ w) :
    Field.stored w v = v :=
  Int.emod_eq_of_lt h0 h1

theorem Exec.post_get_int (p : Packet) (h n : String) :
    (Field.get_int p h n).Post (fun v => p.phv.read h n = some v) := by
  constructor
  intro b hb
  unfold Field.get_int at hb
  split at hb
  · simp only [Exec.bind, bm.emit, Exec.pure_result, Except.ok.injEq] at hb
    subst hb; assumption
  · simp [bm.fault] at hb

theorem Exec.post_get_uint (p : Packet) (h n : String) :
    (Field.get_uint p h n).Post (fun g => ∃ v, p.phv.read h n = some v ∧ g = (v % 2 ^ 32).toNat) := by
  constructor
  intro b hb
  unfold Field.get_uint at hb
  split at hb
  · simp only [Exec.bind, bm.emit, Exec.pure_result, Except.ok.injEq] at hb
    exact ⟨_, by assumption, hb.symm⟩
  · simp [bm.fault] at hb

theorem Exec.post_mono {α : Type} {Q Q' : α → Prop} {m : Exec α} (hm : m.Post Q)
    (h : ∀ a, Q a → Q' a) : m.Post Q' := ⟨fun a ha => h a (hm.ok a ha)⟩

theorem pushed_eq_nil_of_sat {q : Buffer} {tr : List Event}
    (h : ∀ e ∈ tr, ∀ p, e ≠ .push_front q p) : pushed q tr = [] := by
  induction tr with
  | nil => rfl
  | cons e tr ih =>
    have ih := ih (fun e' he' => h e' (List.mem_cons_of_mem _ he'))
    have he := h e (List.mem_cons_self _ _)
    unfold pushed at ih ⊢
    rw [List.filterMap_cons]
    cases e <;> simp_all

theorem learned_eq_nil_of_sat {tr : List Event}
    (h : ∀ e ∈ tr, ∀ v p, e ≠ .learn v p) : learned tr = [] := by
  induction tr with
  | nil => rfl
  | cons e tr ih =>
    have ih := ih (fun e' he' => h e' (List.mem_cons_of_mem _ he'))
    have he := h e (List.mem_cons_self _ _)
    unfold learned at ih ⊢
    rw [List.filterMap_cons]
    cases e <;> simp_all

theorem pushed_eq_nil_of_internal {q : Buffer} {tr : List Event}
    (h : ∀ e ∈ tr, e.internal = true) : pushed q tr = [] :=
  pushed_eq_nil_of_sat (fun e he p hp => by have := h e he; rw [hp] at this; simp [Event.internal] at this)

theorem learned_eq_nil_of_internal {tr : List Event}
    (h : ∀ e ∈ tr, e.internal = true) : learned tr = [] :=
  learned_eq_nil_of_sat (fun e he v p hp => by have := h e he; rw [hp] at this; simp [Event.internal] at this)

theorem Exec.sat_of_internal {α : Type} {P : Event → Prop} {m : Exec α}
    (hm : m.Sat (fun e => e.internal = true)) (hi : ∀ e, e.internal = true → P e) : m.Sat P :=
  ⟨fun e he => hi e (hm.all e he)⟩

theorem mem_pushed {q : Buffer} {tr : List Event} {p : Packet} :
    p ∈ pushed q tr ↔ Event.push_front q p ∈ tr := by
  induction tr with
  | nil => simp [pushed]
  | cons e tr ih =>
    unfold pushed at ih ⊢
    rw [List.filterMap_cons, List.mem_cons]
    cases e with
    | push_front q' p' =>
      by_cases hq : q' = q
      · subst hq
        simp only [if_true, List.mem_cons, ih, Event.push_front.injEq, true_and]
      · have : ¬ (Event.push_front q p = Event.push_front q' p') := by
          intro h; simp only [Event.push_front.injEq] at h; exact hq h.1.symm
        simp only [hq, if_false, ih, this, false_or]
    | _ => simp [ih]

theorem mem_learned {tr : List Event} {v : Int} {p : Packet} :
    (v, p) ∈ learned tr ↔ Event.learn v p ∈ tr := by
  induction tr with
  | nil => simp [learned]
  | cons e tr ih =>
    unfold learned at ih ⊢
    rw [List.filterMap_cons, List.mem_cons]
    cases e <;> simp [ih]

/-! ### Admission -/

theorem int_wrap_of_range {x : Int} (h0 : 0 ≤ x) (h1 : x < 2 ^ 31) : int_wrap x = x := by
  unfold int_wrap
  norm_num at h1 ⊢
  omega

theorem int_wrap_add (a b : Int) : int_wrap (int_wrap a + b) = int_wrap (a + b) := by
  unfold int_wrap
  norm_num
  omega

/-- What a sequence of `receive` calls does, for any `receive` that behaves as the two
targets' do: every call returns 0 and pushes one packet; the packet of the k-th call
carries the counter value `int_wrap (pkt_id + k)`. -/
theorem receive_all_spec (recv : Admission → Int → List Nat → Int → Int × Admission)
    (hrecv : ∀ st p b l, recv st p b l =
      (0, { st with pkt_id := int_wrap (st.pkt_id + 1),
                    input_buffer := Packet.new st.phv_factory p st.pkt_id 0 l b ::
                      st.input_buffer }))
    (calls : List Call) (st : Admission) (hst : int_wrap st.pkt_id = st.pkt_id) :
    (receive_all recv st calls).1 = List.replicate calls.length 0 ∧
    ∃ ps : List Packet,
      (receive_all recv st calls).2.input_buffer = ps.reverse ++ st.input_buffer ∧
      ps.length = calls.length ∧
      ∀ k : Nat, ps[k]? = calls[k]?.map (fun c =>
        Packet.new st.phv_factory c.port_num (int_wrap (st.pkt_id + (k : Int))) 0 c.len
          c.buffer) := by
  induction calls generalizing st with
  | nil => exact ⟨rfl, [], rfl, rfl, fun k => rfl⟩
  | cons c cs ih =>
    have hst1 : int_wrap (int_wrap (st.pkt_id + 1)) = int_wrap (st.pkt_id + 1) := by
      have := int_wrap_add (st.pkt_id + 1) 0
      simpa using this
    obtain ⟨h1, ps, h2, h3, h4⟩ := ih
      { st with pkt_id := int_wrap (st.pkt_id + 1),
                input_buffer := Packet.new st.phv_factory c.port_num st.pkt_id 0 c.len c.buffer ::
                  st.input_buffer } hst1
    refine ⟨?_, Packet.new st.phv_factory c.port_num st.pkt_id 0 c.len c.buffer :: ps, ?_, ?_, ?_⟩
    · simp only [receive_all, hrecv, h1, List.length_cons, List.replicate_succ]
    · simp only [receive_all, hrecv, h2, List.reverse_cons, List.append_assoc,
        List.singleton_append]
    · simp only [List.length_cons, h3]
    · intro k
      cases k with
      | zero =>
        simp only [List.getElem?_cons_zero, Option.map_some', Nat.cast_zero, add_zero, hst]
      | succ k =>
        simp only [List.getElem?_cons_succ, h4 k, Nat.cast_succ]
        have : int_wrap (int_wrap (st.pkt_id + 1) + (k : Int)) =
            int_wrap (st.pkt_id + ((k : Int) + 1)) := by
          rw [int_wrap_add]; congr 1; omega
        simp only [this]

end bm

namespace simple_switch
open bm

theorem ingress_metadata_spec {env : Env} {pkt pkt' : Packet}
    (hpro : (ingress_metadata env pkt).result = .ok pkt') :
    pkt'.phv.layout = pkt.phv.layout ∧
    pkt'.copy_id = pkt.copy_id ∧ pkt'.packet_id = pkt.packet_id ∧
    pkt'.ingress_port = pkt.ingress_port ∧
    pkt.phv.has_field "standard_metadata" "instance_type" = true := by
  revert pkt'
  apply Exec.Post.ok
  unfold ingress_metadata
  refine Exec.post_bind (R := fun p => p.copy_id = pkt.copy_id ∧ p.packet_id = pkt.packet_id ∧
    p.ingress_port = pkt.ingress_port ∧ p.phv.layout = pkt.phv.layout) ?_ (fun p hp => ?_)
  · unfold ingress_timestamp
    split
    · refine Exec.post_bind (Exec.post_get_field _ _ _) (fun _ _ => ?_)
      refine Exec.post_mono (Exec.post_set _ _ _ _) ?_
      rintro p ⟨-, rfl⟩
      simp [PHV.layout_write]
    · exact Exec.post_pure (by simp)
  · obtain ⟨h1, h2, h3, h4⟩ := hp
    refine Exec.post_bind (Exec.post_get_field _ _ _) (fun _ _ => ?_)
    refine Exec.post_bind (Exec.post_set _ _ _ _) (fun p1 hp1 => ?_)
    obtain ⟨-, rfl⟩ := hp1
    refine Exec.post_bind (Exec.post_get_field _ _ _) (fun _ _ => ?_)
    refine Exec.post_bind (Exec.post_set _ _ _ _) (fun p2 hp2 => ?_)
    obtain ⟨-, rfl⟩ := hp2
    refine Exec.post_bind (Exec.post_get_field _ _ _) (fun _ hit => ?_)
    refine Exec.post_bind (Exec.post_set _ _ _ _) (fun p3 hp3 => ?_)
    obtain ⟨-, rfl⟩ := hp3
    refine Exec.post_bind Exec.post_emit (fun _ _ => ?_)
    refine Exec.post_bind Exec.post_emit (fun _ _ => ?_)
    refine Exec.post_pure ?_
    simp only [PHV.has_field_write] at hit
    simp only [PHV.has_field_eq_layout] at hit ⊢
    simp only [Stage.apply, Stage.layout_eq, PHV.layout_write, h4] at hit ⊢
    simp [h1, h2, h3, hit]

theorem ingress_prologue_spec {env : Env} {pkt pkt' : Packet}
    (hpro : (ingress_prologue env pkt).result = .ok pkt') :
    (∀ h n, pkt'.phv.has_field h n = pkt.phv.has_field h n) ∧
    (∀ h, pkt'.phv.has_header h = pkt.phv.has_header h) ∧
    pkt'.copy_id = pkt.copy_id ∧ pkt'.packet_id = pkt.packet_id ∧
    pkt'.ingress_port = pkt.ingress_port ∧
    pkt.phv.has_field "standard_metadata" "instance_type" = true := by
  have h := @ingress_metadata_spec env { pkt with phv := pkt.phv.reset_metadata } pkt' hpro
  obtain ⟨h1, h2, h3, h4, h5⟩ := h
  simp only [PHV.layout_reset_metadata, PHV.has_field_reset_metadata] at h1 h5
  refine ⟨?_, ?_, h2, h3, h4, h5⟩
  · intro h n; simp only [PHV.has_field_eq_layout, h1]
  · intro h; simp only [PHV.has_header_eq_layout, h1]

theorem ingress_metadata_internal (env : Env) (pkt : Packet) :
    (ingress_metadata env pkt).Sat (fun e => e.internal = true) := by
  unfold ingress_metadata ingress_timestamp
  repeat' first
    | apply Exec.sat_bind
    | apply Exec.sat_emit
    | apply Exec.sat_get_field
    | apply Exec.sat_set
    | apply Exec.sat_pure
    | intro _ _
    | rfl
    | split

theorem ingress_metadata_untouched (env : Env) (pkt : Packet)
    (hh : pkt.phv.has_header "intrinsic_metadata" = false) :
    (ingress_metadata env pkt).Sat (fun e => e.touches "intrinsic_metadata" = false) := by
  have hts : pkt.phv.has_field "intrinsic_metadata" "ingress_global_timestamp" = false := by
    by_contra hc
    simp only [Bool.not_eq_false] at hc
    rw [PHV.has_header_of_has_field hc] at hh
    exact absurd hh (by decide)
  unfold ingress_metadata ingress_timestamp
  simp only [hts]
  repeat' first
    | apply Exec.sat_bind
    | apply Exec.sat_emit
    | apply Exec.sat_get_field
    | apply Exec.sat_set
    | apply Exec.sat_pure
    | intro _ _
    | rfl

theorem ingress_prologue_trace (env : Env) (pkt : Packet) :
    (ingress_prologue env pkt).trace = .reset_metadata ::
      (ingress_metadata env { pkt with phv := pkt.phv.reset_metadata }).trace := by
  simp [ingress_prologue, Exec.bind_eq, Exec.bind, emit]

theorem ingress_prologue_result (env : Env) (pkt : Packet) :
    (ingress_prologue env pkt).result =
      (ingress_metadata env { pkt with phv := pkt.phv.reset_metadata }).result := by
  simp [ingress_prologue, Exec.bind_eq, Exec.bind, emit]

theorem ingress_decision_spec {pkt : Packet} {d : Decision}
    (hdec : (ingress_decision pkt).result = .ok d) :
    pkt.phv.read "standard_metadata" "egress_spec" = some d.egress_spec ∧
    pkt.phv.read "standard_metadata" "clone_spec" = some d.clone_spec ∧
    (pkt.phv.has_header "intrinsic_metadata" = false → d.learn_id = 0 ∧ d.mgid = 0) ∧
    (pkt.phv.has_header "intrinsic_metadata" = true →
      pkt.phv.read "intrinsic_metadata" "lf_field_list" = some d.learn_id ∧
      ∃ v, pkt.phv.read "intrinsic_metadata" "mcast_grp" = some v ∧
        d.mgid = (v % 2 ^ 32).toNat) := by
  revert d
  apply Exec.Post.ok
  unfold ingress_decision
  refine Exec.post_bind (Exec.post_get_field _ _ _) (fun _ _ => ?_)
  refine Exec.post_bind (Exec.post_get_int _ _ _) (fun e he => ?_)
  refine Exec.post_bind (Exec.post_get_field _ _ _) (fun _ _ => ?_)
  refine Exec.post_bind (Exec.post_get_int _ _ _) (fun c hc => ?_)
  split
  · rename_i hh
    refine Exec.post_bind (Exec.post_get_field _ _ _) (fun _ _ => ?_)
    refine Exec.post_bind (Exec.post_get_int _ _ _) (fun l hl => ?_)
    refine Exec.post_bind (Exec.post_get_field _ _ _) (fun _ _ => ?_)
    refine Exec.post_bind (Exec.post_get_uint _ _ _) (fun g hg => ?_)
    exact Exec.post_pure ⟨he, hc, fun h => by simp [hh] at h, fun _ => ⟨hl, hg⟩⟩
  · rename_i hh
    exact Exec.post_pure ⟨he, hc, fun _ => ⟨rfl, rfl⟩, fun h => absurd h hh⟩

theorem ingress_decision_internal (pkt : Packet) :
    (ingress_decision pkt).Sat (fun e => e.internal = true) := by
  unfold ingress_decision
  repeat' first
    | apply Exec.sat_bind
    | apply Exec.sat_emit
    | apply Exec.sat_get_field
    | apply Exec.sat_get_int
    | apply Exec.sat_get_uint
    | apply Exec.sat_pure
    | intro _ _
    | rfl
    | split

theorem ingress_decision_untouched (pkt : Packet)
    (hh : pkt.phv.has_header "intrinsic_metadata" = false) :
    (ingress_decision pkt).Sat (fun e => e.touches "intrinsic_metadata" = false) := by
  unfold ingress_decision
  simp only [hh]
  repeat' first
    | apply Exec.sat_bind
    | apply Exec.sat_emit
    | apply Exec.sat_get_field
    | apply Exec.sat_get_int
    | apply Exec.sat_get_uint
    | apply Exec.sat_pure
    | intro _ _
    | rfl

/-- With clone-spec 0 the INGRESS CLONING branch does nothing. -/
theorem ingress_cloning_zero (pkt : Packet) :
    ingress_cloning pkt 0 = ⟨[], .ok (pkt, 1)⟩ := rfl

theorem ingress_cloning_nonzero (pkt : Packet) {c : Int} (hc : c ≠ 0)
    (hit : pkt.phv.has_field "standard_metadata" "instance_type" = true) :
    ingress_cloning pkt c =
      ⟨[.set "standard_metadata" "instance_type" PKT_INSTANCE_TYPE_INGRESS_CLONE,
        .push_front .egress_buffer
          { pkt with
            phv := pkt.phv.write "standard_metadata" "instance_type"
              PKT_INSTANCE_TYPE_INGRESS_CLONE,
            copy_id := 1, egress_port := c },
        .set "standard_metadata" "instance_type" PKT_INSTANCE_TYPE_NORMAL],
       .ok ({ pkt with
              phv := ((pkt.phv.write "standard_metadata" "instance_type"
                PKT_INSTANCE_TYPE_INGRESS_CLONE).write "standard_metadata" "instance_type"
                PKT_INSTANCE_TYPE_NORMAL) }, 2)⟩ := by
  simp [ingress_cloning, hc, Field.set, hit, Exec.bind_eq, Exec.bind, emit, Packet.clone,
    Packet.set_egress_port]

theorem ingress_learning_eq (pkt : Packet) (v : Int) :
    ingress_learning pkt v = ⟨if v > 0 then [.learn v pkt] else [], .ok ()⟩ := by
  unfold ingress_learning
  split <;> rfl

/-- What the replication loop pushes: one clone per replication pair, in order. -/
theorem replication_loop_spec (L : List McOut) (pkt : Packet) (copy_id : Nat)
    (hrid : pkt.phv.has_field "intrinsic_metadata" "egress_rid" = true)
    (hit : pkt.phv.has_field "standard_metadata" "instance_type" = true) :
    ∃ p', (replication_loop pkt L copy_id).result = .ok (p', copy_id + L.length) ∧
      (∀ h n, p'.phv.has_field h n = pkt.phv.has_field h n) ∧
      (pushed .egress_buffer (replication_loop pkt L copy_id).trace).map
          (fun q => (q.egress_port, q.phv.read "intrinsic_metadata" "egress_rid",
            q.phv.read "standard_metadata" "instance_type")) =
        L.map (fun o => (o.egress_port, some o.rid, some PKT_INSTANCE_TYPE_REPLICATION)) ∧
      (pushed .egress_buffer (replication_loop pkt L copy_id).trace).map
          (fun q => q.copy_id) = List.range' copy_id L.length ∧
      (∀ q ∈ pushed .egress_buffer (replication_loop pkt L copy_id).trace,
        q.packet_id = pkt.packet_id ∧ q.ingress_port = pkt.ingress_port) ∧
      pushed .output_buffer (replication_loop pkt L copy_id).trace = [] ∧
      learned (replication_loop pkt L copy_id).trace = [] := by
  induction L generalizing pkt copy_id with
  | nil =>
    refine ⟨pkt, ?_, fun _ _ => rfl, ?_, ?_, ?_, ?_, ?_⟩ <;>
      simp [replication_loop, pushed, learned]
  | cons out rest ih =>
    have hrid' : (pkt.phv.write "intrinsic_metadata" "egress_rid" out.rid).has_field
        "standard_metadata" "instance_type" = true := by simpa using hit
    obtain ⟨p', h1, h2, h3, h4, h5, h6, h7⟩ := ih
      { pkt with phv := ((pkt.phv.write "intrinsic_metadata" "egress_rid" out.rid).write
          "standard_metadata" "instance_type" PKT_INSTANCE_TYPE_REPLICATION) }
      (copy_id + 1) (by simpa using hrid) (by simpa using hit)
    have hstep : replication_loop pkt (out :: rest) copy_id =
        Exec.bind ⟨[.set "intrinsic_metadata" "egress_rid" out.rid,
            .set "standard_metadata" "instance_type" PKT_INSTANCE_TYPE_REPLICATION,
            .push_front .egress_buffer
              { pkt with
                phv := ((pkt.phv.write "intrinsic_metadata" "egress_rid" out.rid).write
                  "standard_metadata" "instance_type" PKT_INSTANCE_TYPE_REPLICATION),
                copy_id := copy_id, egress_port := out.egress_port }], .ok ()⟩
          (fun _ => replication_loop
            { pkt with phv := ((pkt.phv.write "intrinsic_metadata" "egress_rid" out.rid).write
                "standard_metadata" "instance_type" PKT_INSTANCE_TYPE_REPLICATION) }
            rest (copy_id + 1)) := by
      simp [replication_loop, Field.set, hrid, hit, Exec.bind_eq, Exec.bind, emit,
        Packet.clone, Packet.set_egress_port]
    rw [hstep]
    simp only [Exec.bind_ok, pushed_append, learned_append]
    refine ⟨p', ?_, ?_, ?_, ?_, ?_, ?_, ?_⟩
    · rw [h1]; simp [Nat.add_assoc, Nat.add_comm 1]
    · intro h n; rw [h2]; simp
    · rw [List.map_append, h3]
      have hne : ¬ ("intrinsic_metadata" = "standard_metadata" ∧ "egress_rid" = "instance_type") := by
        decide
      simp [pushed, PHV.read_write_same, PHV.read_write_other _ _ _ _ _ _ (fun h => hne ⟨h.1.symm, h.2.symm⟩), hrid, hit]
    · rw [List.map_append, h4]
      simp [pushed, List.range'_succ]
    · intro q hq
      rw [List.mem_append] at hq
      rcases hq with hq | hq
      · simp [pushed] at hq; subst hq; simp
      · simpa using h5 q hq
    · rw [h6]; simp [pushed]
    · rw [h7]; simp [learned]

theorem ingress_forward_unicast (env : Env) (pkt : Packet) (d : Decision) (copy_id : Nat)
    (hg : d.mgid = 0)
    (hit : pkt.phv.has_field "standard_metadata" "instance_type" = true) :
    ingress_forward env pkt d copy_id =
      ⟨.get "standard_metadata" "instance_type" ::
        (if d.egress_spec = 511 then []
         else [.push_front .egress_buffer (pkt.set_egress_port d.egress_spec)]), .ok ()⟩ := by
  obtain ⟨itv, hitv⟩ := PHV.read_of_has_field hit
  unfold ingress_forward
  rw [Field.get_int_of_read hitv]
  by_cases he : d.egress_spec = 511 <;>
    simp [hg, he, Exec.bind_eq, Exec.bind, emit]

theorem ingress_forward_multicast (env : Env) (pkt : Packet) (d : Decision) (copy_id : Nat)
    (hg : d.mgid ≠ 0)
    (hrid : pkt.phv.has_field "intrinsic_metadata" "egress_rid" = true)
    (hit : pkt.phv.has_field "standard_metadata" "instance_type" = true) :
    ∃ itv, ingress_forward env pkt d copy_id =
      ⟨[.get "standard_metadata" "instance_type",
        .get_field "intrinsic_metadata" "egress_rid", .replicate d.mgid] ++
        (replication_loop pkt (env.replicate d.mgid) copy_id).trace ++
        [.set "standard_metadata" "instance_type" itv], .ok ()⟩ := by
  obtain ⟨itv, hitv⟩ := PHV.read_of_has_field hit
  obtain ⟨p', h1, h2, -⟩ := replication_loop_spec (env.replicate d.mgid) pkt copy_id hrid hit
  refine ⟨itv, ?_⟩
  unfold ingress_forward
  rw [Field.get_int_of_read hitv, get_field_of_has hrid]
  simp only [Exec.bind_eq, Exec.bind_ok, hg, ne_eq, not_false_eq_true, if_true, emit]
  rw [Exec.bind_of_ok h1]
  simp only [Exec.bind_ok]
  rw [Field.set_of_has _ (by rw [h2]; exact hit)]
  simp only [Exec.bind, Exec.pure_trace, Exec.pure_result, List.append_assoc, List.cons_append,
    List.nil_append, List.append_nil]

theorem ingress_thread_of_ok {env : Env} {pkt pkt' p2 : Packet} {d : Decision} {cid : Nat}
    (hpro : (ingress_prologue env pkt).result = .ok pkt')
    (hdec : (ingress_decision pkt').result = .ok d)
    (hcl : (ingress_cloning pkt' d.clone_spec).result = .ok (p2, cid)) :
    ingress_thread env pkt =
      ⟨(ingress_prologue env pkt).trace ++ ((ingress_decision pkt').trace ++
        ((ingress_cloning pkt' d.clone_spec).trace ++ ((ingress_learning p2 d.learn_id).trace ++
          (ingress_forward env p2 d cid).trace))), (ingress_forward env p2 d cid).result⟩ := by
  unfold ingress_thread ingress_dispatch
  simp only [Exec.bind_eq]
  rw [Exec.bind_of_ok hpro, Exec.bind_of_ok hdec, Exec.bind_of_ok hcl, ingress_learning_eq]
  simp only [Exec.bind_ok]

theorem pushed_ingress_prologue (q : Buffer) (env : Env) (pkt : Packet) :
    pushed q (ingress_prologue env pkt).trace = [] := by
  rw [ingress_prologue_trace]
  have h := pushed_eq_nil_of_internal (q := q) (ingress_metadata_internal env
    { pkt with phv := pkt.phv.reset_metadata }).all
  simpa [pushed] using h

theorem learned_ingress_prologue (env : Env) (pkt : Packet) :
    learned (ingress_prologue env pkt).trace = [] := by
  rw [ingress_prologue_trace]
  have h := learned_eq_nil_of_internal (ingress_metadata_internal env
    { pkt with phv := pkt.phv.reset_metadata }).all
  simpa [learned] using h

theorem pushed_ingress_decision (q : Buffer) (pkt : Packet) :
    pushed q (ingress_decision pkt).trace = [] :=
  pushed_eq_nil_of_internal (ingress_decision_internal pkt).all

theorem learned_ingress_decision (pkt : Packet) :
    learned (ingress_decision pkt).trace = [] :=
  learned_eq_nil_of_internal (ingress_decision_internal pkt).all

theorem pushed_ingress_learning (q : Buffer) (pkt : Packet) (v : Int) :
    pushed q (ingress_learning pkt v).trace = [] := by
  rw [ingress_learning_eq]
  split <;> simp [pushed]

/-- The egress-queue pushes of one ingress iteration are those of the cloning branch
followed by those of the multicast/unicast branch. -/
theorem pushed_ingress_thread {env : Env} {pkt pkt' p2 : Packet} {d : Decision} {cid : Nat}
    (q : Buffer)
    (hpro : (ingress_prologue env pkt).result = .ok pkt')
    (hdec : (ingress_decision pkt').result = .ok d)
    (hcl : (ingress_cloning pkt' d.clone_spec).result = .ok (p2, cid)) :
    pushed q (ingress_thread env pkt).trace =
      pushed q (ingress_cloning pkt' d.clone_spec).trace ++
        pushed q (ingress_forward env p2 d cid).trace := by
  rw [ingress_thread_of_ok hpro hdec hcl]
  simp only [pushed_append, pushed_ingress_prologue, pushed_ingress_decision,
    pushed_ingress_learning, List.nil_append]

/-- Outcome of the cloning branch on a packet that has the instance-type field. -/
theorem ingress_cloning_ok (pkt : Packet) (c : Int)
    (hit : pkt.phv.has_field "standard_metadata" "instance_type" = true) :
    ∃ p2 cid, (ingress_cloning pkt c).result = .ok (p2, cid) ∧
      (∀ h n, p2.phv.has_field h n = pkt.phv.has_field h n) ∧
      p2.copy_id = pkt.copy_id ∧ p2.packet_id = pkt.packet_id ∧
      p2.ingress_port = pkt.ingress_port ∧ cid ≠ 0 ∧
      pushed .output_buffer (ingress_cloning pkt c).trace = [] ∧
      learned (ingress_cloning pkt c).trace = [] ∧
      (c = 0 → pushed .egress_buffer (ingress_cloning pkt c).trace = [] ∧ p2 = pkt) ∧
      (c ≠ 0 → ∃ q, pushed .egress_buffer (ingress_cloning pkt c).trace = [q] ∧
        q.copy_id = 1 ∧ q.egress_port = c ∧ q.packet_id = pkt.packet_id ∧
        q.phv.read "standard_metadata" "instance_type" =
          some PKT_INSTANCE_TYPE_INGRESS_CLONE ∧
        p2.phv.read "standard_metadata" "instance_type" = some PKT_INSTANCE_TYPE_NORMAL) := by
  by_cases hc : c = 0
  · subst hc
    refine ⟨pkt, 1, ?_⟩
    simp [ingress_cloning_zero, pushed, learned]
  · rw [ingress_cloning_nonzero pkt hc hit]
    refine ⟨_, 2, rfl, ?_, rfl, rfl, rfl, by decide, ?_, ?_, fun h => absurd h hc, fun _ => ?_⟩
    · intro h n; simp
    · simp [pushed]
    · simp [learned]
    · refine ⟨{ pkt with
          phv := pkt.phv.write "standard_metadata" "instance_type"
            PKT_INSTANCE_TYPE_INGRESS_CLONE,
          copy_id := 1, egress_port := c }, ?_, rfl, rfl, rfl, ?_, ?_⟩
      · simp [pushed]
      · simp [PHV.read_write_same, hit]
      · simp [PHV.read_write_same, hit]

/-! ### The egress thread -/

theorem egress_prologue_eq (env : Env) (q : Packet)
    (hep : q.phv.has_field "standard_metadata" "egress_port" = true)
    (hes : q.phv.has_field "standard_metadata" "egress_spec" = true) :
    egress_prologue env q =
      ⟨[.get_field "standard_metadata" "egress_port",
        .set "standard_metadata" "egress_port" q.egress_port,
        .get_field "standard_metadata" "egress_spec",
        .set "standard_metadata" "egress_spec" 0,
        .apply "egress" { q with phv := ((q.phv.write "standard_metadata" "egress_port"
            q.egress_port).write "standard_metadata" "egress_spec" 0) }],
       .ok (env.egress_mau.apply { q with phv := ((q.phv.write "standard_metadata"
            "egress_port" q.egress_port).write "standard_metadata" "egress_spec" 0) })⟩ := by
  simp [egress_prologue, get_field, Field.set, hep, hes, Exec.bind_eq, Exec.bind, emit]

theorem egress_prologue_spec {env : Env} {q q' : Packet}
    (hpro : (egress_prologue env q).result = .ok q') :
    q.phv.has_field "standard_metadata" "egress_port" = true ∧
    q.phv.has_field "standard_metadata" "egress_spec" = true := by
  by_cases hep : q.phv.has_field "standard_metadata" "egress_port" = true <;>
  by_cases hes : q.phv.has_field "standard_metadata" "egress_spec" = true <;>
  simp [egress_prologue, get_field, Field.set, hep, hes, Exec.bind_eq, Exec.bind, emit,
    fault] at hpro ⊢

theorem egress_forward_eq (env : Env) (q : Packet) {s : Int}
    (hs : q.phv.read "standard_metadata" "egress_spec" = some s) :
    egress_forward env q =
      ⟨.get "standard_metadata" "egress_spec" ::
        (if s = 511 then []
         else [.deparse q, .push_front .output_buffer (env.deparser.apply q)]), .ok ()⟩ := by
  unfold egress_forward
  rw [Field.get_int_of_read hs]
  by_cases h : s = 511 <;> simp [h, Exec.bind_eq, Exec.bind, emit]

theorem egress_thread_of_ok {env : Env} {q q' : Packet}
    (hpro : (egress_prologue env q).result = .ok q') :
    egress_thread env q =
      ⟨(egress_prologue env q).trace ++ (egress_forward env q').trace,
       (egress_forward env q').result⟩ := by
  unfold egress_thread
  simp only [Exec.bind_eq]
  rw [Exec.bind_of_ok hpro]

theorem egress_thread_of_error {env : Env} {q : Packet} {x : Fault}
    (hpro : (egress_prologue env q).result = .error x) :
    egress_thread env q = ⟨(egress_prologue env q).trace, .error x⟩ := by
  unfold egress_thread
  simp only [Exec.bind_eq]
  rw [Exec.bind_of_error hpro]

theorem egress_prologue_internal (env : Env) (q : Packet) :
    (egress_prologue env q).Sat (fun e => e.internal = true) := by
  unfold egress_prologue
  repeat' first
    | apply Exec.sat_bind
    | apply Exec.sat_emit
    | apply Exec.sat_get_field
    | apply Exec.sat_set
    | apply Exec.sat_pure
    | intro _ _
    | rfl

/-- Whatever the egress iteration pushes onto the transmit queue is the packet it popped:
same identity and egress port. -/
theorem egress_thread_pushed (env : Env) (q : Packet) :
    ∀ r ∈ pushed .output_buffer (egress_thread env q).trace,
      r.copy_id = q.copy_id ∧ r.packet_id = q.packet_id ∧ r.egress_port = q.egress_port := by
  intro r hr
  cases hres : (egress_prologue env q).result with
  | error x =>
    rw [egress_thread_of_error hres,
      pushed_eq_nil_of_internal (egress_prologue_internal env q).all] at hr
    simp at hr
  | ok q' =>
    obtain ⟨hep, hes⟩ := egress_prologue_spec hres
    have heq := egress_prologue_eq env q hep hes
    rw [heq] at hres
    simp only [Except.ok.injEq] at hres
    rw [egress_thread_of_ok (by rw [heq]), pushed_append,
      pushed_eq_nil_of_internal (egress_prologue_internal env q).all, List.nil_append,
      hres] at hr
    have hq'es : q'.phv.has_field "standard_metadata" "egress_spec" = true := by
      rw [← hres]; simpa using hes
    obtain ⟨s, hs⟩ := PHV.read_of_has_field hq'es
    rw [egress_forward_eq env q' hs] at hr
    by_cases h511 : s = 511
    · simp [h511, pushed] at hr
    · simp [h511, pushed] at hr
      subst hr
      rw [← hres]
      simp

/-! ### Event invariants of the ingress iteration -/

theorem ingress_cloning_sat (P : Event → Prop) (pkt : Packet) (c : Int)
    (hset : ∀ v, P (.set "standard_metadata" "instance_type" v))
    (hpush : ∀ p, p.copy_id = 1 → p.packet_id = pkt.packet_id →
      P (.push_front .egress_buffer p)) :
    (ingress_cloning pkt c).Sat P := by
  unfold ingress_cloning
  split
  · refine Exec.sat_bind (Exec.sat_set (hset _)) (fun p1 h1 => ?_)
    obtain ⟨-, rfl⟩ := (Exec.post_set _ _ _ _).ok p1 h1
    refine Exec.sat_bind (Exec.sat_emit (hpush _ rfl rfl)) (fun _ _ => ?_)
    exact Exec.sat_bind (Exec.sat_set (hset _)) (fun _ _ => Exec.sat_pure _)
  · exact Exec.sat_pure _

theorem ingress_cloning_post (pkt : Packet) (c : Int) :
    (ingress_cloning pkt c).Post (fun r => r.2 ≠ 0 ∧ r.1.copy_id = pkt.copy_id ∧
      r.1.packet_id = pkt.packet_id ∧ r.1.phv.layout = pkt.phv.layout) := by
  unfold ingress_cloning
  split
  · refine Exec.post_bind (Exec.post_set _ _ _ _) (fun p1 h1 => ?_)
    obtain ⟨-, rfl⟩ := h1
    refine Exec.post_bind Exec.post_emit (fun _ _ => ?_)
    refine Exec.post_bind (Exec.post_set _ _ _ _) (fun p2 h2 => ?_)
    obtain ⟨-, rfl⟩ := h2
    refine Exec.post_pure ?_
    simp [PHV.layout_write]
  · refine Exec.post_pure ?_
    simp

theorem ingress_learning_sat (P : Event → Prop) (pkt : Packet) (v : Int)
    (h : v > 0 → P (.learn v pkt)) : (ingress_learning pkt v).Sat P := by
  unfold ingress_learning
  split
  · exact Exec.sat_emit (h (by assumption))
  · exact Exec.sat_pure _

theorem replication_loop_sat (P : Event → Prop) (L : List McOut) (pkt : Packet) (cid : Nat)
    (hrid : ∀ v, P (.set "intrinsic_metadata" "egress_rid" v))
    (hset : ∀ v, P (.set "standard_metadata" "instance_type" v))
    (hpush : ∀ p, p.copy_id ≠ 0 → p.packet_id = pkt.packet_id →
      p.phv.read "standard_metadata" "instance_type" = some PKT_INSTANCE_TYPE_REPLICATION →
      P (.push_front .egress_buffer p))
    (hcid : cid ≠ 0) :
    (replication_loop pkt L cid).Sat P := by
  induction L generalizing pkt cid with
  | nil => exact Exec.sat_pure _
  | cons out rest ih =>
    unfold replication_loop
    refine Exec.sat_bind (Exec.sat_set (hrid _)) (fun p1 h1 => ?_)
    obtain ⟨-, rfl⟩ := (Exec.post_set _ _ _ _).ok p1 h1
    refine Exec.sat_bind (Exec.sat_set (hset _)) (fun p2 h2 => ?_)
    obtain ⟨hit, rfl⟩ := (Exec.post_set _ _ _ _).ok p2 h2
    refine Exec.sat_bind (Exec.sat_emit (hpush _ hcid rfl ?_)) (fun _ _ => ?_)
    · exact PHV.read_write_same _ _ _ _ hit
    · exact ih _ _ (fun p hp hid => hpush p hp hid) (Nat.succ_ne_zero _)

theorem ingress_forward_sat (P : Event → Prop) (env : Env) (pkt : Packet) (d : Decision)
    (cid : Nat)
    (hget : P (.get "standard_metadata" "instance_type"))
    (hmc : d.mgid ≠ 0 → P (.get_field "intrinsic_metadata" "egress_rid") ∧
      P (.replicate d.mgid) ∧ (∀ v, P (.set "intrinsic_metadata" "egress_rid" v)) ∧
      (∀ v, P (.set "standard_metadata" "instance_type" v)) ∧
      (∀ p, p.copy_id ≠ 0 → p.packet_id = pkt.packet_id →
        p.phv.read "standard_metadata" "instance_type" =
          some PKT_INSTANCE_TYPE_REPLICATION →
        P (.push_front .egress_buffer p)))
    (huc : d.mgid = 0 → d.egress_spec ≠ 511 →
      P (.push_front .egress_buffer (pkt.set_egress_port d.egress_spec)))
    (hcid : cid ≠ 0) :
    (ingress_forward env pkt d cid).Sat P := by
  unfold ingress_forward
  refine Exec.sat_bind (Exec.sat_get_int hget) (fun itv _ => ?_)
  split
  · rename_i hg
    obtain ⟨h1, h2, h3, h4, h5⟩ := hmc hg
    refine Exec.sat_bind (Exec.sat_get_field h1) (fun _ _ => ?_)
    refine Exec.sat_bind (Exec.sat_emit h2) (fun _ _ => ?_)
    refine Exec.sat_bind (replication_loop_sat P _ pkt cid h3 h4 h5 hcid) (fun r _ => ?_)
    exact Exec.sat_bind (Exec.sat_set (h4 _)) (fun _ _ => Exec.sat_pure _)
  · rename_i hg
    simp only [ne_eq, Decidable.not_not] at hg
    dsimp only
    split
    · exact Exec.sat_pure _
    · rename_i he
      exact Exec.sat_emit (huc hg he)

/-- Event invariant of `ingress_dispatch`, assembled from its four parts. -/
theorem ingress_dispatch_sat (P : Event → Prop) (env : Env) (pkt : Packet)
    (hdec : (ingress_decision pkt).Sat P)
    (hrest : ∀ d, (ingress_decision pkt).result = .ok d →
      (ingress_cloning pkt d.clone_spec).Sat P ∧
      ∀ p2 cid, (ingress_cloning pkt d.clone_spec).result = .ok (p2, cid) →
        (ingress_learning p2 d.learn_id).Sat P ∧ (ingress_forward env p2 d cid).Sat P) :
    (ingress_dispatch env pkt).Sat P := by
  unfold ingress_dispatch
  refine Exec.sat_bind hdec (fun d hd => ?_)
  obtain ⟨hcl, hr⟩ := hrest d hd
  refine Exec.sat_bind hcl (fun r hres => ?_)
  obtain ⟨p2, cid⟩ := r
  obtain ⟨hl, hf⟩ := hr p2 cid hres
  exact Exec.sat_bind hl (fun _ _ => hf)

theorem ingress_thread_of_prologue_ok {env : Env} {pkt pkt' : Packet}
    (hpro : (ingress_prologue env pkt).result = .ok pkt') :
    ingress_thread env pkt =
      ⟨(ingress_prologue env pkt).trace ++ (ingress_dispatch env pkt').trace,
       (ingress_dispatch env pkt').result⟩ := by
  unfold ingress_thread
  simp only [Exec.bind_eq]
  rw [Exec.bind_of_ok hpro]

theorem ingress_thread_of_prologue_error {env : Env} {pkt : Packet} {x : Fault}
    (hpro : (ingress_prologue env pkt).result = .error x) :
    ingress_thread env pkt = ⟨(ingress_prologue env pkt).trace, .error x⟩ := by
  unfold ingress_thread
  simp only [Exec.bind_eq]
  rw [Exec.bind_of_error hpro]

theorem ingress_thread_sat (P : Event → Prop) (env : Env) (pkt : Packet)
    (hpro : (ingress_prologue env pkt).Sat P)
    (hdisp : ∀ pkt', (ingress_prologue env pkt).result = .ok pkt' →
      (ingress_dispatch env pkt').Sat P) :
    (ingress_thread env pkt).Sat P := by
  unfold ingress_thread
  exact Exec.sat_bind hpro hdisp

theorem ingress_prologue_internal (env : Env) (pkt : Packet) :
    ∀ e ∈ (ingress_prologue env pkt).trace, e = .reset_metadata ∨ e.internal = true := by
  intro e he
  rw [ingress_prologue_trace, List.mem_cons] at he
  rcases he with he | he
  · exact Or.inl he
  · exact Or.inr ((ingress_metadata_internal env _).all e he)

theorem ingress_metadata_ok (env : Env) (pkt : Packet)
    (hip : pkt.phv.has_field "standard_metadata" "ingress_port" = true)
    (hpl : pkt.phv.has_field "standard_metadata" "packet_length" = true)
    (hit : pkt.phv.has_field "standard_metadata" "instance_type" = true) :
    ∃ pkt', (ingress_metadata env pkt).result = .ok pkt' := by
  unfold ingress_metadata ingress_timestamp
  by_cases hts : pkt.phv.has_field "intrinsic_metadata" "ingress_global_timestamp" = true <;>
    simp [Exec.bind_eq, Exec.bind, get_field, Field.set, emit, hts, hip, hpl, hit]

theorem ingress_decision_ok_of_no_header (pkt : Packet)
    (hes : pkt.phv.has_field "standard_metadata" "egress_spec" = true)
    (hcs : pkt.phv.has_field "standard_metadata" "clone_spec" = true)
    (hh : pkt.phv.has_header "intrinsic_metadata" = false) :
    ∃ e c, (ingress_decision pkt).result = .ok ⟨e, c, 0, 0⟩ := by
  obtain ⟨e, he⟩ := PHV.read_of_has_field hes
  obtain ⟨c, hc⟩ := PHV.read_of_has_field hcs
  refine ⟨e, c, ?_⟩
  unfold ingress_decision
  rw [get_field_of_has hes, Field.get_int_of_read he, get_field_of_has hcs,
    Field.get_int_of_read hc]
  simp [Exec.bind_eq, Exec.bind, hh]

end simple_switch

/-! ## The fused topology (l2_switch) -/

namespace l2_switch
open bm

theorem pipeline_prologue_post (env : Env) (pkt : Packet) :
    (pipeline_prologue env pkt).Post (fun r =>
      r.2 = Field.stored env.port_width pkt.ingress_port ∧
      r.1.copy_id = pkt.copy_id ∧ r.1.packet_id = pkt.packet_id ∧
      r.1.ingress_port = pkt.ingress_port ∧ r.1.phv.layout = pkt.phv.layout) := by
  unfold pipeline_prologue
  refine Exec.post_bind (Exec.post_get_field _ _ _) (fun _ hf => ?_)
  refine Exec.post_bind (Exec.post_set_bits _ _ _ _ _) (fun p1 h1 => ?_)
  obtain ⟨-, rfl⟩ := h1
  refine Exec.post_bind (Exec.post_get_field _ _ _) (fun _ _ => ?_)
  refine Exec.post_bind (Exec.post_get_int _ _ _) (fun ip hip => ?_)
  refine Exec.post_bind Exec.post_emit (fun _ _ => ?_)
  refine Exec.post_bind Exec.post_emit (fun _ _ => ?_)
  refine Exec.post_pure ?_
  simp only [PHV.read_write_same _ _ _ _ hf, Option.some.injEq] at hip
  simp [Stage.apply, Stage.layout_eq, PHV.layout_write, hip]

theorem pipeline_prologue_internal (env : Env) (pkt : Packet) :
    (pipeline_prologue env pkt).Sat (fun e => e.internal = true) := by
  unfold pipeline_prologue
  repeat' first
    | apply Exec.sat_bind
    | apply Exec.sat_emit
    | apply Exec.sat_get_field
    | apply Exec.sat_get_int
    | apply Exec.sat_set_bits
    | apply Exec.sat_pure
    | intro _ _
    | rfl

theorem pipeline_decision_internal (pkt : Packet) :
    (pipeline_decision pkt).Sat (fun e => e.internal = true) := by
  unfold pipeline_decision
  repeat' first
    | apply Exec.sat_bind
    | apply Exec.sat_emit
    | apply Exec.sat_get_field
    | apply Exec.sat_get_int
    | apply Exec.sat_get_uint
    | apply Exec.sat_pure
    | intro _ _
    | rfl

theorem pipeline_decision_spec {pkt : Packet} {d : Decision}
    (hdec : (pipeline_decision pkt).result = .ok d) :
    pkt.phv.read "standard_metadata" "egress_port" = some d.egress_port ∧
    pkt.phv.read "intrinsic_metadata" "learn_id" = some d.learn_id ∧
    ∃ v, pkt.phv.read "intrinsic_metadata" "mgid" = some v ∧ d.mgid = (v % 2 ^ 32).toNat := by
  revert d
  apply Exec.Post.ok
  unfold pipeline_decision
  refine Exec.post_bind (Exec.post_get_field _ _ _) (fun _ _ => ?_)
  refine Exec.post_bind (Exec.post_get_int _ _ _) (fun e he => ?_)
  refine Exec.post_bind (Exec.post_get_field _ _ _) (fun _ _ => ?_)
  refine Exec.post_bind (Exec.post_get_int _ _ _) (fun l hl => ?_)
  refine Exec.post_bind (Exec.post_get_field _ _ _) (fun _ _ => ?_)
  refine Exec.post_bind (Exec.post_get_uint _ _ _) (fun g hg => ?_)
  exact Exec.post_pure ⟨he, hl, hg⟩

theorem pipeline_learning_eq (pkt : Packet) (v : Int)
    (hl : pkt.phv.has_field "intrinsic_metadata" "learn_id" = true) :
    pipeline_learning pkt v =
      if v > 0 then
        ⟨[.learn v pkt, .get_field "intrinsic_metadata" "learn_id",
          .set "intrinsic_metadata" "learn_id" 0],
         .ok { pkt with phv := pkt.phv.write "intrinsic_metadata" "learn_id" 0 }⟩
      else ⟨[], .ok pkt⟩ := by
  unfold pipeline_learning
  split
  · simp [get_field, Field.set, hl, Exec.bind_eq, Exec.bind, emit]
  · rfl

theorem pipeline_learning_post (pkt : Packet) (v : Int) :
    (pipeline_learning pkt v).Post (fun p => p.copy_id = pkt.copy_id ∧
      p.packet_id = pkt.packet_id ∧ p.ingress_port = pkt.ingress_port ∧
      p.phv.layout = pkt.phv.layout) := by
  unfold pipeline_learning
  split
  · refine Exec.post_bind Exec.post_emit (fun _ _ => ?_)
    refine Exec.post_bind (Exec.post_get_field _ _ _) (fun _ _ => ?_)
    refine Exec.post_mono (Exec.post_set _ _ _ _) ?_
    rintro p ⟨-, rfl⟩
    simp [PHV.layout_write]
  · refine Exec.post_pure ?_
    simp

theorem pipeline_learning_sat (P : Event → Prop) (pkt : Packet) (v : Int)
    (hi : ∀ e, e.internal = true → P e) (h : v > 0 → P (.learn v pkt)) :
    (pipeline_learning pkt v).Sat P := by
  unfold pipeline_learning
  split
  · refine Exec.sat_bind (Exec.sat_emit (h (by assumption))) (fun _ _ => ?_)
    refine Exec.sat_bind (Exec.sat_get_field (hi _ rfl)) (fun _ _ => ?_)
    exact Exec.sat_set (hi _ rfl)
  · exact Exec.sat_pure _

theorem pipeline_replication_loop_sat (P : Event → Prop) (env : Env) (pkt : Packet) (ip : Int)
    (L : List McOut) (cid : Nat)
    (hi : ∀ e, e.internal = true → P e)
    (hpush : ∀ p, p.copy_id ≠ 0 → p.egress_port ≠ ip → p.packet_id = pkt.packet_id →
      p.ingress_port = pkt.ingress_port → P (.push_front .output_buffer p))
    (hcid : cid ≠ 0) :
    (replication_loop env pkt ip L cid).Sat P := by
  induction L generalizing cid with
  | nil => exact Exec.sat_pure _
  | cons out rest ih =>
    unfold replication_loop
    dsimp only
    split
    · exact ih cid hcid
    · rename_i hne
      refine Exec.sat_bind (Exec.sat_emit (hi _ rfl)) (fun _ _ => ?_)
      refine Exec.sat_bind (Exec.sat_emit (hi _ rfl)) (fun _ _ => ?_)
      refine Exec.sat_bind (Exec.sat_emit (hpush _ ?_ ?_ ?_ ?_)) (fun _ _ => ?_)
      · simpa [Packet.clone, Packet.set_egress_port] using hcid
      · simpa [Packet.clone, Packet.set_egress_port] using fun h => hne h.symm
      · simp [Packet.clone, Packet.set_egress_port]
      · simp [Packet.clone, Packet.set_egress_port]
      · exact ih (cid + 1) (Nat.succ_ne_zero _)

theorem assert_sat (P : Event → Prop) (c : Bool) : (assert c).Sat P := by
  unfold assert
  split
  · exact Exec.sat_pure _
  · exact Exec.sat_fault _

theorem pipeline_forward_sat (P : Event → Prop) (env : Env) (pkt : Packet) (ip : Int)
    (d : Decision)
    (hi : ∀ e, e.internal = true → P e)
    (hrep : P (.replicate d.mgid))
    (hmc : ∀ p, p.copy_id ≠ 0 → p.egress_port ≠ ip → p.packet_id = pkt.packet_id →
      p.ingress_port = pkt.ingress_port → P (.push_front .output_buffer p))
    (huc : d.mgid = 0 → d.egress_port ≠ 511 →
      P (.push_front .output_buffer (env.deparser.apply (env.egress_mau.apply
        (pkt.set_egress_port d.egress_port))))) :
    (pipeline_forward env pkt ip d).Sat P := by
  unfold pipeline_forward
  split
  · exact Exec.sat_pure _
  · rename_i h1
    split
    · refine Exec.sat_bind (assert_sat P _) (fun _ _ => ?_)
      refine Exec.sat_bind (Exec.sat_get_field (hi _ rfl)) (fun _ _ => ?_)
      refine Exec.sat_bind (Exec.sat_set (hi _ rfl)) (fun p1 hp1 => ?_)
      obtain ⟨-, rfl⟩ := (Exec.post_set _ _ _ _).ok p1 hp1
      refine Exec.sat_bind (Exec.sat_emit hrep) (fun _ _ => ?_)
      refine Exec.sat_bind (pipeline_replication_loop_sat P env _ ip _ 1 hi
        (fun p h1 h2 h3 h4 => hmc p h1 h2 h3 h4) (by decide)) (fun _ _ => ?_)
      exact Exec.sat_pure _
    · rename_i hg
      simp only [ne_eq, Decidable.not_not] at hg
      have he : d.egress_port ≠ 511 := fun h => h1 ⟨h, hg⟩
      refine Exec.sat_bind (Exec.sat_emit (hi _ rfl)) (fun _ _ => ?_)
      refine Exec.sat_bind (Exec.sat_emit (hi _ rfl)) (fun _ _ => ?_)
      exact Exec.sat_emit (huc hg he)

theorem pipeline_thread_of_prologue_ok {env : Env} {pkt pkt' : Packet} {ip : Int}
    (hpro : (pipeline_prologue env pkt).result = .ok (pkt', ip)) :
    pipeline_thread env pkt =
      ⟨(pipeline_prologue env pkt).trace ++ (pipeline_dispatch env pkt' ip).trace,
       (pipeline_dispatch env pkt' ip).result⟩ := by
  unfold pipeline_thread
  simp only [Exec.bind_eq]
  rw [Exec.bind_of_ok hpro]

theorem pipeline_thread_of_prologue_error {env : Env} {pkt : Packet} {x : Fault}
    (hpro : (pipeline_prologue env pkt).result = .error x) :
    pipeline_thread env pkt = ⟨(pipeline_prologue env pkt).trace, .error x⟩ := by
  unfold pipeline_thread
  simp only [Exec.bind_eq]
  rw [Exec.bind_of_error hpro]

/-- Event invariant of the whole pipeline iteration. -/
theorem pipeline_thread_sat (P : Event → Prop) (env : Env) (pkt : Packet)
    (hi : ∀ e, e.internal = true → P e)
    (hlearn : ∀ v p, v > 0 → p.copy_id = pkt.copy_id → p.packet_id = pkt.packet_id →
      P (.learn v p))
    (hrep : ∀ g, P (.replicate g))
    (hmc : ∀ p, p.copy_id ≠ 0 →
      p.egress_port ≠ Field.stored env.port_width pkt.ingress_port →
      p.packet_id = pkt.packet_id → p.ingress_port = pkt.ingress_port →
      P (.push_front .output_buffer p))
    (huc : ∀ pkt' ip d p, (pipeline_prologue env pkt).result = .ok (pkt', ip) →
      (pipeline_decision pkt').result = .ok d → d.mgid = 0 → d.egress_port ≠ 511 →
      p.copy_id = pkt.copy_id → p.packet_id = pkt.packet_id →
      p.egress_port = d.egress_port → P (.push_front .output_buffer p)) :
    (pipeline_thread env pkt).Sat P := by
  unfold pipeline_thread
  refine Exec.sat_bind (Exec.sat_of_internal (pipeline_prologue_internal env pkt) hi)
    (fun r hr => ?_)
  obtain ⟨pkt', ip⟩ := r
  obtain ⟨hip, hc, hid, hport, -⟩ := (pipeline_prologue_post env pkt).ok _ hr
  simp only at hip hc hid hport
  show (pipeline_dispatch env pkt' ip).Sat P
  unfold pipeline_dispatch
  refine Exec.sat_bind (Exec.sat_of_internal (pipeline_decision_internal pkt') hi)
    (fun d hd => ?_)
  refine Exec.sat_bind (pipeline_learning_sat P pkt' _ hi (fun hv => hlearn _ _ hv hc hid))
    (fun p2 hp2 => ?_)
  obtain ⟨hc2, hid2, hport2, -⟩ := (pipeline_learning_post pkt' d.learn_id).ok _ hp2
  refine pipeline_forward_sat P env p2 ip d hi (hrep _) (fun p h1 h2 h3 h4 => ?_)
    (fun hg he => ?_)
  · exact hmc p h1 (by rw [← hip]; exact h2) (by rw [h3, hid2, hid])
      (by rw [h4, hport2, hport])
  · refine huc pkt' ip d _ hr hd hg he ?_ ?_ ?_
    · simp [Packet.set_egress_port, hc2, hc]
    · simp [Packet.set_egress_port, hid2, hid]
    · simp [Packet.set_egress_port]

theorem pipeline_dispatch_of_ok {env : Env} {pkt : Packet} {ip : Int} {d : Decision}
    (hdec : (pipeline_decision pkt).result = .ok d) :
    ∃ p2, p2.copy_id = pkt.copy_id ∧ p2.packet_id = pkt.packet_id ∧
      pipeline_dispatch env pkt ip =
        ⟨(pipeline_decision pkt).trace ++
          ((if d.learn_id > 0 then [Event.learn d.learn_id pkt,
              .get_field "intrinsic_metadata" "learn_id",
              .set "intrinsic_metadata" "learn_id" 0] else []) ++
            (pipeline_forward env p2 ip d).trace),
         (pipeline_forward env p2 ip d).result⟩ := by
  have hl : pkt.phv.has_field "intrinsic_metadata" "learn_id" = true :=
    PHV.has_field_of_read (pipeline_decision_spec hdec).2.1
  unfold pipeline_dispatch
  simp only [Exec.bind_eq]
  rw [Exec.bind_of_ok hdec, pipeline_learning_eq pkt d.learn_id hl]
  by_cases hv : d.learn_id > 0
  · simp only [hv, if_true, Exec.bind_ok]
    exact ⟨{ pkt with phv := pkt.phv.write "intrinsic_metadata" "learn_id" 0 }, rfl, rfl, rfl⟩
  · simp only [hv, if_false, Exec.bind_ok]
    exact ⟨pkt, rfl, rfl, by simp⟩

end l2_switch

/-! ## The fused topology: what reaches the egress stage -/

namespace bm

theorem egress_inputs_append (t₁ t₂ : List Event) :
    egress_inputs (t₁ ++ t₂) = egress_inputs t₁ ++ egress_inputs t₂ := by
  simp [egress_inputs, List.filterMap_append]

theorem egress_inputs_eq_nil {tr : List Event} (h : ∀ e ∈ tr, Event.not_egress_apply e) :
    egress_inputs tr = [] := by
  induction tr with
  | nil => rfl
  | cons e tr ih =>
    have ih := ih (fun e' he' => h e' (List.mem_cons_of_mem _ he'))
    have he := h e (List.mem_cons_self _ _)
    unfold egress_inputs at ih ⊢
    rw [List.filterMap_cons]
    cases e with
    | apply n p =>
      have hn : ¬ n = "egress" := he
      simp only [hn, if_false]
      exact ih
    | _ => exact ih

end bm

namespace l2_switch
open bm

theorem clones_spec (pkt : Packet) (ip : Int) (L : List McOut) (cid : Nat) :
    (clones pkt ip L cid).map (fun c => c.egress_port) =
      (L.filter (fun o => decide (o.egress_port ≠ ip))).map (fun o => o.egress_port) ∧
    (clones pkt ip L cid).map (fun c => c.copy_id) =
      List.range' cid (L.filter (fun o => decide (o.egress_port ≠ ip))).length ∧
    ∀ c ∈ clones pkt ip L cid, c.phv = pkt.phv ∧ c.packet_id = pkt.packet_id ∧
      c.ingress_port = pkt.ingress_port ∧ c.egress_port ≠ ip ∧ cid ≤ c.copy_id := by
  induction L generalizing cid with
  | nil => simp [clones]
  | cons out rest ih =>
    obtain ⟨h1, h2, h3⟩ := ih cid
    obtain ⟨k1, k2, k3⟩ := ih (cid + 1)
    by_cases hp : ip = out.egress_port
    · have hf : ¬ out.egress_port ≠ ip := fun h => h hp.symm
      simp only [clones, hp, if_true] at h1 h2 h3 ⊢
      simp only [List.filter_cons, hp, ne_eq, not_true_eq_false, decide_False,
        Bool.false_eq_true, if_false]
      exact ⟨h1, h2, h3⟩
    · have hf : out.egress_port ≠ ip := fun h => hp h.symm
      simp only [clones, hp, if_false, List.map_cons, List.mem_cons]
      simp only [List.filter_cons, hf, ne_eq, not_false_eq_true, decide_True, if_true,
        List.map_cons, List.length_cons, List.range'_succ]
      refine ⟨?_, ?_, ?_⟩
      · rw [k1]; simp [Packet.set_egress_port, ne_eq]
      · rw [k2]; simp [Packet.set_egress_port, Packet.clone, ne_eq]
      · intro c hc
        rcases hc with hc | hc
        · subst hc
          simp [Packet.set_egress_port, Packet.clone, hf]
        · obtain ⟨a, b, c', d, e⟩ := k3 c hc
          exact ⟨a, b, c', d, by omega⟩

/-- The replication loop of the fused topology, computed: it always completes, and
applies the egress stage and the deparser to each clone before pushing it. -/
theorem pipeline_replication_loop_spec (env : Env) (pkt : Packet) (ip : Int)
    (L : List McOut) (cid : Nat) :
    (∃ n, (replication_loop env pkt ip L cid).result = .ok n) ∧
    egress_inputs (replication_loop env pkt ip L cid).trace = clones pkt ip L cid ∧
    pushed .output_buffer (replication_loop env pkt ip L cid).trace =
      (clones pkt ip L cid).map (egress_side env) ∧
    learned (replication_loop env pkt ip L cid).trace = [] := by
  induction L generalizing cid with
  | nil => exact ⟨⟨cid, rfl⟩, rfl, rfl, rfl⟩
  | cons out rest ih =>
    by_cases hp : ip = out.egress_port
    · subst hp
      have hstep : replication_loop env pkt out.egress_port (out :: rest) cid =
          replication_loop env pkt out.egress_port rest cid := by
        simp [replication_loop]
      rw [hstep]
      simp only [clones, if_true]
      exact ih cid
    · obtain ⟨⟨n, hn⟩, h2, h3, h4⟩ := ih (cid + 1)
      have hstep : replication_loop env pkt ip (out :: rest) cid =
          Exec.bind ⟨[.apply "egress" ((pkt.clone cid).set_egress_port out.egress_port),
              .deparse (env.egress_mau.apply ((pkt.clone cid).set_egress_port out.egress_port)),
              .push_front .output_buffer
                (egress_side env ((pkt.clone cid).set_egress_port out.egress_port))], .ok ()⟩
            (fun _ => replication_loop env pkt ip rest (cid + 1)) := by
        simp [replication_loop, hp, Exec.bind_eq, Exec.bind, emit, egress_side]
      rw [hstep]
      simp only [Exec.bind_ok, egress_inputs_append, pushed_append, learned_append, clones, hp,
        if_false, h2, h3, h4, List.map_cons]
      refine ⟨⟨n, hn⟩, ?_, ?_, ?_⟩
      · simp [egress_inputs]
      · simp [pushed]
      · simp [learned]

theorem pipeline_prologue_no_egress (env : Env) (pkt : Packet) :
    (pipeline_prologue env pkt).Sat Event.not_egress_apply := by
  unfold pipeline_prologue
  repeat' first
    | apply Exec.sat_bind
    | apply Exec.sat_emit
    | apply Exec.sat_get_field
    | apply Exec.sat_get_int
    | apply Exec.sat_set_bits
    | apply Exec.sat_pure
    | intro _ _
    | trivial
    | exact (by decide : "ingress" ≠ "egress")

/-- The four outcomes of lines 127-155, computed for a packet that has the field
`intrinsic_metadata.mgid`. -/
theorem pipeline_forward_eq (env : Env) (pkt : Packet) (ip : Int) (d : Decision)
    (hm : pkt.phv.has_field "intrinsic_metadata" "mgid" = true) :
    (d.mgid = 0 → d.egress_port = 511 → pipeline_forward env pkt ip d = ⟨[], .ok ()⟩) ∧
    (d.mgid = 0 → d.egress_port ≠ 511 → pipeline_forward env pkt ip d =
      ⟨[.apply "egress" (pkt.set_egress_port d.egress_port),
        .deparse (env.egress_mau.apply (pkt.set_egress_port d.egress_port)),
        .push_front .output_buffer (egress_side env (pkt.set_egress_port d.egress_port))],
       .ok ()⟩) ∧
    (d.mgid = 1 → pipeline_forward env pkt ip d =
      ⟨[.get_field "intrinsic_metadata" "mgid", .set "intrinsic_metadata" "mgid" 0,
        .replicate 1] ++
        (replication_loop env { pkt with phv := pkt.phv.write "intrinsic_metadata" "mgid" 0 }
          ip (env.replicate 1) 1).trace, .ok ()⟩) ∧
    (d.mgid ≠ 0 → d.mgid ≠ 1 → pipeline_forward env pkt ip d =
      ⟨[], .error .assertion_failed⟩) := by
  refine ⟨fun hg he => ?_, fun hg he => ?_, fun hg => ?_, fun h0 h1 => ?_⟩
  · simp only [pipeline_forward, hg, he, and_self, if_true]
    rfl
  · simp [pipeline_forward, hg, he, Exec.bind_eq, Exec.bind, emit, egress_side]
  · obtain ⟨⟨n, hn⟩, -⟩ := pipeline_replication_loop_spec env
      { pkt with phv := pkt.phv.write "intrinsic_metadata" "mgid" 0 } ip (env.replicate 1) 1
    unfold pipeline_forward
    rw [get_field_of_has hm, Field.set_of_has _ hm]
    simp only [hg, assert, Exec.bind_eq, emit, fault]
    simp only [Exec.bind_ok]
    rw [Exec.bind_of_ok hn]
    simp [Exec.bind]
  · simp [pipeline_forward, h0, h1, assert, fault, Exec.bind_eq, Exec.bind]

/-- What the forwarding part hands to the egress stage and pushes: the pushes are the
egress-side images of the packets handed to the egress stage; those are the original
when the multicast group read is 0, and clones of the original with `mgid` zeroed
otherwise. -/
theorem pipeline_forward_inputs (env : Env) (pkt : Packet) (ip : Int) (d : Decision)
    (hm : pkt.phv.has_field "intrinsic_metadata" "mgid" = true) :
    pushed .output_buffer (pipeline_forward env pkt ip d).trace =
      (egress_inputs (pipeline_forward env pkt ip d).trace).map (egress_side env) ∧
    learned (pipeline_forward env pkt ip d).trace = [] ∧
    (d.mgid = 0 → ∀ p ∈ egress_inputs (pipeline_forward env pkt ip d).trace,
      p = pkt.set_egress_port d.egress_port) ∧
    (d.mgid ≠ 0 → ∀ p ∈ egress_inputs (pipeline_forward env pkt ip d).trace,
      p ∈ clones { pkt with phv := pkt.phv.write "intrinsic_metadata" "mgid" 0 } ip
        (env.replicate 1) 1) := by
  obtain ⟨h1, h2, h3, h4⟩ := pipeline_forward_eq env pkt ip d hm
  obtain ⟨-, k2, k3, k4⟩ := pipeline_replication_loop_spec env
    { pkt with phv := pkt.phv.write "intrinsic_metadata" "mgid" 0 } ip (env.replicate 1) 1
  by_cases hg : d.mgid = 0
  · by_cases he : d.egress_port = 511
    · rw [h1 hg he]
      simp [pushed, learned, egress_inputs]
    · rw [h2 hg he]
      simp [pushed, learned, egress_inputs, hg]
  · by_cases hg1 : d.mgid = 1
    · rw [h3 hg1]
      simp only [pushed_append, learned_append, egress_inputs_append, k2, k3, k4]
      simp [pushed, learned, egress_inputs, hg]
    · rw [h4 hg hg1]
      simp [pushed, learned, egress_inputs]

/-- The decision and learning parts of the iteration, computed for a packet on which the
decision reads succeed. -/
theorem pipeline_dispatch_eq {env : Env} {pkt : Packet} {ip : Int} {d : Decision}
    (hdec : (pipeline_decision pkt).result = .ok d) :
    (d.learn_id > 0 → pipeline_dispatch env pkt ip =
      ⟨(pipeline_decision pkt).trace ++
        ([Event.learn d.learn_id pkt, .get_field "intrinsic_metadata" "learn_id",
          .set "intrinsic_metadata" "learn_id" 0] ++
          (pipeline_forward env
            { pkt with phv := pkt.phv.write "intrinsic_metadata" "learn_id" 0 } ip d).trace),
       (pipeline_forward env
            { pkt with phv := pkt.phv.write "intrinsic_metadata" "learn_id" 0 } ip d).result⟩) ∧
    (¬ d.learn_id > 0 → pipeline_dispatch env pkt ip =
      ⟨(pipeline_decision pkt).trace ++ (pipeline_forward env pkt ip d).trace,
       (pipeline_forward env pkt ip d).result⟩) := by
  have hl : pkt.phv.has_field "intrinsic_metadata" "learn_id" = true :=
    PHV.has_field_of_read (pipeline_decision_spec hdec).2.1
  refine ⟨fun hv => ?_, fun hv => ?_⟩
  · unfold pipeline_dispatch
    simp only [Exec.bind_eq]
    rw [Exec.bind_of_ok hdec, pipeline_learning_eq pkt d.learn_id hl]
    simp only [hv, if_true, Exec.bind_ok]
  · unfold pipeline_dispatch
    simp only [Exec.bind_eq]
    rw [Exec.bind_of_ok hdec, pipeline_learning_eq pkt d.learn_id hl]
    simp only [hv, if_false, Exec.bind_ok, List.nil_append]

theorem pipeline_dispatch_of_decision_error {env : Env} {pkt : Packet} {ip : Int} {x : Fault}
    (hdec : (pipeline_decision pkt).result = .error x) :
    pipeline_dispatch env pkt ip = ⟨(pipeline_decision pkt).trace, .error x⟩ := by
  unfold pipeline_dispatch
  simp only [Exec.bind_eq]
  rw [Exec.bind_of_error hdec]

theorem pipeline_decision_no_egress (pkt : Packet) :
    (pipeline_decision pkt).Sat Event.not_egress_apply := by
  unfold pipeline_decision
  repeat' first
    | apply Exec.sat_bind
    | apply Exec.sat_get_field
    | apply Exec.sat_get_int
    | apply Exec.sat_get_uint
    | apply Exec.sat_pure
    | intro _ _
    | trivial

/-- Facts about the part of the trace that precedes the learning and forwarding parts. -/
theorem pipeline_preamble_quiet (env : Env) (pkt pkt' : Packet) :
    egress_inputs ((pipeline_prologue env pkt).trace ++ (pipeline_decision pkt').trace) = [] ∧
    pushed .output_buffer
      ((pipeline_prologue env pkt).trace ++ (pipeline_decision pkt').trace) = [] ∧
    learned ((pipeline_prologue env pkt).trace ++ (pipeline_decision pkt').trace) = [] := by
  rw [egress_inputs_append, pushed_append, learned_append,
    egress_inputs_eq_nil (pipeline_prologue_no_egress env pkt).all,
    egress_inputs_eq_nil (pipeline_decision_no_egress pkt').all,
    pushed_eq_nil_of_internal (pipeline_prologue_internal env pkt).all,
    pushed_eq_nil_of_internal (pipeline_decision_internal pkt').all,
    learned_eq_nil_of_internal (pipeline_prologue_internal env pkt).all,
    learned_eq_nil_of_internal (pipeline_decision_internal pkt').all]
  exact ⟨rfl, rfl, rfl⟩

/-- The whole iteration, computed for a packet on which the prologue and the decision
reads succeed: `src` is the original as the forwarding part receives it. -/
theorem pipeline_thread_eq {env : Env} {pkt pkt' : Packet} {ip : Int} {d : Decision}
    (hpro : (pipeline_prologue env pkt).result = .ok (pkt', ip))
    (hdec : (pipeline_decision pkt').result = .ok d) :
    ∃ src mid,
      src.phv = (if d.learn_id > 0 then pkt'.phv.write "intrinsic_metadata" "learn_id" 0
        else pkt'.phv) ∧
      src.copy_id = pkt.copy_id ∧ src.packet_id = pkt.packet_id ∧
      src.ingress_port = pkt.ingress_port ∧
      ip = Field.stored env.port_width pkt.ingress_port ∧
      src.phv.has_field "intrinsic_metadata" "mgid" = true ∧
      mid = (if d.learn_id > 0 then [Event.learn d.learn_id pkt',
        .get_field "intrinsic_metadata" "learn_id",
        .set "intrinsic_metadata" "learn_id" 0] else []) ∧
      pipeline_thread env pkt =
        ⟨((pipeline_prologue env pkt).trace ++ (pipeline_decision pkt').trace) ++ mid ++
          (pipeline_forward env src ip d).trace, (pipeline_forward env src ip d).result⟩ := by
  obtain ⟨hip, hc, hid, hport, -⟩ := (pipeline_prologue_post env pkt).ok _ hpro
  simp only at hip hc hid hport
  obtain ⟨-, -, v, hv, -⟩ := pipeline_decision_spec hdec
  have hm := PHV.has_field_of_read hv
  obtain ⟨h1, h2⟩ := @pipeline_dispatch_eq env pkt' ip d hdec
  rw [pipeline_thread_of_prologue_ok hpro]
  by_cases hl : d.learn_id > 0
  · refine ⟨{ pkt' with phv := pkt'.phv.write "intrinsic_metadata" "learn_id" 0 }, _,
      by simp [hl], hc, hid, hport, hip, by simpa using hm, rfl, ?_⟩
    rw [h1 hl]
    simp [hl]
  · refine ⟨pkt', _, by simp [hl], hc, hid, hport, hip, hm, rfl, ?_⟩
    rw [h2 hl]
    simp [hl]

/-- Every packet a pipeline iteration pushes carries the packet id of the packet it
popped. -/
theorem pipeline_thread_push_ids (env : Env) (pkt : Packet) :
    (pipeline_thread env pkt).Sat (Event.push_has_id pkt.packet_id) := by
  refine pipeline_thread_sat _ env pkt (fun e h => ?_) (fun _ _ _ _ _ => trivial)
    (fun _ => trivial) (fun p _ _ hid _ => hid) (fun _ _ _ p _ _ _ _ _ hid _ => hid)
  cases e <;> trivial

/-- Copy ids of the packets one pipeline iteration pushes onto the output queue, in push
order: 1, 2, ..., n for the clones, or 0 alone for the original.  Holds on every path,
faulting ones included. -/
theorem pipeline_thread_copy_ids (env : Env) (pkt : Packet) (hadm : pkt.copy_id = 0) :
    ∃ n orig, (pushed .output_buffer (pipeline_thread env pkt).trace).map
        (fun q => q.copy_id) = List.range' 1 n ++ orig ∧ (orig = [] ∨ orig = [0]) := by
  cases hpro : (pipeline_prologue env pkt).result with
  | error x =>
    rw [pipeline_thread_of_prologue_error hpro]
    exact ⟨0, [], by simp [pushed_eq_nil_of_internal (pipeline_prologue_internal env pkt).all],
      Or.inl rfl⟩
  | ok r =>
    obtain ⟨pkt', ip⟩ := r
    obtain ⟨-, hq, -⟩ := pipeline_preamble_quiet env pkt pkt'
    cases hdec : (pipeline_decision pkt').result with
    | error x =>
      rw [pipeline_thread_of_prologue_ok hpro, pipeline_dispatch_of_decision_error hdec]
      exact ⟨0, [], by simp [hq], Or.inl rfl⟩
    | ok d =>
      obtain ⟨src, mid, -, hc, -, -, -, hm, hmid, heq⟩ := pipeline_thread_eq hpro hdec
      have hmq : pushed .output_buffer mid = [] := by
        rw [hmid]; split <;> simp [pushed]
      obtain ⟨f1, f2, f3, f4⟩ := pipeline_forward_eq env src ip d hm
      rw [heq]
      simp only [pushed_append, hq, hmq, List.nil_append]
      by_cases hg : d.mgid = 0
      · by_cases he : d.egress_port = 511
        · rw [f1 hg he]
          exact ⟨0, [], by simp [pushed], Or.inl rfl⟩
        · rw [f2 hg he]
          exact ⟨0, [0], by simp [pushed, egress_side, Packet.set_egress_port, hc, hadm],
            Or.inr rfl⟩
      · by_cases h1 : d.mgid = 1
        · rw [f3 h1]
          obtain ⟨-, -, hp, -⟩ := pipeline_replication_loop_spec env
            { src with phv := src.phv.write "intrinsic_metadata" "mgid" 0 } ip
            (env.replicate 1) 1
          obtain ⟨-, hids, -⟩ := clones_spec
            { src with phv := src.phv.write "intrinsic_metadata" "mgid" 0 } ip
            (env.replicate 1) 1
          refine ⟨((env.replicate 1).filter
            (fun o => decide (o.egress_port ≠ ip))).length, [], ?_, Or.inl rfl⟩
          simp only [pushed_append, hp]
          rw [← hids]
          simp [pushed, egress_side, Function.comp_def]
        · rw [f4 hg h1]
          exact ⟨0, [], by simp [pushed], Or.inl rfl⟩

end l2_switch

/-! ## The split topology: counting the pushes of one ingress iteration -/

namespace simple_switch
open bm

theorem ingress_dispatch_of_decision_error {env : Env} {pkt : Packet} {x : Fault}
    (hdec : (ingress_decision pkt).result = .error x) :
    ingress_dispatch env pkt = ⟨(ingress_decision pkt).trace, .error x⟩ := by
  unfold ingress_dispatch
  simp only [Exec.bind_eq]
  rw [Exec.bind_of_error hdec]

theorem ingress_forward_multicast_fault (env : Env) (pkt : Packet) (d : Decision)
    (copy_id : Nat) (hg : d.mgid ≠ 0)
    (hrid : pkt.phv.has_field "intrinsic_metadata" "egress_rid" = false)
    (hit : pkt.phv.has_field "standard_metadata" "instance_type" = true) :
    ingress_forward env pkt d copy_id =
      ⟨[.get "standard_metadata" "instance_type",
        .get_field "intrinsic_metadata" "egress_rid"],
       .error (.field_absent "intrinsic_metadata" "egress_rid")⟩ := by
  obtain ⟨itv, hitv⟩ := PHV.read_of_has_field hit
  unfold ingress_forward
  rw [Field.get_int_of_read hitv, get_field_of_not hrid]
  simp [Exec.bind_eq, Exec.bind, hg]

/-- The copy ids of the packets the multicast/unicast part pushes, on a packet with copy
id 0 that has the instance-type field: clones numbered from `cid`, or the original. -/
theorem ingress_forward_copy_ids (env : Env) (pkt : Packet) (d : Decision) (cid : Nat)
    (hadm : pkt.copy_id = 0)
    (hit : pkt.phv.has_field "standard_metadata" "instance_type" = true) :
    ∃ n orig, (pushed .egress_buffer (ingress_forward env pkt d cid).trace).map
        (fun q => q.copy_id) = List.range' cid n ++ orig ∧ (orig = [] ∨ orig = [0]) ∧
      (d.mgid ≠ 0 → orig = []) ∧ (d.mgid = 0 → n = 0) := by
  by_cases hg : d.mgid = 0
  · rw [ingress_forward_unicast env pkt d cid hg hit]
    by_cases he : d.egress_spec = 511
    · exact ⟨0, [], by simp [he, pushed], Or.inl rfl, fun _ => rfl, fun _ => rfl⟩
    · exact ⟨0, [0], by simp [he, pushed, Packet.set_egress_port, hadm], Or.inr rfl,
        fun h => absurd hg h, fun _ => rfl⟩
  · by_cases hrid : pkt.phv.has_field "intrinsic_metadata" "egress_rid" = true
    · obtain ⟨itv, hfwd⟩ := ingress_forward_multicast env pkt d cid hg hrid hit
      obtain ⟨p', -, -, -, hcids, -⟩ :=
        replication_loop_spec (env.replicate d.mgid) pkt cid hrid hit
      refine ⟨(env.replicate d.mgid).length, [], ?_, Or.inl rfl, fun _ => rfl,
        fun h => absurd h hg⟩
      rw [hfwd]
      simp only [pushed_append, List.map_append, hcids]
      simp [pushed]
    · rw [ingress_forward_multicast_fault env pkt d cid hg (by simpa using hrid) hit]
      exact ⟨0, [], by simp [pushed], Or.inl rfl, fun _ => rfl, fun h => absurd h hg⟩

/-- Every packet an ingress iteration pushes carries the packet id of the packet it
popped. -/
theorem ingress_thread_push_ids (env : Env) (pkt : Packet) :
    (ingress_thread env pkt).Sat (Event.push_has_id pkt.packet_id) := by
  have hint : ∀ e, Event.internal e = true → Event.push_has_id pkt.packet_id e := by
    intro e h
    cases e <;> trivial
  refine ingress_thread_sat _ env pkt ⟨fun e he => ?_⟩ (fun pkt' hpro => ?_)
  · rcases ingress_prologue_internal env pkt e he with h | h
    · rw [h]; trivial
    · exact hint e h
  · obtain ⟨-, -, -, hid, -⟩ := ingress_prologue_spec hpro
    refine ingress_dispatch_sat _ env pkt'
      (Exec.sat_of_internal (ingress_decision_internal pkt') hint) (fun d _ => ?_)
    refine ⟨ingress_cloning_sat _ _ _ (fun _ => trivial) (fun p _ hp => hp.trans hid),
      fun p2 cid hcl => ⟨?_, ?_⟩⟩
    · exact ingress_learning_sat _ _ _ (fun _ => trivial)
    · obtain ⟨hcid, -, hid2, -⟩ := (ingress_cloning_post pkt' d.clone_spec).ok _ hcl
      simp only at hid2
      exact ingress_forward_sat _ env p2 d cid trivial
        (fun _ => ⟨trivial, trivial, fun _ => trivial, fun _ => trivial,
          fun p _ hp _ => hp.trans (hid2.trans hid)⟩)
        (fun _ _ => hid2.trans hid) hcid

/-- Copy ids of the packets one ingress iteration pushes onto the egress queue, in push
order: 1, 2, ..., n for the clones, then 0 if the original is pushed.  Holds on every
path, faulting ones included. -/
theorem ingress_thread_copy_ids (env : Env) (pkt : Packet) (hadm : pkt.copy_id = 0) :
    ∃ n orig, (pushed .egress_buffer (ingress_thread env pkt).trace).map
        (fun q => q.copy_id) = List.range' 1 n ++ orig ∧ (orig = [] ∨ orig = [0]) := by
  cases hpro : (ingress_prologue env pkt).result with
  | error x =>
    rw [ingress_thread_of_prologue_error hpro]
    exact ⟨0, [], by simp [pushed_ingress_prologue], Or.inl rfl⟩
  | ok pkt' =>
    obtain ⟨hlay, -, hcopy, -, -, hit0⟩ := ingress_prologue_spec hpro
    have hit : pkt'.phv.has_field "standard_metadata" "instance_type" = true := by
      rw [hlay]; exact hit0
    cases hdec : (ingress_decision pkt').result with
    | error x =>
      rw [ingress_thread_of_prologue_ok hpro, ingress_dispatch_of_decision_error hdec]
      exact ⟨0, [], by simp [pushed_append, pushed_ingress_prologue, pushed_ingress_decision],
        Or.inl rfl⟩
    | ok d =>
      by_cases hc : d.clone_spec = 0
      · have hcl : (ingress_cloning pkt' d.clone_spec).result = .ok (pkt', 1) := by
          rw [hc, ingress_cloning_zero]
        obtain ⟨n, orig, h1, h2, -⟩ :=
          ingress_forward_copy_ids env pkt' d 1 (hcopy.trans hadm) hit
        refine ⟨n, orig, ?_, h2⟩
        rw [pushed_ingress_thread .egress_buffer hpro hdec hcl, List.map_append, h1]
        rw [hc, ingress_cloning_zero]
        simp [pushed]
      · have heq := ingress_cloning_nonzero pkt' hc hit
        have hcl := congrArg Exec.result heq
        simp only at hcl
        have hit2 : (({ pkt' with
            phv := ((pkt'.phv.write "standard_metadata" "instance_type"
              PKT_INSTANCE_TYPE_INGRESS_CLONE).write "standard_metadata" "instance_type"
              PKT_INSTANCE_TYPE_NORMAL) } : Packet)).phv.has_field
            "standard_metadata" "instance_type" = true := by
          simpa using hit
        obtain ⟨n, orig, h1, h2, -⟩ :=
          ingress_forward_copy_ids env _ d 2 (show ({ pkt' with
            phv := ((pkt'.phv.write "standard_metadata" "instance_type"
              PKT_INSTANCE_TYPE_INGRESS_CLONE).write "standard_metadata" "instance_type"
              PKT_INSTANCE_TYPE_NORMAL) } : Packet).copy_id = 0 from hcopy.trans hadm) hit2
        refine ⟨n + 1, orig, ?_, h2⟩
        rw [pushed_ingress_thread .egress_buffer hpro hdec hcl, List.map_append, h1, heq]
        simp [pushed, List.range'_succ]

end simple_switch

namespace bm

/-- The copy-id sequence 1, 2, ..., n, optionally followed by 0, has no repetition. -/
theorem copy_ids_nodup (n : Nat) (orig : List Nat) (h : orig = [] ∨ orig = [0]) :
    (List.range' 1 n ++ orig).Nodup := by
  rcases h with h | h
  · rw [h, List.append_nil]
    exact List.nodup_range' 1 n
  · rw [h, List.nodup_append]
    refine ⟨List.nodup_range' 1 n, List.nodup_singleton 0, ?_⟩
    intro a ha hb
    simp only [List.mem_singleton] at hb
    rw [List.mem_range'_1] at ha
    omega

end bm

namespace simple_switch
open bm

/-- C2 (split topology, unicast): with egress-spec `p ≠ 511`, multicast group 0 and
clone-spec 0 after the ingress match-action stage, the ingress iteration completes and
pushes exactly one packet onto the egress queue, the original (copy id 0) with egress port
`p`; and when the egress match-action stage leaves an egress-spec other than 511 on it,
the egress iteration pushes exactly one packet, with egress port `p`, onto the transmit
queue. -/
theorem C2_unicast_exactly_once (env : Env) (pkt pkt' : Packet) (d : Decision) (p : Int)
    (hadm : pkt.copy_id = 0)
    (hpro : (ingress_prologue env pkt).result = .ok pkt')
    (hdec : (ingress_decision pkt').result = .ok d)
    (hp : d.egress_spec = p) (hne : p ≠ 511) (hg : d.mgid = 0) (hc : d.clone_spec = 0) :
    (ingress_thread env pkt).result = .ok () ∧
    ∃ q, pushed .egress_buffer (ingress_thread env pkt).trace = [q] ∧
      q.copy_id = 0 ∧ q.packet_id = pkt.packet_id ∧ q.egress_port = p ∧
      ∀ q' s, (egress_prologue env q).result = .ok q' →
        q'.phv.read "standard_metadata" "egress_spec" = some s → s ≠ 511 →
        (egress_thread env q).result = .ok () ∧
        ∃ r, pushed .output_buffer (egress_thread env q).trace = [r] ∧
          r.egress_port = p ∧ r.copy_id = 0 ∧ r.packet_id = pkt.packet_id := by
  obtain ⟨hlay, -, hcopy, hpid, -, hit0⟩ := ingress_prologue_spec hpro
  have hit : pkt'.phv.has_field "standard_metadata" "instance_type" = true := by
    rw [hlay]; exact hit0
  have hcl : (ingress_cloning pkt' d.clone_spec).result = .ok (pkt', 1) := by
    rw [hc, ingress_cloning_zero]
  have hfwd := ingress_forward_unicast env pkt' d 1 hg hit
  have hne' : ¬ d.egress_spec = 511 := by rw [hp]; exact hne
  simp only [hne', if_false] at hfwd
  refine ⟨?_, pkt'.set_egress_port d.egress_spec, ?_, ?_, ?_, ?_, ?_⟩
  · rw [ingress_thread_of_ok hpro hdec hcl, hfwd]
  · rw [pushed_ingress_thread _ hpro hdec hcl, hfwd, hc, ingress_cloning_zero]
    simp [pushed]
  · simp [Packet.set_egress_port, hcopy, hadm]
  · simp [Packet.set_egress_port, hpid]
  · simp [Packet.set_egress_port, hp]
  · intro q' s hq' hs hs511
    have hthr := egress_thread_of_ok hq'
    have hf := egress_forward_eq env q' hs
    simp only [hs511, if_false] at hf
    have hall := egress_thread_pushed env (pkt'.set_egress_port d.egress_spec)
    rw [hthr, hf] at hall ⊢
    refine ⟨rfl, env.deparser.apply q', ?_, ?_⟩
    · rw [pushed_append, pushed_eq_nil_of_internal (egress_prologue_internal env _).all]
      simp [pushed]
    · have h := hall (env.deparser.apply q') (by
        rw [pushed_append, pushed_eq_nil_of_internal (egress_prologue_internal env _).all]
        simp [pushed])
      simp only [Packet.set_egress_port] at h
      refine ⟨by rw [h.2.2, hp], by rw [h.1, hcopy, hadm], by rw [h.2.1, hpid]⟩

/-- C2, instance: egress-spec 7 gives one packet with egress port 7 on the egress queue
and then one on the transmit queue. -/
theorem C2_unicast_witness :
    (pushed .egress_buffer
        (ingress_thread (sample.split_env [("standard_metadata", "egress_spec", 7)] (fun _ => []))
          (sample.packet_on_port_1 sample.phv_standard)).trace).map
        (fun q => (q.egress_port, q.copy_id)) = [(7, 0)] ∧
    ((pushed .egress_buffer
        (ingress_thread (sample.split_env [("standard_metadata", "egress_spec", 7)] (fun _ => []))
          (sample.packet_on_port_1 sample.phv_standard)).trace).flatMap
        (fun q => pushed .output_buffer
          (egress_thread (sample.split_env [("standard_metadata", "egress_spec", 7)]
            (fun _ => [])) q).trace)).map (fun r => (r.egress_port, r.copy_id)) = [(7, 0)] ∧
    ((ingress_thread (sample.split_env [("standard_metadata", "egress_spec", 7)] (fun _ => []))
        (sample.packet_on_port_1 sample.phv_standard)).result = .ok () ∧
    ∃ q, pushed .egress_buffer
        (ingress_thread (sample.split_env [("standard_metadata", "egress_spec", 7)] (fun _ => []))
          (sample.packet_on_port_1 sample.phv_standard)).trace = [q] ∧
      q.copy_id = 0 ∧ q.packet_id = 0 ∧ q.egress_port = 7 ∧
      ∀ q' s, (egress_prologue
          (sample.split_env [("standard_metadata", "egress_spec", 7)] (fun _ => [])) q).result
            = .ok q' →
        q'.phv.read "standard_metadata" "egress_spec" = some s → s ≠ 511 →
        (egress_thread (sample.split_env [("standard_metadata", "egress_spec", 7)]
          (fun _ => [])) q).result = .ok () ∧
        ∃ r, pushed .output_buffer (egress_thread
            (sample.split_env [("standard_metadata", "egress_spec", 7)] (fun _ => [])) q).trace
              = [r] ∧
          r.egress_port = 7 ∧ r.copy_id = 0 ∧ r.packet_id = 0) :=
  ⟨by decide, by decide,
   C2_unicast_exactly_once
    (sample.split_env [("standard_metadata", "egress_spec", 7)] (fun _ => []))
    (sample.packet_on_port_1 sample.phv_standard)
    (sample.value (ingress_prologue
      (sample.split_env [("standard_metadata", "egress_spec", 7)] (fun _ => []))
      (sample.packet_on_port_1 sample.phv_standard)) (sample.packet_on_port_1 sample.phv_standard))
    ⟨7, 0, 0, 0⟩ 7 rfl rfl rfl rfl (by decide) rfl rfl⟩

end simple_switch

namespace bm

/-- C3 (both topologies, drop): when the egress decision field read after the ingress
match-action stage is 511, whatever clone-spec, learn id and multicast group are, no
packet pushed onto the next queue is the original instance (copy id 0, the copy id of an
admitted packet); in the split topology no packet the egress iteration then pushes onto
the transmit queue is the original either. -/
theorem C3_drop_original_never_pushed
    (envS : simple_switch.Env) (pktS pktS' : Packet) (dS : simple_switch.Decision)
    (envF : l2_switch.Env) (pktF pktF' : Packet) (ipF : Int) (dF : l2_switch.Decision)
    (hadmS : pktS.copy_id = 0)
    (hproS : (simple_switch.ingress_prologue envS pktS).result = .ok pktS')
    (hdecS : (simple_switch.ingress_decision pktS').result = .ok dS)
    (hS : dS.egress_spec = 511)
    (hadmF : pktF.copy_id = 0)
    (hproF : (l2_switch.pipeline_prologue envF pktF).result = .ok (pktF', ipF))
    (hdecF : (l2_switch.pipeline_decision pktF').result = .ok dF)
    (hF : dF.egress_port = 511) :
    (∀ q ∈ pushed .egress_buffer (simple_switch.ingress_thread envS pktS).trace,
      q.copy_id ≠ pktS.copy_id ∧
      ∀ r ∈ pushed .output_buffer (simple_switch.egress_thread envS q).trace,
        r.copy_id ≠ pktS.copy_id) ∧
    pushed .output_buffer (simple_switch.ingress_thread envS pktS).trace = [] ∧
    (∀ q ∈ pushed .output_buffer (l2_switch.pipeline_thread envF pktF).trace,
      q.copy_id ≠ pktF.copy_id) := by
  have hint : ∀ b e, Event.internal e = true → Event.pushes_copy_to b e := by
    intro b e h
    cases e <;> trivial
  have hsplit : (simple_switch.ingress_thread envS pktS).Sat
      (Event.pushes_copy_to .egress_buffer) := by
    refine simple_switch.ingress_thread_sat _ envS pktS ⟨fun e he => ?_⟩ (fun pkt' hp => ?_)
    · rcases simple_switch.ingress_prologue_internal envS pktS e he with h | h
      · rw [h]; trivial
      · exact hint _ e h
    · rw [hproS] at hp
      simp only [Except.ok.injEq] at hp
      subst hp
      refine simple_switch.ingress_dispatch_sat _ envS pktS'
        (Exec.sat_of_internal (simple_switch.ingress_decision_internal pktS') (hint _))
        (fun d hd => ?_)
      rw [hdecS] at hd
      simp only [Except.ok.injEq] at hd
      subst hd
      refine ⟨simple_switch.ingress_cloning_sat _ _ _ (fun _ => trivial)
        (fun p hp _ => ⟨rfl, by rw [hp]; decide⟩), fun p2 cid hcl => ⟨?_, ?_⟩⟩
      · exact simple_switch.ingress_learning_sat _ _ _ (fun _ => trivial)
      · have hcid := ((simple_switch.ingress_cloning_post pktS' dS.clone_spec).ok _ hcl).1
        exact simple_switch.ingress_forward_sat _ envS p2 dS cid trivial
          (fun _ => ⟨trivial, trivial, fun _ => trivial, fun _ => trivial,
            fun p hp _ _ => ⟨rfl, hp⟩⟩)
          (fun _ he => absurd hS he) hcid
  have hfused : (l2_switch.pipeline_thread envF pktF).Sat
      (Event.pushes_copy_to .output_buffer) := by
    refine l2_switch.pipeline_thread_sat _ envF pktF (hint _)
      (fun _ _ _ _ _ => trivial) (fun _ => trivial)
      (fun p hp _ _ _ => ⟨rfl, hp⟩) (fun pkt' ip d p hp hd _ he _ _ _ => ?_)
    rw [hproF] at hp
    simp only [Except.ok.injEq, Prod.mk.injEq] at hp
    obtain ⟨rfl, rfl⟩ := hp
    rw [hdecF] at hd
    simp only [Except.ok.injEq] at hd
    subst hd
    exact absurd hF he
  refine ⟨fun q hq => ?_, ?_, fun q hq => ?_⟩
  · have h : q.copy_id ≠ 0 := (hsplit.all _ (mem_pushed.mp hq)).2
    refine ⟨by rw [hadmS]; exact h, fun r hr => ?_⟩
    rw [(simple_switch.egress_thread_pushed envS q r hr).1, hadmS]
    exact h
  · apply pushed_eq_nil_of_sat
    intro e he p hp
    have h := hsplit.all e he
    rw [hp] at h
    exact absurd h.1 (by decide)
  · rw [hadmF]
    exact (hfused.all _ (mem_pushed.mp hq)).2

/-- C3, instance: with egress-spec 511 and clone-spec 4 the split ingress iteration pushes
only the clone (copy id 1); with egress port 511 the fused iteration pushes nothing. -/
theorem C3_drop_witness :
    (pushed .egress_buffer (simple_switch.ingress_thread sample.drop_and_clone_env
        (sample.packet_on_port_1 sample.phv_standard)).trace).map
      (fun q => (q.copy_id, q.egress_port)) = [(1, 4)] ∧
    pushed .output_buffer (l2_switch.pipeline_thread sample.drop_env_l2
        (sample.packet_on_port_1 sample.phv_l2)).trace = [] ∧
    ((∀ q ∈ pushed .egress_buffer (simple_switch.ingress_thread sample.drop_and_clone_env
          (sample.packet_on_port_1 sample.phv_standard)).trace,
      q.copy_id ≠ (sample.packet_on_port_1 sample.phv_standard).copy_id ∧
      ∀ r ∈ pushed .output_buffer
          (simple_switch.egress_thread sample.drop_and_clone_env q).trace,
        r.copy_id ≠ (sample.packet_on_port_1 sample.phv_standard).copy_id) ∧
    pushed .output_buffer (simple_switch.ingress_thread sample.drop_and_clone_env
        (sample.packet_on_port_1 sample.phv_standard)).trace = [] ∧
    (∀ q ∈ pushed .output_buffer (l2_switch.pipeline_thread sample.drop_env_l2
        (sample.packet_on_port_1 sample.phv_l2)).trace,
      q.copy_id ≠ (sample.packet_on_port_1 sample.phv_l2).copy_id)) :=
  ⟨by decide, by decide,
   C3_drop_original_never_pushed sample.drop_and_clone_env
    (sample.packet_on_port_1 sample.phv_standard)
    (sample.value (simple_switch.ingress_prologue sample.drop_and_clone_env
      (sample.packet_on_port_1 sample.phv_standard))
      (sample.packet_on_port_1 sample.phv_standard))
    ⟨511, 4, 0, 0⟩
    sample.drop_env_l2 (sample.packet_on_port_1 sample.phv_l2)
    (sample.value (l2_switch.pipeline_prologue sample.drop_env_l2
      (sample.packet_on_port_1 sample.phv_l2))
      (sample.packet_on_port_1 sample.phv_l2, 0)).1
    1 ⟨511, 0, 0⟩ rfl rfl rfl rfl rfl rfl rfl rfl⟩

end bm

namespace bm

/-- C4 (both topologies, learning): the notifier is called exactly once, with the learn
id `v` read after the ingress match-action stage and the packet being processed, when
`v > 0`, and not at all when `v ≤ 0`, whatever the clone-spec, multicast group and
egress decision are. -/
theorem C4_learn_called_once_iff_positive
    (envS : simple_switch.Env) (pktS pktS' : Packet) (dS : simple_switch.Decision)
    (envF : l2_switch.Env) (pktF pktF' : Packet) (ipF : Int) (dF : l2_switch.Decision)
    (hproS : (simple_switch.ingress_prologue envS pktS).result = .ok pktS')
    (hdecS : (simple_switch.ingress_decision pktS').result = .ok dS)
    (hproF : (l2_switch.pipeline_prologue envF pktF).result = .ok (pktF', ipF))
    (hdecF : (l2_switch.pipeline_decision pktF').result = .ok dF) :
    ((dS.learn_id > 0 → ∃ p, learned (simple_switch.ingress_thread envS pktS).trace =
        [(dS.learn_id, p)] ∧ p.packet_id = pktS.packet_id ∧ p.copy_id = pktS.copy_id) ∧
     (dS.learn_id ≤ 0 → learned (simple_switch.ingress_thread envS pktS).trace = [])) ∧
    ((dF.learn_id > 0 → ∃ p, learned (l2_switch.pipeline_thread envF pktF).trace =
        [(dF.learn_id, p)] ∧ p.packet_id = pktF.packet_id ∧ p.copy_id = pktF.copy_id) ∧
     (dF.learn_id ≤ 0 → learned (l2_switch.pipeline_thread envF pktF).trace = [])) := by
  have hnl : ∀ tr : List Event, (∀ e ∈ tr, Event.not_learn e) → learned tr = [] := by
    intro tr h
    apply learned_eq_nil_of_sat
    intro e he v p hp
    have := h e he
    rw [hp] at this
    exact this
  have hint : ∀ e, Event.internal e = true → Event.not_learn e := by
    intro e h
    cases e <;> trivial
  -- split topology
  obtain ⟨hlay, -, hcopy, hpid, -, hit0⟩ := simple_switch.ingress_prologue_spec hproS
  have hit : pktS'.phv.has_field "standard_metadata" "instance_type" = true := by
    rw [hlay]; exact hit0
  obtain ⟨p2, cid, hcl, -, hc2, hid2, -, hcid, -, hlcl, -, -⟩ :=
    simple_switch.ingress_cloning_ok pktS' dS.clone_spec hit
  have hfwd : learned (simple_switch.ingress_forward envS p2 dS cid).trace = [] :=
    hnl _ (simple_switch.ingress_forward_sat Event.not_learn envS p2 dS cid trivial
      (fun _ => ⟨trivial, trivial, fun _ => trivial, fun _ => trivial,
        fun _ _ _ _ => trivial⟩) (fun _ _ => trivial) hcid).all
  have hS : learned (simple_switch.ingress_thread envS pktS).trace =
      if dS.learn_id > 0 then [(dS.learn_id, p2)] else [] := by
    rw [simple_switch.ingress_thread_of_ok hproS hdecS hcl]
    simp only [learned_append, simple_switch.learned_ingress_prologue,
      simple_switch.learned_ingress_decision, hlcl, hfwd, List.nil_append, List.append_nil,
      simple_switch.ingress_learning_eq]
    split <;> simp [learned]
  -- fused topology
  obtain ⟨-, hcF, hidF, -, -⟩ := (l2_switch.pipeline_prologue_post envF pktF).ok _ hproF
  simp only at hcF hidF
  obtain ⟨p3, -, -, hdisp⟩ := @l2_switch.pipeline_dispatch_of_ok envF pktF' ipF dF hdecF
  have hfwdF : learned (l2_switch.pipeline_forward envF p3 ipF dF).trace = [] :=
    hnl _ (l2_switch.pipeline_forward_sat Event.not_learn envF p3 ipF dF hint trivial
      (fun _ _ _ _ _ => trivial) (fun _ _ => trivial)).all
  have hF : learned (l2_switch.pipeline_thread envF pktF).trace =
      if dF.learn_id > 0 then [(dF.learn_id, pktF')] else [] := by
    rw [l2_switch.pipeline_thread_of_prologue_ok hproF, hdisp]
    simp only [learned_append, hfwdF, List.append_nil,
      hnl _ (fun e he => hint e ((l2_switch.pipeline_prologue_internal envF pktF).all e he)),
      hnl _ (fun e he => hint e ((l2_switch.pipeline_decision_internal pktF').all e he)),
      List.nil_append]
    split <;> simp [learned]
  refine ⟨⟨fun hv => ⟨p2, ?_, ?_, ?_⟩, fun hv => ?_⟩, ⟨fun hv => ⟨pktF', ?_, ?_, ?_⟩, fun hv => ?_⟩⟩
  · rw [hS, if_pos hv]
  · rw [hid2, hpid]
  · rw [hc2, hcopy]
  · rw [hS, if_neg (not_lt.mpr hv)]
  · rw [hF, if_pos hv]
  · exact hidF
  · exact hcF
  · rw [hF, if_neg (not_lt.mpr hv)]

/-- C4, instance: learn id 42 gives exactly one notifier call, with learn id 42, in either
topology (here on a packet that is then dropped, resp. forwarded). -/
theorem C4_learn_witness :
    (learned (simple_switch.ingress_thread sample.learn_env
        (sample.packet_on_port_1 sample.phv_intrinsic)).trace).map (fun c => c.1) = [42] ∧
    (learned (l2_switch.pipeline_thread sample.learn_env_l2
        (sample.packet_on_port_1 sample.phv_l2)).trace).map (fun c => c.1) = [42] ∧
    (((42 : Int) > 0 → ∃ p, learned (simple_switch.ingress_thread sample.learn_env
          (sample.packet_on_port_1 sample.phv_intrinsic)).trace = [(42, p)] ∧
        p.packet_id = (sample.packet_on_port_1 sample.phv_intrinsic).packet_id ∧
        p.copy_id = (sample.packet_on_port_1 sample.phv_intrinsic).copy_id) ∧
     ((42 : Int) ≤ 0 → learned (simple_switch.ingress_thread sample.learn_env
          (sample.packet_on_port_1 sample.phv_intrinsic)).trace = [])) ∧
    (((42 : Int) > 0 → ∃ p, learned (l2_switch.pipeline_thread sample.learn_env_l2
          (sample.packet_on_port_1 sample.phv_l2)).trace = [(42, p)] ∧
        p.packet_id = (sample.packet_on_port_1 sample.phv_l2).packet_id ∧
        p.copy_id = (sample.packet_on_port_1 sample.phv_l2).copy_id) ∧
     ((42 : Int) ≤ 0 → learned (l2_switch.pipeline_thread sample.learn_env_l2
          (sample.packet_on_port_1 sample.phv_l2)).trace = [])) :=
  ⟨by decide, by decide,
   C4_learn_called_once_iff_positive sample.learn_env
    (sample.packet_on_port_1 sample.phv_intrinsic)
    (sample.value (simple_switch.ingress_prologue sample.learn_env
      (sample.packet_on_port_1 sample.phv_intrinsic))
      (sample.packet_on_port_1 sample.phv_intrinsic))
    ⟨511, 0, 42, 0⟩
    sample.learn_env_l2 (sample.packet_on_port_1 sample.phv_l2)
    (sample.value (l2_switch.pipeline_prologue sample.learn_env_l2
      (sample.packet_on_port_1 sample.phv_l2))
      (sample.packet_on_port_1 sample.phv_l2, 0)).1
    1 ⟨2, 42, 0⟩ rfl rfl rfl rfl⟩

end bm

namespace simple_switch
open bm

/-- C5, as stated, fails: with clone-spec 0 the original is pushed carrying whatever
instance type the ingress match-action stage left; a stage that writes 1 (INGRESS_CLONE)
there makes the pushed original carry instance type INGRESS_CLONE. -/
theorem C5_clone_spec_zero_counterexample :
    (ingress_decision (sample.value (ingress_prologue
        (sample.split_env [("standard_metadata", "instance_type", 1),
          ("standard_metadata", "egress_spec", 7)] (fun _ => []))
        (sample.packet_on_port_1 sample.phv_standard))
        (sample.packet_on_port_1 sample.phv_standard))).result = .ok ⟨7, 0, 0, 0⟩ ∧
    (pushed .egress_buffer (ingress_thread
        (sample.split_env [("standard_metadata", "instance_type", 1),
          ("standard_metadata", "egress_spec", 7)] (fun _ => []))
        (sample.packet_on_port_1 sample.phv_standard)).trace).map
      (fun q => (q.copy_id, q.phv.read "standard_metadata" "instance_type")) =
      [(0, some PKT_INSTANCE_TYPE_INGRESS_CLONE)] :=
  ⟨rfl, by decide⟩

/-- C5 (amended; split topology, ingress clone): when the clone-spec `c` read after the
ingress match-action stage is nonzero, the first packet pushed onto the egress queue is a
clone with copy id 1, egress port `c` and instance type INGRESS_CLONE, and no later push
carries that type; when `c = 0` and the stage left an instance type other than
INGRESS_CLONE, no pushed packet carries instance type INGRESS_CLONE. -/
theorem C5_ingress_clone_pushed_first (env : Env) (pkt pkt' : Packet) (d : Decision)
    (hpro : (ingress_prologue env pkt).result = .ok pkt')
    (hdec : (ingress_decision pkt').result = .ok d) :
    (d.clone_spec ≠ 0 → ∃ q rest,
      pushed .egress_buffer (ingress_thread env pkt).trace = q :: rest ∧
      q.copy_id = 1 ∧ q.egress_port = d.clone_spec ∧
      q.phv.read "standard_metadata" "instance_type" =
        some PKT_INSTANCE_TYPE_INGRESS_CLONE ∧
      ∀ r ∈ rest, r.phv.read "standard_metadata" "instance_type" ≠
        some PKT_INSTANCE_TYPE_INGRESS_CLONE) ∧
    (d.clone_spec = 0 →
      pkt'.phv.read "standard_metadata" "instance_type" ≠
        some PKT_INSTANCE_TYPE_INGRESS_CLONE →
      ∀ q ∈ pushed .egress_buffer (ingress_thread env pkt).trace,
        q.phv.read "standard_metadata" "instance_type" ≠
          some PKT_INSTANCE_TYPE_INGRESS_CLONE) := by
  obtain ⟨hlay, -, -, -, -, hit0⟩ := ingress_prologue_spec hpro
  have hit : pkt'.phv.has_field "standard_metadata" "instance_type" = true := by
    rw [hlay]; exact hit0
  obtain ⟨p2, cid, hcl, -, -, -, -, hcid, -, -, hz, hnz⟩ :=
    ingress_cloning_ok pkt' d.clone_spec hit
  have hpush := pushed_ingress_thread .egress_buffer hpro hdec hcl
  have hfwd : p2.phv.read "standard_metadata" "instance_type" ≠
      some PKT_INSTANCE_TYPE_INGRESS_CLONE →
      ∀ r ∈ pushed .egress_buffer (ingress_forward env p2 d cid).trace,
        r.phv.read "standard_metadata" "instance_type" ≠
          some PKT_INSTANCE_TYPE_INGRESS_CLONE := by
    intro hp2 r hr
    have hsat := ingress_forward_sat (Event.push_type_ne PKT_INSTANCE_TYPE_INGRESS_CLONE)
      env p2 d cid trivial
      (fun _ => ⟨trivial, trivial, fun _ => trivial, fun _ => trivial,
        fun p _ _ hty => by
          show p.phv.read "standard_metadata" "instance_type" ≠ _
          rw [hty]; decide⟩)
      (fun _ _ => hp2) hcid
    exact hsat.all _ (mem_pushed.mp hr)
  refine ⟨fun hc => ?_, fun hc hty q hq => ?_⟩
  · obtain ⟨q, hq, hid, hport, -, hty, hp2⟩ := hnz hc
    refine ⟨q, pushed .egress_buffer (ingress_forward env p2 d cid).trace, ?_, hid, hport,
      hty, hfwd ?_⟩
    · rw [hpush, hq]; rfl
    · rw [hp2]; decide
  · obtain ⟨hnil, hp2⟩ := hz hc
    rw [hpush, hnil, List.nil_append] at hq
    exact hfwd (by rw [hp2]; exact hty) q hq

/-- C5, instance: clone-spec 4 with egress-spec 7 pushes the clone (copy id 1, port 4,
INGRESS_CLONE) first and the original (copy id 0, port 7, NORMAL) after it. -/
theorem C5_ingress_clone_witness :
    (pushed .egress_buffer (ingress_thread sample.clone_env
        (sample.packet_on_port_1 sample.phv_standard)).trace).map
      (fun q => (q.copy_id, q.egress_port, q.phv.read "standard_metadata" "instance_type")) =
      [(1, 4, some PKT_INSTANCE_TYPE_INGRESS_CLONE), (0, 7, some PKT_INSTANCE_TYPE_NORMAL)] ∧
    (((4 : Int) ≠ 0 → ∃ q rest,
      pushed .egress_buffer (ingress_thread sample.clone_env
        (sample.packet_on_port_1 sample.phv_standard)).trace = q :: rest ∧
      q.copy_id = 1 ∧ q.egress_port = 4 ∧
      q.phv.read "standard_metadata" "instance_type" =
        some PKT_INSTANCE_TYPE_INGRESS_CLONE ∧
      ∀ r ∈ rest, r.phv.read "standard_metadata" "instance_type" ≠
        some PKT_INSTANCE_TYPE_INGRESS_CLONE) ∧
    ((4 : Int) = 0 →
      (sample.value (ingress_prologue sample.clone_env
        (sample.packet_on_port_1 sample.phv_standard))
        (sample.packet_on_port_1 sample.phv_standard)).phv.read
          "standard_metadata" "instance_type" ≠ some PKT_INSTANCE_TYPE_INGRESS_CLONE →
      ∀ q ∈ pushed .egress_buffer (ingress_thread sample.clone_env
          (sample.packet_on_port_1 sample.phv_standard)).trace,
        q.phv.read "standard_metadata" "instance_type" ≠
          some PKT_INSTANCE_TYPE_INGRESS_CLONE)) :=
  ⟨by decide,
   C5_ingress_clone_pushed_first sample.clone_env
    (sample.packet_on_port_1 sample.phv_standard)
    (sample.value (ingress_prologue sample.clone_env
      (sample.packet_on_port_1 sample.phv_standard))
      (sample.packet_on_port_1 sample.phv_standard))
    ⟨7, 4, 0, 0⟩ rfl rfl⟩

end simple_switch

namespace l2_switch
open bm

/-- C7, as stated, fails: the loop prunes against the port it re-reads from the field
`standard_metadata.ingress_port` (line 107), and that field, of fixed width, holds the
port reduced to its width.  With a 9-bit port field, a packet admitted on port 515 and
group 1 replicated to `[(515,10),(3,20)]`, the field reads 3: the clone for port 515, the
packet's own ingress port, is pushed, and the clone for port 3 is pruned. -/
theorem C7_wide_port_counterexample :
    (pipeline_prologue sample.wide_port_env_l2
        (sample.packet_on_port_515 sample.phv_l2)).result.toOption.map (fun r => r.2) =
      some 3 ∧
    (pushed .output_buffer (pipeline_thread sample.wide_port_env_l2
        (sample.packet_on_port_515 sample.phv_l2)).trace).map
      (fun q => (q.copy_id, q.egress_port, q.ingress_port)) = [(1, 515, 515)] := by
  decide

/-- C7 (amended; fused topology, pruning): the port the loop re-reads at line 107 is the
packet's ingress port reduced to the width of `standard_metadata.ingress_port`; for a
packet admitted with copy id 0, every clone the pipeline iteration pushes onto the output
queue (every pushed packet with a copy id other than 0) has an egress port different from
that re-read port and keeps the packet's ingress port as its own; when the packet's
ingress port fits the field (`0 ≤ port < 2 ^ width`) the clone's egress port differs from
the packet's ingress port. -/
theorem C7_multicast_prunes_stored_port (env : Env) (pkt : Packet)
    (hadm : pkt.copy_id = 0) :
    (∀ pkt' ip, (pipeline_prologue env pkt).result = .ok (pkt', ip) →
      ip = Field.stored env.port_width pkt.ingress_port) ∧
    ∀ q ∈ pushed .output_buffer (pipeline_thread env pkt).trace, q.copy_id ≠ 0 →
      q.egress_port ≠ Field.stored env.port_width pkt.ingress_port ∧
      q.ingress_port = pkt.ingress_port ∧
      (0 ≤ pkt.ingress_port → pkt.ingress_port < 2 ^ env.port_width →
        q.egress_port ≠ pkt.ingress_port ∧ q.egress_port ≠ q.ingress_port) := by
  have hsat : (pipeline_thread env pkt).Sat
      (Event.pruned (Field.stored env.port_width pkt.ingress_port) pkt.ingress_port) := by
    refine pipeline_thread_sat _ env pkt ?_ (fun _ _ _ _ _ => trivial) (fun _ => trivial)
      (fun p _ hport _ hin => ⟨rfl, fun _ => ⟨hport, hin⟩⟩)
      (fun pkt' ip d p _ _ _ _ hc _ _ => ⟨rfl, fun h => absurd (hc.trans hadm) h⟩)
    intro e h
    cases e <;> trivial
  refine ⟨fun pkt' ip hpro => ((pipeline_prologue_post env pkt).ok _ hpro).1, ?_⟩
  intro q hq hcopy
  obtain ⟨h1, h2⟩ := (hsat.all _ (mem_pushed.mp hq)).2 hcopy
  refine ⟨h1, h2, fun h0 hw => ?_⟩
  rw [Field.stored_of_range h0 hw] at h1
  exact ⟨h1, by rw [h2]; exact h1⟩

/-- C7, instance: group 1 replicated to ports 1, 2, 3 for a packet that came in on port 1
(9-bit port field) gives clones on ports 2 and 3 only. -/
theorem C7_pruning_witness :
    (pushed .output_buffer (pipeline_thread sample.flood_env_l2
        (sample.packet_on_port_1 sample.phv_l2)).trace).map
      (fun q => (q.copy_id, q.egress_port)) = [(1, 2), (2, 3)] ∧
    (sample.packet_on_port_1 sample.phv_l2).copy_id = 0 ∧
    (∀ pkt' ip, (pipeline_prologue sample.flood_env_l2
        (sample.packet_on_port_1 sample.phv_l2)).result = .ok (pkt', ip) →
      ip = Field.stored sample.flood_env_l2.port_width
        (sample.packet_on_port_1 sample.phv_l2).ingress_port) ∧
    ∀ q ∈ pushed .output_buffer (pipeline_thread sample.flood_env_l2
        (sample.packet_on_port_1 sample.phv_l2)).trace, q.copy_id ≠ 0 →
      q.egress_port ≠ Field.stored sample.flood_env_l2.port_width
        (sample.packet_on_port_1 sample.phv_l2).ingress_port ∧
      q.ingress_port = (sample.packet_on_port_1 sample.phv_l2).ingress_port ∧
      (0 ≤ (sample.packet_on_port_1 sample.phv_l2).ingress_port →
        (sample.packet_on_port_1 sample.phv_l2).ingress_port <
          2 ^ sample.flood_env_l2.port_width →
        q.egress_port ≠ (sample.packet_on_port_1 sample.phv_l2).ingress_port ∧
        q.egress_port ≠ q.ingress_port) :=
  ⟨by decide, rfl,
   C7_multicast_prunes_stored_port sample.flood_env_l2
    (sample.packet_on_port_1 sample.phv_l2) rfl⟩

end l2_switch

namespace bm

/-- C8, as stated, fails for long call sequences: the counter is a C++ `int`, so after
2^31 calls the next packet (call number 2^31, counting from 0) does not get id 2^31 but
the wrapped value -2^31, smaller than every id assigned before. -/
theorem C8_packet_id_wraps_counterexample :
    ((receive_all simple_switch.receive (Admission.init ⟨[]⟩)
        (List.replicate (2 ^ 31) ⟨0, [], 0⟩ ++ [⟨0, [], 0⟩])).2.input_buffer.reverse)[2 ^ 31]?.map
      (fun p => p.packet_id) = some (-2147483648) := by
  obtain ⟨-, ps, h2, -, h4⟩ := receive_all_spec simple_switch.receive (fun _ _ _ _ => rfl)
    (List.replicate (2 ^ 31) ⟨0, [], 0⟩ ++ [⟨0, [], 0⟩]) (Admission.init ⟨[]⟩) (by
      show int_wrap 0 = 0
      exact int_wrap_of_range (le_refl 0) (by norm_num))
  have hcall : (List.replicate (2 ^ 31) (⟨0, [], 0⟩ : Call) ++ [⟨0, [], 0⟩])[2 ^ 31]? =
      some ⟨0, [], 0⟩ := by
    rw [List.getElem?_append_right (by rw [List.length_replicate])]
    rw [List.length_replicate, Nat.sub_self]
    rfl
  rw [h2]
  simp only [Admission.init, List.append_nil, List.reverse_reverse]
  rw [h4 (2 ^ 31), hcall]
  simp only [Option.map_some', Admission.init, Packet.new, Option.some.injEq]
  unfold int_wrap
  norm_num

/-- C8 (amended; both topologies, admission): in a sequence of at most 2^31 `receive`
calls made one after another from process start, every call returns 0 and pushes exactly
one packet onto the ingress queue; the packet of the k-th call (counting from 0) has the
call's port as ingress port, packet id k, copy id 0 and the call's length as ingress
length. -/
theorem C8_receive_assigns_sequential_ids (blank : PHV) (calls : List Call)
    (hlen : calls.length ≤ 2 ^ 31) :
    ((receive_all simple_switch.receive (Admission.init blank) calls).1 =
        List.replicate calls.length 0 ∧
      (receive_all simple_switch.receive (Admission.init blank) calls).2.input_buffer.length =
        calls.length ∧
      ∀ k : Nat,
        ((receive_all simple_switch.receive (Admission.init blank) calls).2.input_buffer.reverse)[k]?
          = calls[k]?.map (fun c => Packet.new blank c.port_num k 0 c.len c.buffer)) ∧
    ((receive_all l2_switch.receive (Admission.init blank) calls).1 =
        List.replicate calls.length 0 ∧
      (receive_all l2_switch.receive (Admission.init blank) calls).2.input_buffer.length =
        calls.length ∧
      ∀ k : Nat,
        ((receive_all l2_switch.receive (Admission.init blank) calls).2.input_buffer.reverse)[k]?
          = calls[k]?.map (fun c => Packet.new blank c.port_num k 0 c.len c.buffer)) := by
  have key : ∀ recv : Admission → Int → List Nat → Int → Int × Admission,
      (∀ st p b l, recv st p b l =
        (0, { st with pkt_id := int_wrap (st.pkt_id + 1),
                      input_buffer := Packet.new st.phv_factory p st.pkt_id 0 l b ::
                        st.input_buffer })) →
      (receive_all recv (Admission.init blank) calls).1 = List.replicate calls.length 0 ∧
      (receive_all recv (Admission.init blank) calls).2.input_buffer.length = calls.length ∧
      ∀ k : Nat, ((receive_all recv (Admission.init blank) calls).2.input_buffer.reverse)[k]? =
        calls[k]?.map (fun c => Packet.new blank c.port_num k 0 c.len c.buffer) := by
    intro recv hrecv
    obtain ⟨h1, ps, h2, h3, h4⟩ := receive_all_spec recv hrecv calls (Admission.init blank) (by
      show int_wrap 0 = 0
      exact int_wrap_of_range (le_refl 0) (by norm_num))
    refine ⟨h1, ?_, fun k => ?_⟩
    · rw [h2]; simp [Admission.init, h3]
    · rw [h2]
      simp only [Admission.init, List.append_nil, List.reverse_reverse]
      rw [h4 k]
      by_cases hk : k < calls.length
      · have hwrap : int_wrap ((0 : Int) + (k : Int)) = (k : Int) := by
          rw [zero_add]
          apply int_wrap_of_range (Int.natCast_nonneg k)
          have : k < 2 ^ 31 := lt_of_lt_of_le hk hlen
          exact_mod_cast this
        simp only [Admission.init, hwrap]
      · rw [List.getElem?_eq_none (not_lt.mp hk)]
        simp only [Option.map_none']
  exact ⟨key _ (fun _ _ _ _ => rfl), key _ (fun _ _ _ _ => rfl)⟩

/-- C8, instance: two calls give packet ids 0 and 1, in either topology. -/
theorem C8_receive_witness :
    ((receive_all simple_switch.receive (Admission.init sample.phv_standard)
        sample.two_calls).2.input_buffer.reverse).map
      (fun p => (p.packet_id, p.ingress_port, p.copy_id, p.ingress_length)) =
      [(0, 1, 0, 2), (1, 3, 0, 1)] ∧
    sample.two_calls.length ≤ 2 ^ 31 ∧
    (((receive_all simple_switch.receive (Admission.init sample.phv_standard)
          sample.two_calls).1 = List.replicate sample.two_calls.length 0 ∧
      (receive_all simple_switch.receive (Admission.init sample.phv_standard)
          sample.two_calls).2.input_buffer.length = sample.two_calls.length ∧
      ∀ k : Nat,
        ((receive_all simple_switch.receive (Admission.init sample.phv_standard)
            sample.two_calls).2.input_buffer.reverse)[k]?
          = sample.two_calls[k]?.map
            (fun c => Packet.new sample.phv_standard c.port_num k 0 c.len c.buffer)) ∧
    ((receive_all l2_switch.receive (Admission.init sample.phv_standard)
          sample.two_calls).1 = List.replicate sample.two_calls.length 0 ∧
      (receive_all l2_switch.receive (Admission.init sample.phv_standard)
          sample.two_calls).2.input_buffer.length = sample.two_calls.length ∧
      ∀ k : Nat,
        ((receive_all l2_switch.receive (Admission.init sample.phv_standard)
            sample.two_calls).2.input_buffer.reverse)[k]?
          = sample.two_calls[k]?.map
            (fun c => Packet.new sample.phv_standard c.port_num k 0 c.len c.buffer))) :=
  ⟨by decide, by decide,
   C8_receive_assigns_sequential_ids sample.phv_standard sample.two_calls (by decide)⟩

end bm

namespace bm

/-- C9, as stated, fails in the fused topology: `pipeline_thread` reads
`intrinsic_metadata.learn_id` without any `has_header`/`has_field` check, so a packet whose
field-set has no `intrinsic_metadata` header makes the iteration access the absent field
and stop with a field-access fault. -/
theorem C9_fused_unguarded_access_counterexample :
    sample.phv_standard.has_header "intrinsic_metadata" = false ∧
    Event.get_field "intrinsic_metadata" "learn_id" ∈
      (l2_switch.pipeline_thread (sample.fused_env [] (fun _ => []))
        (sample.packet_on_port_1 sample.phv_standard)).trace ∧
    (l2_switch.pipeline_thread (sample.fused_env [] (fun _ => []))
        (sample.packet_on_port_1 sample.phv_standard)).result =
      .error (.field_absent "intrinsic_metadata" "learn_id") :=
  ⟨by decide, by decide, rfl⟩

/-- C9 (amended): in the split topology, the ingress iteration on a packet whose field-set
has no `intrinsic_metadata` header performs no `get_field`, read or write on any
`intrinsic_metadata` field, and completes without a fault when the fields the constructor
declares as required are present.  The fused topology has no such guard: its iteration
never completes normally on a packet without the header. -/
theorem C9_split_guards_intrinsic_metadata (env : simple_switch.Env) (pkt : Packet)
    (hh : pkt.phv.has_header "intrinsic_metadata" = false) :
    (∀ e ∈ (simple_switch.ingress_thread env pkt).trace,
      e.touches "intrinsic_metadata" = false) ∧
    ((∀ f ∈ simple_switch.required_fields, pkt.phv.has_field f.1 f.2 = true) →
      (simple_switch.ingress_thread env pkt).result = .ok ()) ∧
    (∀ (envF : l2_switch.Env) (pktF : Packet),
      pktF.phv.has_header "intrinsic_metadata" = false →
      (l2_switch.pipeline_thread envF pktF).result ≠ .ok ()) := by
  refine ⟨?_, ?_, ?_⟩
  · -- no access
    refine (simple_switch.ingress_thread_sat (fun e => e.touches "intrinsic_metadata" = false)
      env pkt ⟨fun e he => ?_⟩ (fun pkt' hpro => ?_)).all
    · rw [simple_switch.ingress_prologue_trace, List.mem_cons] at he
      rcases he with he | he
      · rw [he]; rfl
      · exact (simple_switch.ingress_metadata_untouched env _ (by simpa using hh)).all e he
    · obtain ⟨-, hhdr, -⟩ := simple_switch.ingress_prologue_spec hpro
      have hh' : pkt'.phv.has_header "intrinsic_metadata" = false := by rw [hhdr]; exact hh
      refine simple_switch.ingress_dispatch_sat _ env pkt'
        (simple_switch.ingress_decision_untouched pkt' hh') (fun d hd => ?_)
      have hd0 := ((simple_switch.ingress_decision_spec hd).2.2.1 hh')
      have hstd : ∀ v : Int, (Event.set "standard_metadata" "instance_type" v).touches
          "intrinsic_metadata" = false := by
        intro v
        simp [Event.touches]
      have hget : (Event.get "standard_metadata" "instance_type").touches
          "intrinsic_metadata" = false := by decide
      refine ⟨simple_switch.ingress_cloning_sat _ _ _ hstd
        (fun _ _ _ => rfl), fun p2 cid hcl => ⟨?_, ?_⟩⟩
      · exact simple_switch.ingress_learning_sat _ _ _ (fun _ => rfl)
      · have hcid := ((simple_switch.ingress_cloning_post pkt' d.clone_spec).ok _ hcl).1
        exact simple_switch.ingress_forward_sat _ env p2 d cid hget
          (fun hg => absurd hd0.2 hg) (fun _ _ => rfl) hcid
  · -- completion
    intro hreq
    have hip := hreq ("standard_metadata", "ingress_port") (by decide)
    have hpl := hreq ("standard_metadata", "packet_length") (by decide)
    have hit := hreq ("standard_metadata", "instance_type") (by decide)
    have hes := hreq ("standard_metadata", "egress_spec") (by decide)
    have hcs := hreq ("standard_metadata", "clone_spec") (by decide)
    simp only at hip hpl hit hes hcs
    obtain ⟨pkt', hpro⟩ := simple_switch.ingress_metadata_ok env
      { pkt with phv := pkt.phv.reset_metadata } (by simpa using hip) (by simpa using hpl)
      (by simpa using hit)
    rw [← simple_switch.ingress_prologue_result] at hpro
    obtain ⟨hlay, hhdr, -⟩ := simple_switch.ingress_prologue_spec hpro
    obtain ⟨e, c, hdec⟩ := simple_switch.ingress_decision_ok_of_no_header pkt'
      (by rw [hlay]; exact hes) (by rw [hlay]; exact hcs) (by rw [hhdr]; exact hh)
    obtain ⟨p2, cid, hcl, hlay2, -⟩ := simple_switch.ingress_cloning_ok pkt' c
      (by rw [hlay]; exact hit)
    rw [simple_switch.ingress_thread_of_ok hpro hdec hcl,
      simple_switch.ingress_forward_unicast env p2 _ cid rfl
        (by rw [hlay2, hlay]; exact hit)]
  · -- the fused topology needs the header
    intro envF pktF hhF hok
    unfold l2_switch.pipeline_thread at hok
    obtain ⟨r, hpro, hdisp⟩ := Exec.result_bind hok
    obtain ⟨pkt', ip⟩ := r
    unfold l2_switch.pipeline_dispatch at hdisp
    obtain ⟨d, hdec, -⟩ := Exec.result_bind hdisp
    have hlay := ((l2_switch.pipeline_prologue_post envF pktF).ok _ hpro).2.2.2.2
    have hl := PHV.has_header_of_has_field
      (PHV.has_field_of_read (l2_switch.pipeline_decision_spec hdec).2.1)
    rw [PHV.has_header_eq_layout] at hl hhF
    simp only at hlay
    rw [hlay, hhF] at hl
    exact absurd hl (by decide)

/-- C9, instance: a unicast packet without the `intrinsic_metadata` header goes through
the split ingress iteration without any access to that header and without a fault. -/
theorem C9_split_guards_witness :
    sample.phv_standard.has_header "intrinsic_metadata" = false ∧
    (simple_switch.ingress_thread
        (sample.split_env [("standard_metadata", "egress_spec", 7)] (fun _ => []))
        (sample.packet_on_port_1 sample.phv_standard)).result = .ok () ∧
    ((∀ e ∈ (simple_switch.ingress_thread
          (sample.split_env [("standard_metadata", "egress_spec", 7)] (fun _ => []))
          (sample.packet_on_port_1 sample.phv_standard)).trace,
      e.touches "intrinsic_metadata" = false) ∧
    ((∀ f ∈ simple_switch.required_fields,
        (sample.packet_on_port_1 sample.phv_standard).phv.has_field f.1 f.2 = true) →
      (simple_switch.ingress_thread
        (sample.split_env [("standard_metadata", "egress_spec", 7)] (fun _ => []))
        (sample.packet_on_port_1 sample.phv_standard)).result = .ok ()) ∧
    (∀ (envF : l2_switch.Env) (pktF : Packet),
      pktF.phv.has_header "intrinsic_metadata" = false →
      (l2_switch.pipeline_thread envF pktF).result ≠ .ok ())) :=
  ⟨by decide, rfl,
   C9_split_guards_intrinsic_metadata
    (sample.split_env [("standard_metadata", "egress_spec", 7)] (fun _ => []))
    (sample.packet_on_port_1 sample.phv_standard) (by decide)⟩

/-- C10, as stated, fails in the fused topology: `pipeline_thread` never calls
`reset_metadata`; here a packet is processed and forwarded without any such call. -/
theorem C10_fused_no_reset_counterexample :
    Event.reset_metadata ∉
      (l2_switch.pipeline_thread
        (sample.fused_env [("standard_metadata", "egress_port", 2)] (fun _ => []))
        (sample.packet_on_port_1 sample.phv_l2)).trace ∧
    (pushed .output_buffer (l2_switch.pipeline_thread
        (sample.fused_env [("standard_metadata", "egress_port", 2)] (fun _ => []))
        (sample.packet_on_port_1 sample.phv_l2)).trace).map (fun q => q.egress_port) = [2] :=
  ⟨by decide, by decide⟩

/-- C10 (amended): in the split topology the ingress iteration calls `reset_metadata`
exactly once per popped packet, as its first action, hence before any field is written
and before the parser and the ingress match-action stage run; the fused topology's
iteration never calls `reset_metadata`. -/
theorem C10_split_resets_metadata_first (env : simple_switch.Env) (envF : l2_switch.Env)
    (pkt : Packet) :
    (∃ rest, (simple_switch.ingress_thread env pkt).trace = Event.reset_metadata :: rest ∧
      ∀ e ∈ rest, e ≠ Event.reset_metadata) ∧
    (∀ e ∈ (l2_switch.pipeline_thread envF pkt).trace, e ≠ Event.reset_metadata) := by
  have hnr : ∀ e : Event, e.not_reset → e ≠ Event.reset_metadata := by
    intro e h hc; rw [hc] at h; exact h
  have hint : ∀ e, Event.internal e = true → Event.not_reset e := by
    intro e h
    cases e <;> trivial
  have hdisp : ∀ pkt', (simple_switch.ingress_dispatch env pkt').Sat Event.not_reset := by
    intro pkt'
    refine simple_switch.ingress_dispatch_sat _ env pkt'
      (Exec.sat_of_internal (simple_switch.ingress_decision_internal pkt') hint)
      (fun d _ => ⟨simple_switch.ingress_cloning_sat _ _ _ (fun _ => trivial)
        (fun _ _ _ => trivial), fun p2 cid hcl => ⟨?_, ?_⟩⟩)
    · exact simple_switch.ingress_learning_sat _ _ _ (fun _ => trivial)
    · have hcid := ((simple_switch.ingress_cloning_post pkt' d.clone_spec).ok _ hcl).1
      exact simple_switch.ingress_forward_sat _ env p2 d cid trivial
        (fun _ => ⟨trivial, trivial, fun _ => trivial, fun _ => trivial,
          fun _ _ _ _ => trivial⟩) (fun _ _ => trivial) hcid
  have hmeta := simple_switch.ingress_metadata_internal env
    { pkt with phv := pkt.phv.reset_metadata }
  refine ⟨?_, fun e he => hnr e ((l2_switch.pipeline_thread_sat Event.not_reset envF pkt hint
    (fun _ _ _ _ _ => trivial) (fun _ => trivial) (fun _ _ _ _ _ => trivial)
    (fun _ _ _ _ _ _ _ _ _ _ _ => trivial)).all e he)⟩
  cases hres : (simple_switch.ingress_prologue env pkt).result with
  | error x =>
    rw [simple_switch.ingress_thread_of_prologue_error hres,
      simple_switch.ingress_prologue_trace]
    exact ⟨_, rfl, fun e he => hnr e (hint e (hmeta.all e he))⟩
  | ok pkt' =>
    rw [simple_switch.ingress_thread_of_prologue_ok hres,
      simple_switch.ingress_prologue_trace]
    refine ⟨_, rfl, fun e he => ?_⟩
    rcases List.mem_append.mp he with he | he
    · exact hnr e (hint e (hmeta.all e he))
    · exact hnr e ((hdisp pkt').all e he)

end bm

namespace l2_switch
open bm

/-- C11 (fused topology): when the learn id read after the ingress match-action stage is
positive, the notifier call is immediately followed by the write of 0 to
`intrinsic_metadata.learn_id`, nothing is handed to the egress stage or pushed before
that, and every packet the iteration hands to the egress match-action stage (the unicast
original or a multicast clone, each pushed onto the output queue afterwards) carries
learn id 0 at that moment. -/
theorem C11_learn_id_zero_at_egress (env : Env) (pkt pkt' : Packet) (ip : Int)
    (d : Decision)
    (hpro : (pipeline_prologue env pkt).result = .ok (pkt', ip))
    (hdec : (pipeline_decision pkt').result = .ok d)
    (hv : d.learn_id > 0) :
    (∃ pre post, (pipeline_thread env pkt).trace =
        pre ++ [Event.learn d.learn_id pkt', .get_field "intrinsic_metadata" "learn_id",
          .set "intrinsic_metadata" "learn_id" 0] ++ post ∧
      learned pre = [] ∧ learned post = [] ∧ egress_inputs pre = [] ∧
      pushed .output_buffer pre = []) ∧
    pushed .output_buffer (pipeline_thread env pkt).trace =
      (egress_inputs (pipeline_thread env pkt).trace).map (egress_side env) ∧
    ∀ p ∈ egress_inputs (pipeline_thread env pkt).trace,
      p.phv.read "intrinsic_metadata" "learn_id" = some 0 := by
  obtain ⟨src, mid, hphv, -, -, -, -, hm, hmid, hthr⟩ := pipeline_thread_eq hpro hdec
  obtain ⟨q1, q2, q3⟩ := pipeline_preamble_quiet env pkt pkt'
  obtain ⟨f1, f2, f3, f4⟩ := pipeline_forward_inputs env src ip d hm
  simp only [hv, if_true] at hphv hmid
  have hl : pkt'.phv.has_field "intrinsic_metadata" "learn_id" = true :=
    PHV.has_field_of_read (pipeline_decision_spec hdec).2.1
  have hsrc : src.phv.read "intrinsic_metadata" "learn_id" = some 0 := by
    rw [hphv]; exact PHV.read_write_same _ _ _ _ hl
  have hmidq : egress_inputs mid = [] ∧ pushed .output_buffer mid = [] := by
    rw [hmid]; exact ⟨rfl, rfl⟩
  rw [hthr]
  refine ⟨⟨_, _, by rw [hmid], q3, f2, q1, q2⟩, ?_, ?_⟩
  · simp only [pushed_append, egress_inputs_append, q1, q2, hmidq.1, hmidq.2, f1,
      List.nil_append]
  · intro p hp
    simp only [egress_inputs_append, q1, hmidq.1, List.nil_append] at hp
    by_cases hg : d.mgid = 0
    · rw [f3 hg p hp]
      exact hsrc
    · obtain ⟨hc, -⟩ := (clones_spec _ _ _ _).2.2 p (f4 hg p hp)
      rw [hc]
      simp only
      rw [PHV.read_write_other _ _ _ _ _ _ (by decide)]
      exact hsrc

/-- C11, instance: learn id 42 with multicast group 1 replicated to ports 2 and 3: both
clones enter the egress stage with learn id 0. -/
theorem C11_learn_id_witness :
    (egress_inputs (pipeline_thread sample.learn_flood_env_l2
        (sample.packet_on_port_1 sample.phv_l2)).trace).map
      (fun p => (p.egress_port, p.phv.read "intrinsic_metadata" "learn_id")) =
      [(2, some 0), (3, some 0)] ∧
    (learned (pipeline_thread sample.learn_flood_env_l2
        (sample.packet_on_port_1 sample.phv_l2)).trace).map (fun c => c.1) = [42] ∧
    ((∃ pre post, (pipeline_thread sample.learn_flood_env_l2
          (sample.packet_on_port_1 sample.phv_l2)).trace =
        pre ++ [Event.learn 42 (sample.value (pipeline_prologue sample.learn_flood_env_l2
            (sample.packet_on_port_1 sample.phv_l2))
            (sample.packet_on_port_1 sample.phv_l2, 0)).1,
          .get_field "intrinsic_metadata" "learn_id",
          .set "intrinsic_metadata" "learn_id" 0] ++ post ∧
      learned pre = [] ∧ learned post = [] ∧ egress_inputs pre = [] ∧
      pushed .output_buffer pre = []) ∧
    pushed .output_buffer (pipeline_thread sample.learn_flood_env_l2
        (sample.packet_on_port_1 sample.phv_l2)).trace =
      (egress_inputs (pipeline_thread sample.learn_flood_env_l2
        (sample.packet_on_port_1 sample.phv_l2)).trace).map
        (egress_side sample.learn_flood_env_l2) ∧
    ∀ p ∈ egress_inputs (pipeline_thread sample.learn_flood_env_l2
        (sample.packet_on_port_1 sample.phv_l2)).trace,
      p.phv.read "intrinsic_metadata" "learn_id" = some 0) :=
  ⟨by decide, by decide,
   C11_learn_id_zero_at_egress sample.learn_flood_env_l2
    (sample.packet_on_port_1 sample.phv_l2)
    (sample.value (pipeline_prologue sample.learn_flood_env_l2
      (sample.packet_on_port_1 sample.phv_l2))
      (sample.packet_on_port_1 sample.phv_l2, 0)).1
    1 ⟨0, 42, 1⟩ rfl rfl (by decide)⟩

/-- C13, as stated, fails in three ways.  The fused loop writes no replication id and no
instance type: for group 1 replicated to `[(1,10),(2,20),(3,30)]` and a packet that came
in on port 9, the clones keep replication id 0 and instance type 0 instead of 10, 20, 30
and REPLICATION (5).  The branch asserts `mgid == 1`: for group 2 the iteration stops at
the assertion, without calling the replication engine and without pushing anything.  And
the pruning compares with the port re-read from the 9-bit field
`standard_metadata.ingress_port`: for a packet admitted on port 515 and group 1
replicated to `[(515,10),(3,20)]` the clone pushed is the one for port 515, not the one
for port 3. -/
theorem C13_fused_multicast_counterexample :
    (pushed .output_buffer (pipeline_thread sample.flood_env_l2
        { sample.packet_on_port_1 sample.phv_l2_rid with ingress_port := 9 }).trace).map
      (fun q => (q.egress_port, q.phv.read "intrinsic_metadata" "egress_rid",
        q.phv.read "standard_metadata" "instance_type")) =
      [(1, some 0, some 0), (2, some 0, some 0), (3, some 0, some 0)] ∧
    (pipeline_thread sample.group2_env_l2 (sample.packet_on_port_1 sample.phv_l2)).result =
      .error .assertion_failed ∧
    pushed .output_buffer (pipeline_thread sample.group2_env_l2
      (sample.packet_on_port_1 sample.phv_l2)).trace = [] ∧
    Event.replicate 2 ∉ (pipeline_thread sample.group2_env_l2
      (sample.packet_on_port_1 sample.phv_l2)).trace ∧
    (pushed .output_buffer (pipeline_thread sample.wide_port_env_l2
        (sample.packet_on_port_515 sample.phv_l2)).trace).map
      (fun q => q.egress_port) = [515] :=
  ⟨by decide, rfl, by decide, by decide, by decide⟩

/-- C13 (amended; fused topology, nonzero multicast group).  `ip`, the port re-read at
line 107, is the packet's ingress port reduced to the width of its field.  For group 1
the iteration completes, calls the replication engine with group 1 and hands to the
egress stage, then pushes onto the output queue, one clone for each replication pair
whose egress port differs from `ip`, in the pairs' order, with that pair's egress port
and copy ids 1, 2, ...; all clones enter the egress stage with one and the same field-set
(no per-clone replication id or instance type is written), and the original is not
pushed.  For every group other than 0 and 1 the iteration stops at the assertion
`mgid == 1`: the replication engine is not called, nothing is handed to the egress stage
and nothing is pushed. -/
theorem C13_fused_multicast_by_group (env : Env) (pkt pkt' : Packet) (ip : Int)
    (d : Decision)
    (hpro : (pipeline_prologue env pkt).result = .ok (pkt', ip))
    (hdec : (pipeline_decision pkt').result = .ok d) :
    ip = Field.stored env.port_width pkt.ingress_port ∧
    (d.mgid = 1 →
      (pipeline_thread env pkt).result = .ok () ∧
      Event.replicate 1 ∈ (pipeline_thread env pkt).trace ∧
      (egress_inputs (pipeline_thread env pkt).trace).map (fun p => p.egress_port) =
        ((env.replicate 1).filter (fun o => decide (o.egress_port ≠ ip))).map
          (fun o => o.egress_port) ∧
      pushed .output_buffer (pipeline_thread env pkt).trace =
        (egress_inputs (pipeline_thread env pkt).trace).map (egress_side env) ∧
      (pushed .output_buffer (pipeline_thread env pkt).trace).map (fun q => q.egress_port) =
        ((env.replicate 1).filter (fun o => decide (o.egress_port ≠ ip))).map
          (fun o => o.egress_port) ∧
      (pushed .output_buffer (pipeline_thread env pkt).trace).map (fun q => q.copy_id) =
        List.range' 1 ((env.replicate 1).filter
          (fun o => decide (o.egress_port ≠ ip))).length ∧
      (∃ phv0, ∀ p ∈ egress_inputs (pipeline_thread env pkt).trace, p.phv = phv0)) ∧
    (d.mgid ≠ 0 → d.mgid ≠ 1 →
      (pipeline_thread env pkt).result = .error .assertion_failed ∧
      (∀ g, Event.replicate g ∉ (pipeline_thread env pkt).trace) ∧
      egress_inputs (pipeline_thread env pkt).trace = [] ∧
      pushed .output_buffer (pipeline_thread env pkt).trace = []) := by
  obtain ⟨src, mid, -, -, -, -, hip, hm, hmid, hthr⟩ := pipeline_thread_eq hpro hdec
  obtain ⟨q1, q2, -⟩ := pipeline_preamble_quiet env pkt pkt'
  obtain ⟨f1, -, -, -⟩ := pipeline_forward_inputs env src ip d hm
  have hmidq : egress_inputs mid = [] ∧ pushed .output_buffer mid = [] := by
    rw [hmid]; split <;> exact ⟨rfl, rfl⟩
  have hpush : pushed .output_buffer (pipeline_thread env pkt).trace =
      (egress_inputs (pipeline_thread env pkt).trace).map (egress_side env) := by
    rw [hthr]
    simp only [pushed_append, egress_inputs_append, q1, q2, hmidq.1, hmidq.2, f1,
      List.nil_append]
  refine ⟨hip, fun hg => ?_, fun h0 h1 => ?_⟩
  · have hfwd := (pipeline_forward_eq env src ip d hm).2.2.1 hg
    obtain ⟨-, k2, -, -⟩ := pipeline_replication_loop_spec env
      { src with phv := src.phv.write "intrinsic_metadata" "mgid" 0 } ip (env.replicate 1) 1
    obtain ⟨c1, c2, c3⟩ := clones_spec
      { src with phv := src.phv.write "intrinsic_metadata" "mgid" 0 } ip (env.replicate 1) 1
    have hin : egress_inputs (pipeline_thread env pkt).trace =
        clones { src with phv := src.phv.write "intrinsic_metadata" "mgid" 0 } ip
          (env.replicate 1) 1 := by
      rw [hthr]
      simp only [egress_inputs_append, q1, hmidq.1, List.nil_append, hfwd, k2]
      rfl
    refine ⟨?_, ?_, ?_, hpush, ?_, ?_,
      ⟨src.phv.write "intrinsic_metadata" "mgid" 0, fun p hp => ?_⟩⟩
    · rw [hthr, hfwd]
    · rw [hthr, hfwd]
      simp
    · rw [hin, c1]
    · rw [hpush, hin, List.map_map, ← c1]
      apply List.map_congr_left
      intro c _
      simp [egress_side]
    · rw [hpush, hin, List.map_map, ← c2]
      apply List.map_congr_left
      intro c _
      simp [egress_side]
    · rw [hin] at hp
      exact (c3 p hp).1
  · have hfwd := (pipeline_forward_eq env src ip d hm).2.2.2 h0 h1
    have hin : egress_inputs (pipeline_thread env pkt).trace = [] := by
      rw [hthr]
      simp only [egress_inputs_append, q1, hmidq.1, List.nil_append, hfwd]
      rfl
    refine ⟨by rw [hthr, hfwd], fun g hmem => ?_, hin, by rw [hpush, hin]; rfl⟩
    rw [hthr, hfwd] at hmem
    simp only [List.append_nil, List.mem_append] at hmem
    rcases hmem with (h | h) | h
    · have := (pipeline_prologue_internal env pkt).all _ h
      simp [Event.internal] at this
    · have := (pipeline_decision_internal pkt').all _ h
      simp [Event.internal] at this
    · rw [hmid] at h
      split at h <;> simp at h

/-- C13, instance: group 1 replicated to ports 1, 2, 3 for a packet that came in on port
1 gives clones with copy ids 1 and 2 on ports 2 and 3; a request for group 7 stops at the
assertion with nothing pushed. -/
theorem C13_fused_multicast_witness :
    (pushed .output_buffer (pipeline_thread sample.flood_env_l2
        (sample.packet_on_port_1 sample.phv_l2)).trace).map
      (fun q => (q.copy_id, q.egress_port)) = [(1, 2), (2, 3)] ∧
    ((pipeline_thread sample.group7_env_l2
        (sample.packet_on_port_1 sample.phv_l2)).result = .error .assertion_failed ∧
      pushed .output_buffer (pipeline_thread sample.group7_env_l2
        (sample.packet_on_port_1 sample.phv_l2)).trace = []) ∧
    ((1 : Int) = Field.stored sample.flood_env_l2.port_width
        (sample.packet_on_port_1 sample.phv_l2).ingress_port ∧
    ((1 : Nat) = 1 →
      (pipeline_thread sample.flood_env_l2
        (sample.packet_on_port_1 sample.phv_l2)).result = .ok () ∧
      Event.replicate 1 ∈ (pipeline_thread sample.flood_env_l2
        (sample.packet_on_port_1 sample.phv_l2)).trace ∧
      (egress_inputs (pipeline_thread sample.flood_env_l2
        (sample.packet_on_port_1 sample.phv_l2)).trace).map (fun p => p.egress_port) =
        ((sample.flood_env_l2.replicate 1).filter
          (fun o => decide (o.egress_port ≠ 1))).map (fun o => o.egress_port) ∧
      pushed .output_buffer (pipeline_thread sample.flood_env_l2
        (sample.packet_on_port_1 sample.phv_l2)).trace =
        (egress_inputs (pipeline_thread sample.flood_env_l2
          (sample.packet_on_port_1 sample.phv_l2)).trace).map
          (egress_side sample.flood_env_l2) ∧
      (pushed .output_buffer (pipeline_thread sample.flood_env_l2
        (sample.packet_on_port_1 sample.phv_l2)).trace).map (fun q => q.egress_port) =
        ((sample.flood_env_l2.replicate 1).filter
          (fun o => decide (o.egress_port ≠ 1))).map (fun o => o.egress_port) ∧
      (pushed .output_buffer (pipeline_thread sample.flood_env_l2
        (sample.packet_on_port_1 sample.phv_l2)).trace).map (fun q => q.copy_id) =
        List.range' 1 ((sample.flood_env_l2.replicate 1).filter
          (fun o => decide (o.egress_port ≠ 1))).length ∧
      (∃ phv0, ∀ p ∈ egress_inputs (pipeline_thread sample.flood_env_l2
        (sample.packet_on_port_1 sample.phv_l2)).trace, p.phv = phv0)) ∧
    ((1 : Nat) ≠ 0 → (1 : Nat) ≠ 1 →
      (pipeline_thread sample.flood_env_l2
        (sample.packet_on_port_1 sample.phv_l2)).result = .error .assertion_failed ∧
      (∀ g, Event.replicate g ∉ (pipeline_thread sample.flood_env_l2
        (sample.packet_on_port_1 sample.phv_l2)).trace) ∧
      egress_inputs (pipeline_thread sample.flood_env_l2
        (sample.packet_on_port_1 sample.phv_l2)).trace = [] ∧
      pushed .output_buffer (pipeline_thread sample.flood_env_l2
        (sample.packet_on_port_1 sample.phv_l2)).trace = [])) :=
  ⟨by decide, ⟨rfl, by decide⟩,
   C13_fused_multicast_by_group sample.flood_env_l2
    (sample.packet_on_port_1 sample.phv_l2)
    (sample.value (pipeline_prologue sample.flood_env_l2
      (sample.packet_on_port_1 sample.phv_l2))
      (sample.packet_on_port_1 sample.phv_l2, 0)).1
    1 ⟨0, 0, 1⟩ rfl rfl⟩

/-- C18 (fused topology): when the multicast group read after the ingress stage is
nonzero, `intrinsic_metadata.mgid` is written to 0 before the replication engine is
called and before anything is handed to the egress stage or pushed, and every clone
enters the egress match-action stage with `mgid` 0; when the group read is 0, the
original enters the egress stage with a `mgid` field that reads as 0.  Every pushed
packet is the egress-side image of a packet that entered the egress stage this way. -/
theorem C18_mgid_zero_at_egress (env : Env) (pkt pkt' : Packet) (ip : Int) (d : Decision)
    (hpro : (pipeline_prologue env pkt).result = .ok (pkt', ip))
    (hdec : (pipeline_decision pkt').result = .ok d) :
    (d.mgid ≠ 0 → ∀ p ∈ egress_inputs (pipeline_thread env pkt).trace,
      p.copy_id ≠ 0 ∧ p.phv.read "intrinsic_metadata" "mgid" = some 0) ∧
    (d.mgid = 0 → ∀ p ∈ egress_inputs (pipeline_thread env pkt).trace,
      ∃ v, p.phv.read "intrinsic_metadata" "mgid" = some v ∧ (v % 2 ^ 32).toNat = 0) ∧
    pushed .output_buffer (pipeline_thread env pkt).trace =
      (egress_inputs (pipeline_thread env pkt).trace).map (egress_side env) ∧
    (d.mgid = 1 → ∃ pre post, (pipeline_thread env pkt).trace =
        pre ++ [Event.get_field "intrinsic_metadata" "mgid",
          .set "intrinsic_metadata" "mgid" 0, .replicate 1] ++ post ∧
      egress_inputs pre = [] ∧ pushed .output_buffer pre = []) := by
  obtain ⟨src, mid, hphv, -, -, -, -, hm, hmid, hthr⟩ := pipeline_thread_eq hpro hdec
  obtain ⟨q1, q2, -⟩ := pipeline_preamble_quiet env pkt pkt'
  obtain ⟨f1, -, f3, f4⟩ := pipeline_forward_inputs env src ip d hm
  obtain ⟨-, -, v, hv, hdv⟩ := pipeline_decision_spec hdec
  have hmidq : egress_inputs mid = [] ∧ pushed .output_buffer mid = [] := by
    rw [hmid]; split <;> exact ⟨rfl, rfl⟩
  have hsrc : src.phv.read "intrinsic_metadata" "mgid" = some v := by
    rw [hphv]
    split
    · rw [PHV.read_write_other _ _ _ _ _ _ (by decide)]; exact hv
    · exact hv
  have hin : egress_inputs (pipeline_thread env pkt).trace =
      egress_inputs (pipeline_forward env src ip d).trace := by
    rw [hthr]
    simp only [egress_inputs_append, q1, hmidq.1, List.nil_append]
  refine ⟨fun hg p hp => ?_, fun hg p hp => ?_, ?_, fun hg => ?_⟩
  · rw [hin] at hp
    obtain ⟨hc, -, -, -, hcid⟩ := (clones_spec _ _ _ _).2.2 p (f4 hg p hp)
    refine ⟨by omega, ?_⟩
    rw [hc]
    exact PHV.read_write_same _ _ _ _ hm
  · rw [hin] at hp
    rw [f3 hg p hp]
    exact ⟨v, hsrc, by rw [← hdv]; exact hg⟩
  · rw [hthr]
    simp only [pushed_append, egress_inputs_append, q1, q2, hmidq.1, hmidq.2, f1,
      List.nil_append]
  · have hfwd := (pipeline_forward_eq env src ip d hm).2.2.1 hg
    rw [hthr, hfwd]
    refine ⟨((pipeline_prologue env pkt).trace ++ (pipeline_decision pkt').trace) ++ mid,
      (replication_loop env { src with phv := src.phv.write "intrinsic_metadata" "mgid" 0 }
        ip (env.replicate 1) 1).trace, ?_, ?_, ?_⟩
    · simp only [List.append_assoc]
    · rw [egress_inputs_append, q1, hmidq.1]; rfl
    · rw [pushed_append, q2, hmidq.2]; rfl

/-- C18, instance: group 1 replicated to ports 1, 2, 3 for a packet that came in on port
1: the two clones enter the egress stage with `mgid` 0. -/
theorem C18_mgid_witness :
    (egress_inputs (pipeline_thread sample.flood_env_l2
        (sample.packet_on_port_1 sample.phv_l2)).trace).map
      (fun p => (p.egress_port, p.phv.read "intrinsic_metadata" "mgid")) =
      [(2, some 0), (3, some 0)] ∧
    (((1 : Nat) ≠ 0 → ∀ p ∈ egress_inputs (pipeline_thread sample.flood_env_l2
        (sample.packet_on_port_1 sample.phv_l2)).trace,
      p.copy_id ≠ 0 ∧ p.phv.read "intrinsic_metadata" "mgid" = some 0) ∧
    ((1 : Nat) = 0 → ∀ p ∈ egress_inputs (pipeline_thread sample.flood_env_l2
        (sample.packet_on_port_1 sample.phv_l2)).trace,
      ∃ v, p.phv.read "intrinsic_metadata" "mgid" = some v ∧ (v % 2 ^ 32).toNat = 0) ∧
    pushed .output_buffer (pipeline_thread sample.flood_env_l2
        (sample.packet_on_port_1 sample.phv_l2)).trace =
      (egress_inputs (pipeline_thread sample.flood_env_l2
        (sample.packet_on_port_1 sample.phv_l2)).trace).map
        (egress_side sample.flood_env_l2) ∧
    ((1 : Nat) = 1 → ∃ pre post, (pipeline_thread sample.flood_env_l2
        (sample.packet_on_port_1 sample.phv_l2)).trace =
        pre ++ [Event.get_field "intrinsic_metadata" "mgid",
          .set "intrinsic_metadata" "mgid" 0, .replicate 1] ++ post ∧
      egress_inputs pre = [] ∧ pushed .output_buffer pre = [])) :=
  ⟨by decide,
   C18_mgid_zero_at_egress sample.flood_env_l2
    (sample.packet_on_port_1 sample.phv_l2)
    (sample.value (pipeline_prologue sample.flood_env_l2
      (sample.packet_on_port_1 sample.phv_l2))
      (sample.packet_on_port_1 sample.phv_l2, 0)).1
    1 ⟨0, 0, 1⟩ rfl rfl⟩

end l2_switch

namespace simple_switch
open bm

/-- C12 is broken by the code: at line 181 the clone branch writes NORMAL to
`standard_metadata.instance_type` instead of the value the field had before the branch.
Here the ingress stage leaves instance type 6 and clone-spec 4; after the clone branch the
original carries instance type 0 (NORMAL), and is pushed with it. -/
theorem C12_instance_type_not_restored :
    (sample.value (ingress_prologue sample.retag_and_clone_env
        (sample.packet_on_port_1 sample.phv_standard))
        (sample.packet_on_port_1 sample.phv_standard)).phv.read
      "standard_metadata" "instance_type" = some 6 ∧
    (ingress_decision (sample.value (ingress_prologue sample.retag_and_clone_env
        (sample.packet_on_port_1 sample.phv_standard))
        (sample.packet_on_port_1 sample.phv_standard))).result = .ok ⟨0, 4, 0, 0⟩ ∧
    (ingress_cloning (sample.value (ingress_prologue sample.retag_and_clone_env
        (sample.packet_on_port_1 sample.phv_standard))
        (sample.packet_on_port_1 sample.phv_standard)) 4).result.toOption.map
      (fun r => r.1.phv.read "standard_metadata" "instance_type") =
      some (some PKT_INSTANCE_TYPE_NORMAL) ∧
    (pushed .egress_buffer (ingress_thread sample.retag_and_clone_env
        (sample.packet_on_port_1 sample.phv_standard)).trace).map
      (fun q => (q.copy_id, q.phv.read "standard_metadata" "instance_type")) =
      [(1, some PKT_INSTANCE_TYPE_INGRESS_CLONE), (0, some PKT_INSTANCE_TYPE_NORMAL)] :=
  ⟨by decide, rfl, by decide, by decide⟩

/-- C16, as stated, fails: a clone takes its egress port from the clone-spec without any
check, and the egress iteration tests the egress-spec field, not the packet's egress
port.  With clone-spec 511 and egress-spec 7 the transmit queue receives a packet with
egress port 511 (the clone) next to the original on port 7. -/
theorem C16_clone_to_511_counterexample :
    ((pushed .egress_buffer (ingress_thread sample.clone_to_511_env
        (sample.packet_on_port_1 sample.phv_standard)).trace).flatMap
      (fun q => pushed .output_buffer (egress_thread sample.clone_to_511_env q).trace)).map
      (fun r => (r.copy_id, r.egress_port)) = [(1, 511), (0, 7)] := by
  decide

/-- C16 (amended; split topology): for a packet admitted with copy id 0, the original
instance is never pushed onto the egress queue with egress port 511, whatever egress-spec,
clone-spec, multicast group, replication output and stages are; the egress iteration
pushes a packet onto the transmit queue with the identity and egress port it was popped
with, so the original never reaches the transmit queue with egress port 511 either. -/
theorem C16_original_never_to_drop_port (env : Env) (pkt : Packet)
    (hadm : pkt.copy_id = 0) :
    ∀ q ∈ pushed .egress_buffer (ingress_thread env pkt).trace,
      (q.copy_id = pkt.copy_id → q.egress_port ≠ 511) ∧
      ∀ r ∈ pushed .output_buffer (egress_thread env q).trace,
        r.copy_id = q.copy_id ∧ r.egress_port = q.egress_port ∧
        (r.copy_id = pkt.copy_id → r.egress_port ≠ 511) := by
  have hint : ∀ e, Event.internal e = true → Event.original_not_to_drop_port e := by
    intro e h
    cases e <;> trivial
  have hsat : (ingress_thread env pkt).Sat Event.original_not_to_drop_port := by
    refine ingress_thread_sat _ env pkt ⟨fun e he => ?_⟩ (fun pkt' _ => ?_)
    · rcases ingress_prologue_internal env pkt e he with h | h
      · rw [h]; trivial
      · exact hint e h
    · refine ingress_dispatch_sat _ env pkt'
        (Exec.sat_of_internal (ingress_decision_internal pkt') hint) (fun d _ => ?_)
      refine ⟨ingress_cloning_sat _ _ _ (fun _ => trivial)
        (fun p hp _ h0 => by rw [hp] at h0; exact absurd h0 (by decide)),
        fun p2 cid hcl => ⟨?_, ?_⟩⟩
      · exact ingress_learning_sat _ _ _ (fun _ => trivial)
      · have hcid := ((ingress_cloning_post pkt' d.clone_spec).ok _ hcl).1
        exact ingress_forward_sat _ env p2 d cid trivial
          (fun _ => ⟨trivial, trivial, fun _ => trivial, fun _ => trivial,
            fun p hp _ _ h0 => absurd h0 hp⟩)
          (fun _ he _ => he) hcid
  intro q hq
  have hq0 : q.copy_id = 0 → q.egress_port ≠ 511 := hsat.all _ (mem_pushed.mp hq)
  refine ⟨fun h => hq0 (h.trans hadm), fun r hr => ?_⟩
  obtain ⟨h1, -, h3⟩ := egress_thread_pushed env q r hr
  exact ⟨h1, h3, fun h => by rw [h3]; exact hq0 (h1.symm.trans (h.trans hadm))⟩

/-- C16, instance: with clone-spec 511 and egress-spec 7 the original (copy id 0) goes
out with egress port 7. -/
theorem C16_original_witness :
    (sample.packet_on_port_1 sample.phv_standard).copy_id = 0 ∧
    ∀ q ∈ pushed .egress_buffer (ingress_thread sample.clone_to_511_env
        (sample.packet_on_port_1 sample.phv_standard)).trace,
      (q.copy_id = (sample.packet_on_port_1 sample.phv_standard).copy_id →
        q.egress_port ≠ 511) ∧
      ∀ r ∈ pushed .output_buffer (egress_thread sample.clone_to_511_env q).trace,
        r.copy_id = q.copy_id ∧ r.egress_port = q.egress_port ∧
        (r.copy_id = (sample.packet_on_port_1 sample.phv_standard).copy_id →
          r.egress_port ≠ 511) :=
  ⟨rfl, C16_original_never_to_drop_port sample.clone_to_511_env
    (sample.packet_on_port_1 sample.phv_standard) rfl⟩

/-- C17 (split topology): with clone-spec `c`, multicast group `g` and egress-spec `e`
read after the ingress match-action stage, the ingress iteration completes and the number
of packets it pushes onto the egress queue is (1 if `c ≠ 0`) + (the length of the
replication output for `g` if `g ≠ 0`, else 1 if `e ≠ 511`, else 0); the original
(copy id 0) is among them exactly when `g = 0` and `e ≠ 511`. -/
theorem C17_push_count (env : Env) (pkt pkt' : Packet) (d : Decision)
    (hadm : pkt.copy_id = 0)
    (hpro : (ingress_prologue env pkt).result = .ok pkt')
    (hdec : (ingress_decision pkt').result = .ok d)
    (hrid : d.mgid ≠ 0 → pkt'.phv.has_field "intrinsic_metadata" "egress_rid" = true) :
    (ingress_thread env pkt).result = .ok () ∧
    (pushed .egress_buffer (ingress_thread env pkt).trace).length =
      (if d.clone_spec ≠ 0 then 1 else 0) +
        (if d.mgid ≠ 0 then (env.replicate d.mgid).length
         else if d.egress_spec ≠ 511 then 1 else 0) ∧
    ((∃ q ∈ pushed .egress_buffer (ingress_thread env pkt).trace, q.copy_id = 0) ↔
      (d.mgid = 0 ∧ d.egress_spec ≠ 511)) := by
  obtain ⟨hlay, -, hcopy, -, -, hit0⟩ := ingress_prologue_spec hpro
  have hit : pkt'.phv.has_field "standard_metadata" "instance_type" = true := by
    rw [hlay]; exact hit0
  obtain ⟨p2, cid, hcl, hlay2, hc2, -, -, hcid, -, -, hz, hnz⟩ :=
    ingress_cloning_ok pkt' d.clone_spec hit
  have hit2 : p2.phv.has_field "standard_metadata" "instance_type" = true := by
    rw [hlay2]; exact hit
  have hp20 : p2.copy_id = 0 := by rw [hc2, hcopy, hadm]
  have hpush := pushed_ingress_thread .egress_buffer hpro hdec hcl
  have hcl_len : (pushed .egress_buffer (ingress_cloning pkt' d.clone_spec).trace).length =
      (if d.clone_spec ≠ 0 then 1 else 0) ∧
      ∀ q ∈ pushed .egress_buffer (ingress_cloning pkt' d.clone_spec).trace, q.copy_id ≠ 0 := by
    by_cases hc : d.clone_spec = 0
    · rw [(hz hc).1]; simp [hc]
    · obtain ⟨q, hq, hid, -⟩ := hnz hc
      rw [hq]
      refine ⟨by simp [hc], fun q' hq' => ?_⟩
      simp only [List.mem_singleton] at hq'
      rw [hq', hid]; decide
  by_cases hg : d.mgid = 0
  · have hfwd := ingress_forward_unicast env p2 d cid hg hit2
    refine ⟨by rw [ingress_thread_of_ok hpro hdec hcl, hfwd], ?_, ?_⟩
    · rw [hpush, List.length_append, hcl_len.1, hfwd]
      by_cases he : d.egress_spec = 511 <;> simp [hg, he, pushed]
    · rw [hpush, hfwd]
      constructor
      · rintro ⟨q, hq, hq0⟩
        refine ⟨hg, fun he => ?_⟩
        rw [List.mem_append] at hq
        rcases hq with hq | hq
        · exact hcl_len.2 q hq hq0
        · simp [he, pushed] at hq
      · rintro ⟨-, he⟩
        refine ⟨p2.set_egress_port d.egress_spec, ?_, by simpa [Packet.set_egress_port] using hp20⟩
        apply List.mem_append_right
        simp [he, pushed]
  · have hrid2 : p2.phv.has_field "intrinsic_metadata" "egress_rid" = true := by
      rw [hlay2]; exact hrid hg
    obtain ⟨itv, hfwd⟩ := ingress_forward_multicast env p2 d cid hg hrid2 hit2
    obtain ⟨p3, -, -, hobs, hcids, -⟩ :=
      replication_loop_spec (env.replicate d.mgid) p2 cid hrid2 hit2
    have hfp : pushed .egress_buffer (ingress_forward env p2 d cid).trace =
        pushed .egress_buffer (replication_loop p2 (env.replicate d.mgid) cid).trace := by
      rw [hfwd]
      simp [pushed_append, pushed]
    have hlen : (pushed .egress_buffer
        (replication_loop p2 (env.replicate d.mgid) cid).trace).length =
        (env.replicate d.mgid).length := by
      have := congrArg List.length hobs
      simpa using this
    refine ⟨by rw [ingress_thread_of_ok hpro hdec hcl, hfwd], ?_, ?_⟩
    · rw [hpush, List.length_append, hcl_len.1, hfp, hlen]
      simp [hg]
    · rw [hpush, hfp]
      constructor
      · rintro ⟨q, hq, hq0⟩
        exfalso
        rw [List.mem_append] at hq
        rcases hq with hq | hq
        · exact hcl_len.2 q hq hq0
        · have hmem : q.copy_id ∈ List.range' cid (env.replicate d.mgid).length := by
            rw [← hcids]; exact List.mem_map_of_mem _ hq
          rw [List.mem_range'_1] at hmem
          omega
      · rintro ⟨h, -⟩
        exact absurd h hg

/-- C17, instance: clone-spec 4 with group 9 (two members) pushes 1 + 2 packets, none of
them the original. -/
theorem C17_push_count_witness :
    (pushed .egress_buffer (ingress_thread sample.clone_and_flood_env
        (sample.packet_on_port_1 sample.phv_intrinsic)).trace).map
      (fun q => (q.copy_id, q.egress_port)) = [(1, 4), (2, 3), (3, 5)] ∧
    ((ingress_thread sample.clone_and_flood_env
        (sample.packet_on_port_1 sample.phv_intrinsic)).result = .ok () ∧
    (pushed .egress_buffer (ingress_thread sample.clone_and_flood_env
        (sample.packet_on_port_1 sample.phv_intrinsic)).trace).length =
      (if (4 : Int) ≠ 0 then 1 else 0) +
        (if (9 : Nat) ≠ 0 then (sample.clone_and_flood_env.replicate 9).length
         else if (0 : Int) ≠ 511 then 1 else 0) ∧
    ((∃ q ∈ pushed .egress_buffer (ingress_thread sample.clone_and_flood_env
        (sample.packet_on_port_1 sample.phv_intrinsic)).trace, q.copy_id = 0) ↔
      ((9 : Nat) = 0 ∧ (0 : Int) ≠ 511))) :=
  ⟨by decide,
   C17_push_count sample.clone_and_flood_env
    (sample.packet_on_port_1 sample.phv_intrinsic)
    (sample.value (ingress_prologue sample.clone_and_flood_env
      (sample.packet_on_port_1 sample.phv_intrinsic))
      (sample.packet_on_port_1 sample.phv_intrinsic))
    ⟨0, 4, 0, 9⟩ rfl rfl rfl (fun _ => by decide)⟩

end simple_switch

namespace bm

/-- C15 (both topologies, instance identity): for a packet admitted with copy id 0,
whatever the stages, clone-spec, multicast group and replication output are (and also on
a path that stops at an absent field or a failed assertion), every packet the ingress
iteration pushes onto the next queue has the popped packet's packet id, and the copy ids
of the pushed packets, in push order, are 1, 2, ..., n for the clones followed by 0 if the
original is pushed; in particular they are pairwise distinct. -/
theorem C15_copy_ids_distinct
    (envS : simple_switch.Env) (pktS : Packet) (envF : l2_switch.Env) (pktF : Packet)
    (hadmS : pktS.copy_id = 0) (hadmF : pktF.copy_id = 0) :
    ((∀ q ∈ pushed .egress_buffer (simple_switch.ingress_thread envS pktS).trace,
        q.packet_id = pktS.packet_id) ∧
     ((pushed .egress_buffer (simple_switch.ingress_thread envS pktS).trace).map
        (fun q => q.copy_id)).Nodup ∧
     ∃ n orig, (pushed .egress_buffer (simple_switch.ingress_thread envS pktS).trace).map
        (fun q => q.copy_id) = List.range' 1 n ++ orig ∧ (orig = [] ∨ orig = [0])) ∧
    ((∀ q ∈ pushed .output_buffer (l2_switch.pipeline_thread envF pktF).trace,
        q.packet_id = pktF.packet_id) ∧
     ((pushed .output_buffer (l2_switch.pipeline_thread envF pktF).trace).map
        (fun q => q.copy_id)).Nodup ∧
     ∃ n orig, (pushed .output_buffer (l2_switch.pipeline_thread envF pktF).trace).map
        (fun q => q.copy_id) = List.range' 1 n ++ orig ∧ (orig = [] ∨ orig = [0])) := by
  obtain ⟨n, orig, h1, h2⟩ := simple_switch.ingress_thread_copy_ids envS pktS hadmS
  obtain ⟨m, origF, k1, k2⟩ := l2_switch.pipeline_thread_copy_ids envF pktF hadmF
  refine ⟨⟨fun q hq => ?_, ?_, n, orig, h1, h2⟩, ⟨fun q hq => ?_, ?_, m, origF, k1, k2⟩⟩
  · exact (simple_switch.ingress_thread_push_ids envS pktS).all _ (mem_pushed.mp hq)
  · rw [h1]; exact copy_ids_nodup n orig h2
  · exact (l2_switch.pipeline_thread_push_ids envF pktF).all _ (mem_pushed.mp hq)
  · rw [k1]; exact copy_ids_nodup m origF k2

/-- C15, instance: with clone-spec 4 and a two-member group the split iteration pushes
copy ids 1, 2, 3; the fused iteration flooding group 1 from port 1 pushes copy ids 1, 2. -/
theorem C15_copy_ids_witness :
    ((pushed .egress_buffer (simple_switch.ingress_thread sample.clone_and_flood_env
        (sample.packet_on_port_1 sample.phv_intrinsic)).trace).map
      (fun q => q.copy_id) = [1, 2, 3] ∧
     (pushed .output_buffer (l2_switch.pipeline_thread sample.flood_env_l2
        (sample.packet_on_port_1 sample.phv_l2)).trace).map
      (fun q => q.copy_id) = [1, 2]) ∧
    (sample.packet_on_port_1 sample.phv_intrinsic).copy_id = 0 ∧
    (sample.packet_on_port_1 sample.phv_l2).copy_id = 0 ∧
    ((∀ q ∈ pushed .egress_buffer (simple_switch.ingress_thread sample.clone_and_flood_env
          (sample.packet_on_port_1 sample.phv_intrinsic)).trace,
        q.packet_id = (sample.packet_on_port_1 sample.phv_intrinsic).packet_id) ∧
     ((pushed .egress_buffer (simple_switch.ingress_thread sample.clone_and_flood_env
          (sample.packet_on_port_1 sample.phv_intrinsic)).trace).map
        (fun q => q.copy_id)).Nodup ∧
     ∃ n orig, (pushed .egress_buffer (simple_switch.ingress_thread
          sample.clone_and_flood_env (sample.packet_on_port_1 sample.phv_intrinsic)).trace).map
        (fun q => q.copy_id) = List.range' 1 n ++ orig ∧ (orig = [] ∨ orig = [0])) ∧
    ((∀ q ∈ pushed .output_buffer (l2_switch.pipeline_thread sample.flood_env_l2
          (sample.packet_on_port_1 sample.phv_l2)).trace,
        q.packet_id = (sample.packet_on_port_1 sample.phv_l2).packet_id) ∧
     ((pushed .output_buffer (l2_switch.pipeline_thread sample.flood_env_l2
          (sample.packet_on_port_1 sample.phv_l2)).trace).map
        (fun q => q.copy_id)).Nodup ∧
     ∃ n orig, (pushed .output_buffer (l2_switch.pipeline_thread sample.flood_env_l2
          (sample.packet_on_port_1 sample.phv_l2)).trace).map
        (fun q => q.copy_id) = List.range' 1 n ++ orig ∧ (orig = [] ∨ orig = [0])) :=
  ⟨⟨by decide, by decide⟩, rfl, rfl,
   C15_copy_ids_distinct sample.clone_and_flood_env
    (sample.packet_on_port_1 sample.phv_intrinsic) sample.flood_env_l2
    (sample.packet_on_port_1 sample.phv_l2) rfl rfl⟩

end bm
